import Mathlib

/-!
Triangle Soup Editor: a shallow embedding of `Assignment_2/src/main.cpp`.

The editor keeps its scene in global variables that are mutated by GLFW callbacks.
Here the globals become one record (`State`), every callback becomes a function on that
record, and raw pointers into `triangles` become indices (`&triangles[i]` is `some i`,
`NULL` is `none`).  Reading through an index that is out of range is undefined behaviour
in the source and `none` in the embedding.

Coordinates range over an arbitrary linearly ordered field `K` (take `K = ℚ` to run the
definitions, `K = ℝ` for trigonometry), and geometry is done in exact arithmetic.  The only
place where the source can divide by zero is `Triangle::isInside`; there the two local
`double`s are modelled by `Dbl`, which adds the IEEE-754 values `+inf`, `-inf` and `NaN` to
`K`.

The roundings of the machine arithmetic are parameters (`MathLib.f32`, `MathLib.f64`): with
the identity they give exact arithmetic, with `roundF32`, `roundF64` (round to nearest, ties
to even) the `float` and `double` arithmetic of the machine.  The keys that change the zoom
factor and the scene offsets go through them, and `Triangle.isInsideF` is `isInside` with
every operation rounded.
-/

namespace Soup

/-! ## Vectors, vertices -/

/-- The type `glm::vec2`. -/
structure Vec2 (K : Type) where
  x : K
  y : K
deriving DecidableEq

/-- The type `glm::vec3` (only used for colours). -/
structure Vec3 (K : Type) where
  x : K
  y : K
  z : K
deriving DecidableEq

variable {K : Type} [LinearOrderedField K]

/-- Componentwise `glm::vec2 + glm::vec2`. -/
def Vec2.add (a b : Vec2 K) : Vec2 K := ⟨a.x + b.x, a.y + b.y⟩

/-- Componentwise `glm::vec2 - glm::vec2`. -/
def Vec2.sub (a b : Vec2 K) : Vec2 K := ⟨a.x - b.x, a.y - b.y⟩

/-- Scalar product `glm::vec2 * double` (as used by `v *= factor`). -/
def Vec2.smul (a : Vec2 K) (f : K) : Vec2 K := ⟨a.x * f, a.y * f⟩

/-- Scalar quotient `glm::vec2 / double` (as used by `ds /= ...`); the divisor is the
non-zero constant `ANIMATION_TIME / ANIMATION_STEP` at its only use. -/
def Vec2.sdiv (a : Vec2 K) (f : K) : Vec2 K := ⟨a.x / f, a.y / f⟩

/-- The struct `Vertex`: a position and a colour. -/
structure Vertex (K : Type) where
  vertex : Vec2 K
  color : Vec3 K
deriving DecidableEq

/-! ## IEEE special values for the two local doubles of `isInside` -/

/-- A `double` with exact finite arithmetic: a finite value of `K`, `+inf`, `-inf` or `NaN`.
Signed zeros are not stored; the one operation whose result depends on the sign of a zero,
division by zero, takes that sign as an argument. -/
inductive Dbl (K : Type) where
  | fin (v : K)
  | pinf
  | ninf
  | nan
deriving DecidableEq

/-- IEEE multiplication: `inf * 0 = NaN`, otherwise the signs multiply. -/
def Dbl.mul : Dbl K → Dbl K → Dbl K
  | .fin a, .fin b => .fin (a * b)
  | .fin a, .pinf => if a = 0 then .nan else if 0 < a then .pinf else .ninf
  | .fin a, .ninf => if a = 0 then .nan else if 0 < a then .ninf else .pinf
  | .pinf, .fin b => if b = 0 then .nan else if 0 < b then .pinf else .ninf
  | .ninf, .fin b => if b = 0 then .nan else if 0 < b then .ninf else .pinf
  | .pinf, .pinf => .pinf
  | .pinf, .ninf => .ninf
  | .ninf, .pinf => .ninf
  | .ninf, .ninf => .pinf
  | .nan, _ => .nan
  | _, .nan => .nan

/-- IEEE addition: `inf + (-inf) = NaN`. -/
def Dbl.add : Dbl K → Dbl K → Dbl K
  | .fin a, .fin b => .fin (a + b)
  | .fin _, .pinf => .pinf
  | .fin _, .ninf => .ninf
  | .pinf, .fin _ => .pinf
  | .ninf, .fin _ => .ninf
  | .pinf, .pinf => .pinf
  | .ninf, .ninf => .ninf
  | .pinf, .ninf => .nan
  | .ninf, .pinf => .nan
  | .nan, _ => .nan
  | _, .nan => .nan

/-- IEEE subtraction: `inf - inf = NaN`. -/
def Dbl.sub : Dbl K → Dbl K → Dbl K
  | .fin a, .fin b => .fin (a - b)
  | .fin _, .pinf => .ninf
  | .fin _, .ninf => .pinf
  | .pinf, .fin _ => .pinf
  | .ninf, .fin _ => .ninf
  | .pinf, .ninf => .pinf
  | .ninf, .pinf => .ninf
  | .pinf, .pinf => .nan
  | .ninf, .ninf => .nan
  | .nan, _ => .nan
  | _, .nan => .nan

/-- IEEE division.  `negZero` says that the divisor, when it is zero, is the negative zero:
`x / 0` is `NaN` for `x = 0` and an infinity whose sign is the sign of `x` times the sign of
the zero otherwise; `inf / inf = NaN`; `x / inf = 0`. -/
def Dbl.div (negZero : Bool) : Dbl K → Dbl K → Dbl K
  | .fin a, .fin b =>
      if b = 0 then
        if a = 0 then .nan
        else if (decide (0 < a)) != negZero then .pinf else .ninf
      else .fin (a / b)
  | .fin _, .pinf => .fin 0
  | .fin _, .ninf => .fin 0
  | .pinf, .fin b =>
      if b = 0 then (if negZero then .ninf else .pinf)
      else if 0 < b then .pinf else .ninf
  | .ninf, .fin b =>
      if b = 0 then (if negZero then .pinf else .ninf)
      else if 0 < b then .ninf else .pinf
  | .pinf, .pinf => .nan
  | .pinf, .ninf => .nan
  | .ninf, .pinf => .nan
  | .ninf, .ninf => .nan
  | .nan, _ => .nan
  | _, .nan => .nan

/-- IEEE comparison `a <= b`: false as soon as one side is `NaN`. -/
def Dbl.le : Dbl K → Dbl K → Bool
  | .fin a, .fin b => decide (a ≤ b)
  | .fin _, .pinf => true
  | .fin _, .ninf => false
  | .pinf, .fin _ => false
  | .ninf, .fin _ => true
  | .pinf, .pinf => true
  | .ninf, .ninf => true
  | .ninf, .pinf => true
  | .pinf, .ninf => false
  | .nan, _ => false
  | _, .nan => false

/-! ## The class `Triangle` -/

/-- The class `Triangle`: the private members `vertices`, `complete` and the public
`fillColor`, `outlineColor`. -/
structure Triangle (K : Type) where
  vertices : List (Vertex K)
  complete : Bool
  fillColor : Vec3 K
  outlineColor : Vec3 K
deriving DecidableEq

/-- The default colour argument `glm::vec3(1.0f, 1.0f, 1.0f)`. -/
def white : Vec3 K := ⟨1, 1, 1⟩

/-- The default colour argument `glm::vec3(0.0f, 0.0f, 0.0f)`. -/
def black : Vec3 K := ⟨0, 0, 0⟩

/-- The constructor `Triangle::Triangle(fillColor, outlineColor)`. -/
def Triangle.mk0 (fillColor outlineColor : Vec3 K) : Triangle K :=
  { vertices := [], complete := false, fillColor := fillColor, outlineColor := outlineColor }

/-- The call `Triangle()` with both default arguments. -/
def Triangle.new : Triangle K := Triangle.mk0 white black

/-- The method `Triangle::addVertex(v, c)`. -/
def Triangle.addVertex (T : Triangle K) (v : Vec2 K) (c : Vec3 K) : Triangle K :=
  if T.complete then T
  else
    let vs := T.vertices ++ [Vertex.mk v c]
    { T with vertices := vs, complete := decide (vs.length = 3) }

/-- The method `Triangle::isComplete`. -/
def Triangle.isComplete (T : Triangle K) : Bool := T.complete

/-- The method `Triangle::size`. -/
def Triangle.size (T : Triangle K) : Nat := T.vertices.length

/-- The method `Triangle::isInside(P)` in exact arithmetic (`isInsideF` is the same method
with every operation rounded), with the signs `z1`, `z2` of the two divisors when
they are zero (`true` for the negative zero).  `w1` and `w2` are the source's two `double`s;
every other quantity is a finite difference or product of coordinates.  The last branch
(a complete triangle with fewer than three vertices) cannot be built with the class's
methods, which set `complete` only when the third vertex is appended. -/
def Triangle.isInsideZ (z1 z2 : Bool) (T : Triangle K) (P : Vec2 K) : Bool :=
  if !T.isComplete then false
  else
    match T.vertices with
    | vA :: vB :: vC :: _ =>
      let A := vA.vertex
      let B := vB.vertex
      let C := vC.vertex
      let w1 : Dbl K :=
        Dbl.div z1
          (.fin (A.x * (C.y - A.y) + (P.y - A.y) * (C.x - A.x) - P.x * (C.y - A.y)))
          (.fin ((B.y - A.y) * (C.x - A.x) - (B.x - A.x) * (C.y - A.y)))
      let w2 : Dbl K :=
        Dbl.div z2 (Dbl.sub (.fin (P.y - A.y)) (Dbl.mul w1 (.fin (B.y - A.y))))
          (.fin (C.y - A.y))
      Dbl.le (.fin 0) w1 && Dbl.le (.fin 0) w2 && Dbl.le (Dbl.add w1 w2) (.fin 1)
    | _ => false

/-- The method `Triangle::isInside(P)`; a zero divisor is taken to be the positive zero
(`isInsideZ_eq_isInside` shows that the result does not depend on that choice). -/
def Triangle.isInside (T : Triangle K) (P : Vec2 K) : Bool :=
  T.isInsideZ false false P

/-- The method `Triangle::move(delta)`. -/
def Triangle.move (T : Triangle K) (delta : Vec2 K) : Triangle K :=
  if !T.isComplete then T
  else { T with vertices := T.vertices.map (fun v => { v with vertex := v.vertex.add delta }) }

/-- The method `Triangle::barycenter`; `none` when one of `vertices[0..2]` does not exist. -/
def Triangle.barycenter (T : Triangle K) : Option (Vec2 K) :=
  match T.vertices with
  | v0 :: v1 :: v2 :: _ =>
    some ⟨(v0.vertex.x + v1.vertex.x + v2.vertex.x) / 3,
          (v0.vertex.y + v1.vertex.y + v2.vertex.y) / 3⟩
  | _ => none

/-- The functions of the C math library that the editor calls and that a field does not
have: `cos(glm::radians(a))`, `sin(glm::radians(a))` for an angle `a` in degrees, and
`glm::distance`; and the two roundings of the machine arithmetic: `f32 x` is the `float`
and `f64 x` the `double` that an operation with the exact result `x` delivers. -/
structure MathLib (K : Type) where
  cosDeg : K → K
  sinDeg : K → K
  distance : Vec2 K → Vec2 K → K
  f32 : K → K
  f64 : K → K

/-- The method `Triangle::rotate(angle)`. -/
def Triangle.rotate (lib : MathLib K) (T : Triangle K) (angle : K) : Option (Triangle K) :=
  match T.barycenter with
  | none => none
  | some Pc =>
    some { T with vertices := T.vertices.map (fun v =>
      let P0 := v.vertex
      let x1 := (P0.x - Pc.x) * lib.cosDeg angle - (P0.y - Pc.y) * lib.sinDeg angle + Pc.x
      let y1 := (P0.x - Pc.x) * lib.sinDeg angle + (P0.y - Pc.y) * lib.cosDeg angle + Pc.y
      { v with vertex := ⟨x1, y1⟩ }) }

/-- The method `Triangle::scale(factor)`. -/
def Triangle.scale (T : Triangle K) (factor : K) : Option (Triangle K) :=
  if factor ≤ 0 then some T
  else
    match T.barycenter with
    | none => none
    | some Pc =>
      some { T with vertices := T.vertices.map (fun v =>
        { v with vertex := ((v.vertex.sub Pc).smul factor).add Pc }) }

/-! ## Global state -/

/-- The enum `AppMode`. -/
inductive AppMode where
  | NONE
  | INSERTION
  | TRANSFORMATION
  | REMOVE
  | COLOR_VERTEX
  | ANIMATION
deriving DecidableEq, Repr

/-- The constant `ANIMATION_TIME`. -/
def ANIMATION_TIME : ℚ := 5

/-- The constant `ANIMATION_STEP` (the decimal `0.01`). -/
def ANIMATION_STEP : ℚ := 1 / 100

/-- Conversion of a `double` to `int`: truncation toward zero. -/
def cTrunc (q : ℚ) : ℤ := if 0 ≤ q then ⌊q⌋ else ⌈q⌉

/-- The global variables of `main.cpp` that the callbacks read or write.  Pointers into
`triangles` are indices; `selectedVertex` is the pair (triangle index, vertex index).
`AnimationDeltas` is a vector that always has its initial size 3, kept as a triple.  The
render buffers `V`, `C`, `VBO`, `VBO_C` and the matrix `view` only feed the renderer and
are left out; pointer positions reach the callbacks already in world coordinates. -/
structure State (K : Type) where
  curMode : AppMode
  triangles : List (Triangle K)
  selectedTriangle : Option Nat
  selectedVertex : Option (Nat × Nat)
  touchPos : Vec2 K
  ZoomFactor : K
  SceneOffsetX : K
  SceneOffsetY : K
  restoreTriangle : Triangle K
  animationStartTriangle : Option Nat
  animationFinalTriangle : Option Nat
  AnimationTimeout : Int
  AnimationDeltas : Vec2 K × Vec2 K × Vec2 K
  DrawingsInProgress : Bool
  TranslationInProgress : Bool
  AnimationInProgress : Int

/-- The values of the globals when `main` starts (globals without an initialiser are
zero-initialised). -/
def State.init : State K :=
  { curMode := AppMode.INSERTION
    triangles := []
    selectedTriangle := none
    selectedVertex := none
    touchPos := ⟨0, 0⟩
    ZoomFactor := 1
    SceneOffsetX := 0
    SceneOffsetY := 0
    restoreTriangle := Triangle.new
    animationStartTriangle := none
    animationFinalTriangle := none
    AnimationTimeout := cTrunc ANIMATION_TIME
    AnimationDeltas := (⟨0, 0⟩, ⟨0, 0⟩, ⟨0, 0⟩)
    DrawingsInProgress := false
    TranslationInProgress := false
    AnimationInProgress := 0 }

/-- The table `COLOURS`. -/
def COLOURS : List (Vec3 K) :=
  [⟨1, 1 / 2, 1 / 2⟩, ⟨1, 0, 0⟩, ⟨0, 1, 0⟩, ⟨0, 0, 1⟩, ⟨0, 1, 1⟩,
   ⟨1, 1 / 10, 3 / 10⟩, ⟨1, 3 / 10, 1 / 10⟩, ⟨6 / 10, 6 / 10, 6 / 10⟩,
   ⟨7 / 10, 7 / 10, 7 / 10⟩, ⟨2 / 10, 2 / 10, 2 / 10⟩]

/-! ## Insertion mode -/

/-- The function `handleInsertionMove`: `triangles.back()[size - 1].vertex = p`. -/
def handleInsertionMove (s : State K) (p : Vec2 K) : Option (State K) :=
  if s.DrawingsInProgress then
    match s.triangles.getLast? with
    | none => none
    | some t =>
      match t.vertices[t.size - 1]? with
      | none => none
      | some v =>
        let t1 : Triangle K :=
          { t with vertices := t.vertices.set (t.size - 1) (Vertex.mk p v.color) }
        some { s with triangles := s.triangles.set (s.triangles.length - 1) t1 }
  else some s

/-- The function `handleInsertionClick`. -/
def handleInsertionClick (s : State K) (p : Vec2 K) : Option (State K) :=
  if s.DrawingsInProgress then
    match s.triangles.getLast? with
    | none => none
    | some t =>
      if t.isComplete then some { s with DrawingsInProgress := false }
      else
        some { s with
          triangles := s.triangles.set (s.triangles.length - 1) (t.addVertex p white) }
  else
    some { s with
      triangles := s.triangles ++ [((Triangle.new).addVertex p white).addVertex p white]
      DrawingsInProgress := true }

/-! ## Transformation mode -/

/-- The function `handleSelectionMove`. -/
def handleSelectionMove (s : State K) (p : Vec2 K) : Option (State K) :=
  if s.TranslationInProgress = false then some s
  else
    match s.selectedTriangle with
    | none => some s
    | some i =>
      match s.triangles[i]? with
      | none => none
      | some t =>
        some { s with
          touchPos := p
          triangles := s.triangles.set i (t.move (p.sub s.touchPos)) }

/-- The loop of `handleTranslationClick`, from index `i` on: every triangle that contains
`P` overwrites the selection, so the last one found stays. -/
def pickLast (P : Vec2 K) : List (Triangle K) → Nat → Option Nat → Option Nat
  | [], _, sel => sel
  | t :: ts, i, sel => pickLast P ts (i + 1) (if t.isInside P then some i else sel)

/-- The function `handleTranslationClick`. -/
def handleTranslationClick (s : State K) (p : Vec2 K) : State K :=
  if s.TranslationInProgress then { s with TranslationInProgress := false }
  else
    { s with
      touchPos := p
      selectedTriangle := pickLast p s.triangles 0 none
      TranslationInProgress := true }

/-! ## Remove mode -/

/-- A loop that scans the triangles from index `i` on and stops at the first one that
contains `P` (the loops of `handleRemoveClick` and `handleAnimationClick`). -/
def findFirstInside (P : Vec2 K) : List (Triangle K) → Nat → Option Nat
  | [], _ => none
  | t :: ts, i => if t.isInside P then some i else findFirstInside P ts (i + 1)

/-- The function `handleRemoveClick`: `triangles.erase(triangles.begin() + i)` at the first
hit. -/
def handleRemoveClick (s : State K) (p : Vec2 K) : State K :=
  match findFirstInside p s.triangles 0 with
  | some i => { s with triangles := s.triangles.eraseIdx i }
  | none => s

/-! ## Colour mode -/

/-- The locals `minLen`, `triagPos`, `vertexPos` of `handleSelectClosestVertex`. -/
structure Closest (K : Type) where
  minLen : K
  triagPos : Int
  vertexPos : Int

/-- The constant `RADIUS` of `handleSelectClosestVertex` (the decimal `0.1`). -/
def RADIUS : K := 1 / 10

/-- The body of the inner loop of `handleSelectClosestVertex` for `triangles[i][j]`. -/
def closestStep (lib : MathLib K) (p : Vec2 K) (i j : Nat) (T : Triangle K)
    (acc : Closest K) : Option (Closest K) :=
  match T.vertices[j]? with
  | none => none
  | some v =>
    let dist := lib.distance p v.vertex
    if dist ≤ RADIUS ∧ (acc.minLen = -1 ∨ dist < acc.minLen) then
      some { minLen := dist, triagPos := i, vertexPos := j }
    else some acc

/-- The inner loop `for (j = 0; j < 3; ++j)` of `handleSelectClosestVertex`. -/
def closestInner (lib : MathLib K) (p : Vec2 K) (i : Nat) (T : Triangle K)
    (acc : Closest K) : Option (Closest K) :=
  (closestStep lib p i 0 T acc).bind fun a0 =>
    (closestStep lib p i 1 T a0).bind fun a1 => closestStep lib p i 2 T a1

/-- The outer loop of `handleSelectClosestVertex`, from index `i` on. -/
def closestLoop (lib : MathLib K) (p : Vec2 K) :
    List (Triangle K) → Nat → Closest K → Option (Closest K)
  | [], _, acc => some acc
  | T :: ts, i, acc =>
    match closestInner lib p i T acc with
    | none => none
    | some a => closestLoop lib p ts (i + 1) a

/-- The function `handleSelectClosestVertex`. -/
def handleSelectClosestVertex (lib : MathLib K) (s : State K) (p : Vec2 K) :
    Option (State K) :=
  match closestLoop lib p s.triangles 0 { minLen := -1, triagPos := -1, vertexPos := -1 } with
  | none => none
  | some r =>
    if r.triagPos ≠ -1 ∧ r.vertexPos ≠ -1 then
      some { s with selectedVertex := some (r.triagPos.toNat, r.vertexPos.toNat) }
    else some { s with selectedVertex := none }

/-- The assignment `selectedVertex->color = COLOURS[k]` of the keys `1` to `9`. -/
def setSelectedColor (s : State K) (k : Nat) : Option (State K) :=
  if s.curMode ≠ AppMode.COLOR_VERTEX then some s
  else
    match s.selectedVertex with
    | none => some s
    | some (i, j) =>
      match s.triangles[i]?, COLOURS[k]? with
      | some t, some c =>
        match t.vertices[j]? with
        | none => none
        | some v =>
          let t1 : Triangle K := { t with vertices := t.vertices.set j (Vertex.mk v.vertex c) }
          some { s with triangles := s.triangles.set i t1 }
      | _, _ => none

/-! ## Animation mode -/

/-- The loop `for (i = 0; i < 3; ++i) (*animationStartTriangle)[i].vertex += AnimationDeltas[i]`
of `runAnimation`. -/
def Triangle.addDeltas (T : Triangle K) (d : Vec2 K × Vec2 K × Vec2 K) :
    Option (Triangle K) :=
  match T.vertices with
  | v0 :: v1 :: v2 :: rest =>
    let vs : List (Vertex K) :=
      Vertex.mk (v0.vertex.add d.1) v0.color :: Vertex.mk (v1.vertex.add d.2.1) v1.color ::
        Vertex.mk (v2.vertex.add d.2.2) v2.color :: rest
    some { T with vertices := vs }
  | _ => none

/-- The function `runAnimation`.  `AnimationTimeout -= ANIMATION_STEP` converts the `int`
to `double`, subtracts and converts back to `int`. -/
def runAnimation (s : State K) : Option (State K) :=
  if s.AnimationInProgress ≠ 3 ∨ s.AnimationTimeout ≤ 0 then some s
  else
    match s.animationStartTriangle with
    | none => none
    | some i =>
      match s.triangles[i]? with
      | none => none
      | some t =>
        match t.addDeltas s.AnimationDeltas with
        | none => none
        | some t1 =>
          let timeout := cTrunc ((s.AnimationTimeout : ℚ) - ANIMATION_STEP)
          let s1 : State K :=
            { s with triangles := s.triangles.set i t1, AnimationTimeout := timeout }
          if timeout ≤ 0 then
            some { s1 with
              AnimationInProgress := 0
              animationStartTriangle := none
              animationFinalTriangle := none }
          else some s1

/-- The per-vertex deltas computed by `handleAnimationClick`:
`(final[i] - start[i]) / (ANIMATION_TIME / ANIMATION_STEP)` for `i = 0, 1, 2`. -/
def animationDeltas (start final : Triangle K) : Option (Vec2 K × Vec2 K × Vec2 K) :=
  match start.vertices, final.vertices with
  | s0 :: s1 :: s2 :: _, f0 :: f1 :: f2 :: _ =>
    let n : K := ((ANIMATION_TIME / ANIMATION_STEP : ℚ) : K)
    some ((f0.vertex.sub s0.vertex).sdiv n, (f1.vertex.sub s1.vertex).sdiv n,
          (f2.vertex.sub s2.vertex).sdiv n)
  | _, _ => none

/-- The function `handleAnimationClick`. -/
def handleAnimationClick (s : State K) (p : Vec2 K) : Option (State K) :=
  if s.AnimationInProgress ≥ 2 then some s
  else if s.AnimationInProgress = 1 then
    match findFirstInside p s.triangles 0 with
    | some j =>
      match s.animationStartTriangle with
      | some i =>
        match s.triangles[i]?, s.triangles[j]? with
        | some ts, some tf =>
          match animationDeltas ts tf with
          | none => none
          | some d =>
            some { s with
              animationFinalTriangle := some j
              restoreTriangle := ts
              AnimationDeltas := d
              AnimationInProgress := 2
              AnimationTimeout := cTrunc (ANIMATION_TIME / ANIMATION_STEP) }
        | _, _ => none
      | none =>
        some { s with
          AnimationInProgress := 0
          animationStartTriangle := none
          animationFinalTriangle := none }
    | none =>
      some { s with
        AnimationInProgress := 0
        animationStartTriangle := none
        animationFinalTriangle := none }
  else
    match findFirstInside p s.triangles 0 with
    | some i => some { s with animationStartTriangle := some i, AnimationInProgress := 1 }
    | none => some { s with animationStartTriangle := none, AnimationInProgress := 0 }

/-! ## Mode changes and keys -/

/-- The function `resetMode(mode)`. -/
def resetMode (s : State K) (mode : AppMode) : State K :=
  match mode with
  | AppMode.INSERTION =>
    match s.triangles.getLast? with
    | none => s
    | some t =>
      if t.size % 3 ≠ 0 ∨ s.DrawingsInProgress = true then
        { s with triangles := s.triangles.dropLast, DrawingsInProgress := false }
      else s
  | AppMode.TRANSFORMATION =>
    { s with touchPos := ⟨0, 0⟩, selectedTriangle := none, TranslationInProgress := false }
  | AppMode.REMOVE => { s with touchPos := ⟨0, 0⟩, selectedTriangle := none }
  | AppMode.COLOR_VERTEX => { s with selectedVertex := none }
  | AppMode.ANIMATION =>
    { s with
      AnimationInProgress := 0
      animationStartTriangle := none
      animationFinalTriangle := none }
  | AppMode.NONE => s

/-- The GLFW actions. -/
inductive Action where
  | PRESS
  | RELEASE
  | REPEAT
deriving DecidableEq, Repr

/-- The mouse buttons: the left one and any other. -/
inductive Button where
  | LEFT
  | OTHER
deriving DecidableEq, Repr

/-- The keys with a case in `key_callback`, and `OTHER` for its default case. -/
inductive Key where
  | F1 | SPACE | I | O | P | H | J | K | L | C
  | N1 | N2 | N3 | N4 | N5 | N6 | N7 | N8 | N9
  | W | A | S | D | MINUS | EQUAL | OTHER
deriving DecidableEq, Repr

/-- The shared shape of the mode keys: nothing when already in `mode`, otherwise
`resetMode(curMode); curMode = mode`. -/
def switchMode (s : State K) (mode : AppMode) : State K :=
  if s.curMode = mode then s else { resetMode s s.curMode with curMode := mode }

/-- The shared shape of the keys `H`, `J`, `K`, `L`: apply `f` to `*selectedTriangle` in
transformation mode. -/
def onSelected (s : State K) (f : Triangle K → Option (Triangle K)) : Option (State K) :=
  if s.curMode ≠ AppMode.TRANSFORMATION then some s
  else
    match s.selectedTriangle with
    | none => some s
    | some i =>
      match s.triangles[i]? with
      | none => none
      | some t =>
        match f t with
        | none => none
        | some t1 => some { s with triangles := s.triangles.set i t1 }

/-- The function `key_callback`.  `SceneOffsetX`, `SceneOffsetY` and `ZoomFactor` are
`float`s.  The offsets change by the `float` literal `0.2f` in `float` arithmetic.  The zoom
factor is compared with the `double` literals `0.4` and `0.9`, and `ZoomFactor -= 0.2`
subtracts the `double` literal `0.2` in `double` arithmetic and converts the result to
`float`. -/
def key_callback (lib : MathLib K) (s : State K) (key : Key) (action : Action) :
    Option (State K) :=
  if action ≠ Action.RELEASE then some s
  else
    match key with
    | Key.F1 => some (switchMode s AppMode.ANIMATION)
    | Key.SPACE =>
      if s.curMode ≠ AppMode.ANIMATION ∨ s.animationStartTriangle = none
          ∨ s.animationFinalTriangle = none then some s
      else some { s with AnimationInProgress := 3 }
    | Key.I => some (switchMode s AppMode.INSERTION)
    | Key.O => some (switchMode s AppMode.TRANSFORMATION)
    | Key.P => some (switchMode s AppMode.REMOVE)
    | Key.H => onSelected s (fun t => t.rotate lib 10)
    | Key.J => onSelected s (fun t => t.rotate lib (-10))
    | Key.K => onSelected s (fun t => t.scale (125 / 100))
    | Key.L => onSelected s (fun t => t.scale (75 / 100))
    | Key.C => some (switchMode s AppMode.COLOR_VERTEX)
    | Key.N1 => setSelectedColor s 0
    | Key.N2 => setSelectedColor s 1
    | Key.N3 => setSelectedColor s 2
    | Key.N4 => setSelectedColor s 3
    | Key.N5 => setSelectedColor s 4
    | Key.N6 => setSelectedColor s 5
    | Key.N7 => setSelectedColor s 6
    | Key.N8 => setSelectedColor s 7
    | Key.N9 => setSelectedColor s 8
    | Key.W => some { s with SceneOffsetY := lib.f32 (s.SceneOffsetY - lib.f32 (2 / 10)) }
    | Key.A => some { s with SceneOffsetX := lib.f32 (s.SceneOffsetX + lib.f32 (2 / 10)) }
    | Key.S => some { s with SceneOffsetY := lib.f32 (s.SceneOffsetY + lib.f32 (2 / 10)) }
    | Key.D => some { s with SceneOffsetX := lib.f32 (s.SceneOffsetX - lib.f32 (2 / 10)) }
    | Key.MINUS =>
      if s.ZoomFactor > lib.f64 (4 / 10) then
        some { s with ZoomFactor := lib.f32 (lib.f64 (s.ZoomFactor - lib.f64 (2 / 10))) }
      else some s
    | Key.EQUAL =>
      if s.ZoomFactor ≤ lib.f64 (9 / 10) then
        some { s with ZoomFactor := lib.f32 (lib.f64 (s.ZoomFactor + lib.f64 (2 / 10))) }
      else some s
    | Key.OTHER => some s

/-! ## Pointer callbacks, the frame tick, events -/

/-- The function `mouse_pos_callback`, at the world position `p` of the pointer. -/
def mouse_pos_callback (s : State K) (p : Vec2 K) : Option (State K) :=
  match s.curMode with
  | AppMode.INSERTION => if s.DrawingsInProgress then handleInsertionMove s p else some s
  | AppMode.TRANSFORMATION =>
    if s.TranslationInProgress then handleSelectionMove s p else some s
  | _ => some s

/-- The function `mouse_button_callback`, at the world position `p` of the pointer. -/
def mouse_button_callback (lib : MathLib K) (s : State K) (button : Button)
    (action : Action) (p : Vec2 K) : Option (State K) :=
  match s.curMode with
  | AppMode.NONE => some s
  | AppMode.INSERTION =>
    if button = Button.LEFT ∧ action = Action.PRESS then handleInsertionClick s p else some s
  | AppMode.TRANSFORMATION =>
    if button = Button.LEFT ∧ (action = Action.PRESS ∨ action = Action.RELEASE) then
      some (handleTranslationClick s p)
    else some s
  | AppMode.REMOVE =>
    if button = Button.LEFT ∧ action = Action.PRESS then some (handleRemoveClick s p)
    else some s
  | AppMode.COLOR_VERTEX =>
    if button = Button.LEFT ∧ action = Action.PRESS then handleSelectClosestVertex lib s p
    else some s
  | AppMode.ANIMATION =>
    if button = Button.LEFT ∧ action = Action.PRESS then handleAnimationClick s p else some s

/-- The animation branch of the main loop, taken once per elapsed `ANIMATION_STEP`. -/
def frameTick (s : State K) : Option (State K) :=
  if s.curMode = AppMode.ANIMATION ∧ s.AnimationInProgress = 3 ∧ s.AnimationTimeout > 0 then
    runAnimation s
  else some s

/-- What the window system delivers to the editor: pointer moves, button and key actions,
and the animation tick of the main loop. -/
inductive Event (K : Type) where
  | move (p : Vec2 K)
  | button (b : Button) (a : Action) (p : Vec2 K)
  | key (k : Key) (a : Action)
  | tick

/-- One event handled by the editor; `none` when the source would read out of range. -/
def step (lib : MathLib K) (s : State K) : Event K → Option (State K)
  | Event.move p => mouse_pos_callback s p
  | Event.button b a p => mouse_button_callback lib s b a p
  | Event.key k a => key_callback lib s k a
  | Event.tick => frameTick s

/-- A sequence of events handled from `s` on. -/
def run (lib : MathLib K) (s : State K) : List (Event K) → Option (State K)
  | [] => some s
  | e :: es => (step lib s e).bind fun s1 => run lib s1 es

/-- The states the editor can be in: `State.init` and whatever an event makes of a
reachable state. -/
inductive Reachable (lib : MathLib K) : State K → Prop where
  | init : Reachable lib State.init
  | step (s s1 : State K) (e : Event K) :
      Reachable lib s → step lib s e = some s1 → Reachable lib s1

/-! ## Reference notions used in the statements -/

/-- Whether a `Dbl` is a finite value. -/
def Dbl.isFinite : Dbl K → Bool
  | .fin _ => true
  | _ => false

/-- The divisor of `w1` in `isInside`: twice the signed area of the triangle `A`, `C`, `B`. -/
def det (A B C : Vec2 K) : K := (B.y - A.y) * (C.x - A.x) - (B.x - A.x) * (C.y - A.y)

/-- The weight `w1` of `isInside` as a field element (meaningful when `det A B C ≠ 0`). -/
def baryW1 (A B C P : Vec2 K) : K :=
  (A.x * (C.y - A.y) + (P.y - A.y) * (C.x - A.x) - P.x * (C.y - A.y)) / det A B C

/-- The weight `w2` of `isInside` as a field element (meaningful when moreover
`C.y ≠ A.y`). -/
def baryW2 (A B C P : Vec2 K) : K :=
  (P.y - A.y - baryW1 A B C P * (B.y - A.y)) / (C.y - A.y)

/-- Three points on one line: the cross product of `B - A` and `C - A` vanishes. -/
def collinear (A B C : Vec2 K) : Prop :=
  (B.x - A.x) * (C.y - A.y) = (C.x - A.x) * (B.y - A.y)

/-- The point `P` has barycentric weights `1 - w1 - w2`, `w1`, `w2` with respect to the
corners `A`, `B`, `C`: `P = A + w1 (B - A) + w2 (C - A)`. -/
def hasWeights (A B C P : Vec2 K) (w1 w2 : K) : Prop :=
  P.x = A.x + w1 * (B.x - A.x) + w2 * (C.x - A.x) ∧
  P.y = A.y + w1 * (B.y - A.y) + w2 * (C.y - A.y)

/-- A triangle over `ℚ` with white vertices, as `addVertex` builds it from three points. -/
def triQ (a b c : Vec2 ℚ) : Triangle ℚ :=
  { vertices := [⟨a, white⟩, ⟨b, white⟩, ⟨c, white⟩], complete := true,
    fillColor := white, outlineColor := black }

/-- The shape of every triangle the editor stores: two vertices and not complete, or three
vertices and complete. -/
def Triangle.WF (t : Triangle K) : Prop :=
  (t.vertices.length = 2 ∧ t.complete = false) ∨ (t.vertices.length = 3 ∧ t.complete = true)

/-- The invariant of the editor's states. -/
structure Inv (s : State K) : Prop where
  wf : ∀ (i : Nat) (t : Triangle K), s.triangles[i]? = some t → t.WF
  draft : ∀ (i : Nat) (t : Triangle K), s.triangles[i]? = some t → t.complete = false →
    i + 1 = s.triangles.length ∧ s.curMode = AppMode.INSERTION ∧ s.DrawingsInProgress = true
  draw : s.DrawingsInProgress = true → s.curMode = AppMode.INSERTION ∧ s.triangles ≠ []
  selT : ∀ i, s.selectedTriangle = some i →
    s.curMode = AppMode.TRANSFORMATION ∧ i < s.triangles.length
  selV : ∀ i j, s.selectedVertex = some (i, j) →
    s.curMode = AppMode.COLOR_VERTEX ∧ i < s.triangles.length ∧ j < 3
  animS : ∀ i, s.animationStartTriangle = some i →
    s.curMode = AppMode.ANIMATION ∧ i < s.triangles.length
  animF : ∀ i, s.animationFinalTriangle = some i →
    s.curMode = AppMode.ANIMATION ∧ i < s.triangles.length
  mode : s.curMode ≠ AppMode.NONE

/-- A sequence of primary-button presses handled by `handleInsertionClick`. -/
def clicks (s : State K) : List (Vec2 K) → Option (State K)
  | [] => some s
  | p :: ps => (handleInsertionClick s p).bind fun s1 => clicks s1 ps

/-- The positions of the vertices of a triangle, in order. -/
def Triangle.positions (t : Triangle K) : List (Vec2 K) := t.vertices.map Vertex.vertex

/-- A `MathLib` over `ℚ` for running the definitions: the rotation by `10` degrees is
replaced by the rational rotation with cosine `4/5` and sine `3/5` (and its inverse for
`-10`), the distance by the larger coordinate difference, and nothing is rounded (`libF`
is the same with the roundings of the machine). -/
def libQ : MathLib ℚ :=
  { cosDeg := fun a => if a = 0 then 1 else 4 / 5
    sinDeg := fun a => if a = 0 then 0 else if 0 < a then 3 / 5 else -(3 / 5)
    distance := fun p q => max |p.x - q.x| |p.y - q.y|
    f32 := fun x => x
    f64 := fun x => x }

/-- A state over `ℚ` in the given mode whose scene is the given list of triangles. -/
def sceneQ (mode : AppMode) (ts : List (Triangle ℚ)) : State ℚ :=
  { (State.init : State ℚ) with curMode := mode, triangles := ts }

/-- The mode a mode-select key of `key_callback` switches to. -/
def modeOfKey : Key → Option AppMode
  | Key.F1 => some AppMode.ANIMATION
  | Key.I => some AppMode.INSERTION
  | Key.O => some AppMode.TRANSFORMATION
  | Key.P => some AppMode.REMOVE
  | Key.C => some AppMode.COLOR_VERTEX
  | _ => none

/-- Drawing one triangle with the pointer from the initial state: press, move, press, move,
press at the corners `(0,0)`, `(4,0)`, `(0,4)`. -/
def drawEvents : List (Event ℚ) :=
  [Event.button Button.LEFT Action.PRESS ⟨0, 0⟩, Event.move ⟨4, 0⟩,
   Event.button Button.LEFT Action.PRESS ⟨4, 0⟩, Event.move ⟨0, 4⟩,
   Event.button Button.LEFT Action.PRESS ⟨0, 4⟩]

/-- The frame tick's `runAnimation` called `n` times in a row. -/
def runAnimationN : Nat → State K → Option (State K)
  | 0, s => some s
  | n + 1, s => (runAnimation s).bind (runAnimationN n)

/-- The triangle `t` with its first three vertices moved by `k` times the deltas `d`
(colours and the other members unchanged). -/
def Triangle.shifted (t : Triangle K) (d : Vec2 K × Vec2 K × Vec2 K) (k : K) : Triangle K :=
  match t.vertices with
  | v0 :: v1 :: v2 :: rest =>
    let vs : List (Vertex K) :=
      Vertex.mk (v0.vertex.add (d.1.smul k)) v0.color ::
        Vertex.mk (v1.vertex.add (d.2.1.smul k)) v1.color ::
          Vertex.mk (v2.vertex.add (d.2.2.smul k)) v2.color :: rest
    { t with vertices := vs }
  | _ => t

/-- Linear interpolation `a + r (b - a)` between two points. -/
def lerp (a b : Vec2 K) (r : K) : Vec2 K := ⟨a.x + r * (b.x - a.x), a.y + r * (b.y - a.y)⟩

/-- Two triangles over `ℚ` in animation mode, the first picked as the source: corners
`(0,0)`, `(1,0)`, `(0,1)` and `(2,0)`, `(3,0)`, `(2,1)`. -/
def pickedQ : State ℚ :=
  { sceneQ AppMode.ANIMATION [triQ ⟨0, 0⟩ ⟨1, 0⟩ ⟨0, 1⟩, triQ ⟨2, 0⟩ ⟨3, 0⟩ ⟨2, 1⟩] with
    animationStartTriangle := some 0
    AnimationInProgress := 1 }

/-- The state `pickedQ` once the second triangle is picked as the target and the animation
is started: every vertex has the delta `(2/500, 0)` and the counter is `500`. -/
def runningQ : State ℚ :=
  { pickedQ with
    animationFinalTriangle := some 1
    restoreTriangle := triQ ⟨0, 0⟩ ⟨1, 0⟩ ⟨0, 1⟩
    AnimationDeltas := (⟨2 / 500, 0⟩, ⟨2 / 500, 0⟩, ⟨2 / 500, 0⟩)
    AnimationTimeout := 500
    AnimationInProgress := 3 }

/-- The running phase of the animation has a source triangle. -/
def AnimOK (s : State K) : Prop :=
  s.AnimationInProgress = 3 → ∃ i : Nat, s.animationStartTriangle = some i

/-- A sequence of `addVertex` calls, in order. -/
def Triangle.addVertices (T : Triangle K) : List (Vec2 K × Vec3 K) → Triangle K
  | [] => T
  | vc :: rest => (T.addVertex vc.1 vc.2).addVertices rest

/-- The arithmetic mean of three points (what `barycenter` returns for the corners). -/
def centroid3 (a b c : Vec2 K) : Vec2 K := ⟨(a.x + b.x + c.x) / 3, (a.y + b.y + c.y) / 3⟩

/-- The image of `P` under the rotation about `Pc` with cosine `c` and sine `s`, as the loop
of `Triangle::rotate` computes it. -/
def rotAbout (Pc : Vec2 K) (c s : K) (P : Vec2 K) : Vec2 K :=
  ⟨(P.x - Pc.x) * c - (P.y - Pc.y) * s + Pc.x, (P.x - Pc.x) * s + (P.y - Pc.y) * c + Pc.y⟩

/-- The point `Pc + f (P - Pc)`. -/
def scaleAbout (Pc : Vec2 K) (f : K) (P : Vec2 K) : Vec2 K :=
  ⟨Pc.x + f * (P.x - Pc.x), Pc.y + f * (P.y - Pc.y)⟩

/-- A sequence of pointer moves handled by `handleSelectionMove`. -/
def selectionMoves (s : State K) : List (Vec2 K) → Option (State K)
  | [] => some s
  | p :: ps => (handleSelectionMove s p).bind fun s1 => selectionMoves s1 ps

/-- The triangle `T` with `d` added to every vertex position (colours and the other members
unchanged). -/
def Triangle.translated (T : Triangle K) (d : Vec2 K) : Triangle K :=
  { T with vertices := T.vertices.map (fun v => Vertex.mk (v.vertex.add d) v.color) }

/-- The matrix `view` of the main loop, `scale(aspect * ZoomFactor, ZoomFactor, 1)` followed
by `translate(SceneOffsetX, SceneOffsetY, 0)`, as the map it applies to a point of the
plane. -/
def viewApply (aspect : K) (s : State K) (p : Vec2 K) : Vec2 K :=
  ⟨aspect * s.ZoomFactor * (p.x + s.SceneOffsetX), s.ZoomFactor * (p.y + s.SceneOffsetY)⟩

/-- The map of `glm::inverse(view)`, which the pointer callbacks apply to get world
coordinates. -/
def viewInverse (aspect : K) (s : State K) (q : Vec2 K) : Vec2 K :=
  ⟨q.x / (aspect * s.ZoomFactor) - s.SceneOffsetX, q.y / s.ZoomFactor - s.SceneOffsetY⟩

/-- The values `ZoomFactor` takes in exact arithmetic: `1` and what the zoom keys make of
it without rounding. -/
def ZoomLevel (s : State K) : Prop :=
  s.ZoomFactor = 4 / 10 ∨ s.ZoomFactor = 6 / 10 ∨ s.ZoomFactor = 8 / 10 ∨ s.ZoomFactor = 1

/-- A `MathLib` whose arithmetic does not round: `float` and `double` results are exact. -/
def MathLib.Exact (lib : MathLib K) : Prop :=
  (∀ x : K, lib.f32 x = x) ∧ ∀ x : K, lib.f64 x = x

/-! ## Binary floating point -/

/-- Rounding of a rational to the nearest integer, ties to the even one. -/
def roundEven (x : ℚ) : ℤ :=
  if x - ⌊x⌋ < 1 / 2 then ⌊x⌋
  else if 1 / 2 < x - ⌊x⌋ then ⌊x⌋ + 1
  else if ⌊x⌋ % 2 = 0 then ⌊x⌋ else ⌊x⌋ + 1

/-- The exponent of the unit in the last place at `q`, in the binary format with `prec`
significant bits whose least positive (subnormal) value is `2 ^ emin`: for
`2 ^ b ≤ |q| < 2 ^ (b + 1)` it is `b - (prec - 1)`, and never less than `emin`. -/
def ulpExp (prec : ℕ) (emin : ℤ) (q : ℚ) : ℤ := max (Int.log 2 |q| - ((prec : ℤ) - 1)) emin

/-- Rounding to the nearest value of the binary format, ties to even (the IEEE 754 default
`roundTiesToEven`), before the overflow to an infinity. -/
def roundBin (prec : ℕ) (emin : ℤ) (q : ℚ) : ℚ :=
  (roundEven (q / 2 ^ ulpExp prec emin q) : ℚ) * 2 ^ ulpExp prec emin q

/-- Rounding to `float` (IEEE 754 binary32: 24 significant bits, least subnormal
`2 ^ (-149)`). -/
def roundF32 (q : ℚ) : ℚ := roundBin 24 (-149) q

/-- Rounding to `double` (IEEE 754 binary64: 53 significant bits, least subnormal
`2 ^ (-1074)`). -/
def roundF64 (q : ℚ) : ℚ := roundBin 53 (-1074) q

/-- The `MathLib` over `ℚ` with the roundings of the machine: `libQ` with `float` and
`double` results rounded to nearest, ties to even. -/
def libF : MathLib ℚ := { libQ with f32 := roundF32, f64 := roundF64 }

/-- The largest finite `float`, `(2 ^ 24 - 1) * 2 ^ 104`. -/
def maxF32 : K := (2 ^ 24 - 1) * 2 ^ 104

/-- The largest finite `double`, `(2 ^ 53 - 1) * 2 ^ 971`. -/
def maxF64 : K := (2 ^ 53 - 1) * 2 ^ 971

/-- The value an operation delivers when its exact result is `d`: a finite result is rounded
by `r` and becomes an infinity when the rounded value is beyond `big`, the largest finite
value of the format; infinities and `NaN` stay. -/
def Dbl.round (r : K → K) (big : K) : Dbl K → Dbl K
  | .fin x => if big < r x then .pinf else if r x < -big then .ninf else .fin (r x)
  | d => d

/-- The method `Triangle::isInside(P)` as the machine evaluates it, every operation rounded:
the operands of `w1` are all `float`, so `w1` is computed in `float` and then stored in a
`double`; `w2` and the sum `w1 + w2` have a `double` operand and are computed in `double`,
on the `float` differences `P.y - A.y`, `B.y - A.y`, `C.y - A.y`.  The coordinates of the
corners and of `P` are `float`s.  `z1`, `z2` are the signs of the divisors of `w1`, `w2`
when they are zero, as in `isInsideZ`. -/
def Triangle.isInsideF (lib : MathLib K) (z1 z2 : Bool) (T : Triangle K) (P : Vec2 K) :
    Bool :=
  if !T.isComplete then false
  else
    match T.vertices with
    | vA :: vB :: vC :: _ =>
      let A := vA.vertex
      let B := vB.vertex
      let C := vC.vertex
      let f : Dbl K → Dbl K := Dbl.round lib.f32 maxF32
      let d : Dbl K → Dbl K := Dbl.round lib.f64 maxF64
      let cyay : Dbl K := f (Dbl.sub (.fin C.y) (.fin A.y))
      let cxax : Dbl K := f (Dbl.sub (.fin C.x) (.fin A.x))
      let byay : Dbl K := f (Dbl.sub (.fin B.y) (.fin A.y))
      let bxax : Dbl K := f (Dbl.sub (.fin B.x) (.fin A.x))
      let pyay : Dbl K := f (Dbl.sub (.fin P.y) (.fin A.y))
      let num : Dbl K :=
        f (Dbl.sub (f (Dbl.add (f (Dbl.mul (.fin A.x) cyay)) (f (Dbl.mul pyay cxax))))
          (f (Dbl.mul (.fin P.x) cyay)))
      let den : Dbl K := f (Dbl.sub (f (Dbl.mul byay cxax)) (f (Dbl.mul bxax cyay)))
      let w1 : Dbl K := f (Dbl.div z1 num den)
      let w2 : Dbl K := d (Dbl.div z2 (d (Dbl.sub pyay (d (Dbl.mul w1 byay)))) cyay)
      Dbl.le (.fin 0) w1 && Dbl.le (.fin 0) w2 && Dbl.le (d (Dbl.add w1 w2)) (.fin 1)
    | _ => false

/-- The values the `float` `ZoomFactor` takes on the machine: `1` and the four values the
zoom keys make of it with rounding, near `0.8`, `0.6`, `0.4` and `0.2`. -/
def ZoomLevelF (z : ℚ) : Prop :=
  z = 1 ∨ z = 13421773 / 16777216 ∨ z = 5033165 / 8388608 ∨ z = 6710887 / 16777216 ∨
    z = 13421775 / 67108864

/-- A complete triangle over `ℚ` whose corners are `float`s on the line
`3 x - 50331651 y = -50331645`. -/
def flatQ : Triangle ℚ :=
  triQ ⟨-16777215, 0⟩ ⟨2, 1⟩
    ⟨33554436, 3⟩

/-- The triangle `flatQ` scaled by `2 ^ (-25)`: its corners are `float`s near `(-1/2, 0)`,
`(0, 0)` and `(1, 0)`, on one line. -/
def flatCanvasQ : Triangle ℚ :=
  triQ ⟨-(16777215 / 33554432), 0⟩ ⟨1 / 16777216, 1 / 33554432⟩
    ⟨8388609 / 8388608, 3 / 33554432⟩

/-- The nearest-vertex pick up to, and without, vertex `j` of triangle `i`, in
shape-then-vertex order: either the locals are still the sentinels and every vertex before
is farther than `RADIUS`, or they hold a vertex `(a, b)` before `(i, j)` and its distance,
which is at most `RADIUS`, at most the distance of every vertex before `(i, j)` and less
than the distance of every vertex before `(a, b)`. -/
def ClosestSpec (lib : MathLib K) (p : Vec2 K) (all : List (Triangle K)) (i j : Nat)
    (acc : Closest K) : Prop :=
  (acc.minLen = -1 ∧ acc.triagPos = -1 ∧ acc.vertexPos = -1 ∧
    ∀ (i1 j1 : Nat) (t1 : Triangle K) (v1 : Vertex K), all[i1]? = some t1 →
      t1.vertices[j1]? = some v1 → (i1 < i ∨ (i1 = i ∧ j1 < j)) →
      RADIUS < lib.distance p v1.vertex) ∨
  (∃ (a b : Nat) (t : Triangle K) (v : Vertex K),
    acc.triagPos = (a : Int) ∧ acc.vertexPos = (b : Int) ∧
    all[a]? = some t ∧ t.vertices[b]? = some v ∧ (a < i ∨ (a = i ∧ b < j)) ∧
    acc.minLen = lib.distance p v.vertex ∧ lib.distance p v.vertex ≤ RADIUS ∧
    (∀ (i1 j1 : Nat) (t1 : Triangle K) (v1 : Vertex K), all[i1]? = some t1 →
      t1.vertices[j1]? = some v1 → (i1 < i ∨ (i1 = i ∧ j1 < j)) →
      lib.distance p v.vertex ≤ lib.distance p v1.vertex) ∧
    (∀ (i1 j1 : Nat) (t1 : Triangle K) (v1 : Vertex K), all[i1]? = some t1 →
      t1.vertices[j1]? = some v1 → (i1 < a ∨ (i1 = a ∧ j1 < b)) →
      lib.distance p v.vertex < lib.distance p v1.vertex))

/-- The colours of the vertices of a triangle, in order. -/
def Triangle.colors (t : Triangle K) : List (Vec3 K) := t.vertices.map Vertex.color

/-- The squared Euclidean distance of two points. -/
def dist2 (a b : Vec2 K) : K := (a.x - b.x) ^ 2 + (a.y - b.y) ^ 2

/-! # Theorems -/

/-! ## Containment -/

theorem Dbl.div_zero_not_finite (z : Bool) (n : K) :
    (Dbl.div z (.fin n) (.fin 0)).isFinite = false := by
  simp only [Dbl.div, if_true]
  split_ifs <;> rfl

theorem Dbl.mul_not_finite (w : Dbl K) (b : K) (h : w.isFinite = false) :
    (Dbl.mul w (.fin b)).isFinite = false := by
  cases w <;> simp only [Dbl.mul, Dbl.isFinite] at h ⊢ <;>
    first | contradiction | (split_ifs <;> rfl)

theorem Dbl.sub_not_finite (a : K) (w : Dbl K) (h : w.isFinite = false) :
    (Dbl.sub (.fin a) w).isFinite = false := by
  cases w <;> simp_all [Dbl.sub, Dbl.isFinite]

theorem Dbl.div_not_finite (z : Bool) (w : Dbl K) (c : K) (h : w.isFinite = false) :
    (Dbl.div z w (.fin c)).isFinite = false := by
  cases w <;> simp only [Dbl.div, Dbl.isFinite] at h ⊢ <;>
    first | contradiction | (split_ifs <;> rfl)

/-- The final test of `isInside` fails as soon as `w2` is an infinity or `NaN`. -/
theorem Dbl.test_not_finite (w1 w2 : Dbl K) (h2 : w2.isFinite = false) :
    (Dbl.le (.fin 0) w1 && Dbl.le (.fin 0) w2 && Dbl.le (Dbl.add w1 w2) (.fin 1)) = false := by
  cases w1 <;> cases w2 <;> simp_all [Dbl.le, Dbl.add, Dbl.isFinite]

/-- The arithmetic of `isInside` on its five finite inputs: the test succeeds exactly when
both divisors are non-zero and the three inequalities hold in the field. -/
theorem isInside_core (z1 z2 : Bool) (n d py yb yc : K) :
    (Dbl.le (.fin 0) (Dbl.div z1 (.fin n) (.fin d)) &&
      Dbl.le (.fin 0)
        (Dbl.div z2 (Dbl.sub (.fin py) (Dbl.mul (Dbl.div z1 (.fin n) (.fin d)) (.fin yb)))
          (.fin yc)) &&
      Dbl.le (Dbl.add (Dbl.div z1 (.fin n) (.fin d))
        (Dbl.div z2 (Dbl.sub (.fin py) (Dbl.mul (Dbl.div z1 (.fin n) (.fin d)) (.fin yb)))
          (.fin yc))) (.fin 1)) = true ↔
    d ≠ 0 ∧ yc ≠ 0 ∧ 0 ≤ n / d ∧ 0 ≤ (py - n / d * yb) / yc ∧
      n / d + (py - n / d * yb) / yc ≤ 1 := by
  by_cases hd : d = 0
  · subst hd
    rw [Dbl.test_not_finite _ _ (Dbl.div_not_finite z2 _ yc (Dbl.sub_not_finite py _
      (Dbl.mul_not_finite _ yb (Dbl.div_zero_not_finite z1 n))))]
    simp
  · have h1 : Dbl.div z1 (.fin n) (.fin d) = .fin (n / d) := by simp [Dbl.div, hd]
    rw [h1]
    by_cases hc : yc = 0
    · subst hc
      rw [Dbl.test_not_finite _ _
        (by simp only [Dbl.mul, Dbl.sub]; exact Dbl.div_zero_not_finite z2 _)]
      simp
    · simp [Dbl.div, Dbl.mul, Dbl.sub, Dbl.le, Dbl.add, hd, hc, and_assoc]

/-- What `isInside` computes on a complete triangle, whatever the signs of zero divisors. -/
theorem isInsideZ_iff (z1 z2 : Bool) (T : Triangle K) (a b c : Vertex K)
    (rest : List (Vertex K)) (hc : T.complete = true) (hv : T.vertices = a :: b :: c :: rest)
    (P : Vec2 K) :
    T.isInsideZ z1 z2 P = true ↔
      det a.vertex b.vertex c.vertex ≠ 0 ∧ c.vertex.y - a.vertex.y ≠ 0 ∧
      0 ≤ baryW1 a.vertex b.vertex c.vertex P ∧ 0 ≤ baryW2 a.vertex b.vertex c.vertex P ∧
      baryW1 a.vertex b.vertex c.vertex P + baryW2 a.vertex b.vertex c.vertex P ≤ 1 := by
  unfold Triangle.isInsideZ
  simp only [Triangle.isComplete, hc, hv, baryW1, baryW2, det]
  exact isInside_core z1 z2 _ _ _ _ _

/-- The result of `isInside` does not depend on the sign given to a zero divisor. -/
theorem isInsideZ_eq_isInside (z1 z2 : Bool) (T : Triangle K) (P : Vec2 K) :
    T.isInsideZ z1 z2 P = T.isInside P := by
  unfold Triangle.isInside
  by_cases hc : T.complete = true
  · rcases hv : T.vertices with _ | ⟨a, _ | ⟨b, _ | ⟨c, rest⟩⟩⟩
    · simp [Triangle.isInsideZ, hv]
    · simp [Triangle.isInsideZ, hv]
    · simp [Triangle.isInsideZ, hv]
    · rw [Bool.eq_iff_iff, isInsideZ_iff z1 z2 T a b c rest hc hv,
        isInsideZ_iff false false T a b c rest hc hv]
  · simp [Triangle.isInsideZ, Triangle.isComplete, hc]

/-- An incomplete triangle contains no point. -/
theorem isInside_of_not_complete (T : Triangle K) (P : Vec2 K) (h : T.complete = false) :
    T.isInside P = false := by
  simp [Triangle.isInside, Triangle.isInsideZ, Triangle.isComplete, h]

/-- With both divisors non-zero the weights of `isInside` are the barycentric weights. -/
theorem hasWeights_bary (A B C P : Vec2 K) (hd : det A B C ≠ 0) (hy : C.y - A.y ≠ 0) :
    hasWeights A B C P (baryW1 A B C P) (baryW2 A B C P) := by
  have hd2 : (B.y - A.y) * (C.x - A.x) - (B.x - A.x) * (C.y - A.y) ≠ 0 := hd
  unfold hasWeights baryW2 baryW1 det
  constructor
  · field_simp
    ring
  · field_simp
    ring

/-- Barycentric weights are unique when the determinant is non-zero. -/
theorem hasWeights_unique (A B C P : Vec2 K) (w1 w2 : K) (hd : det A B C ≠ 0)
    (hy : C.y - A.y ≠ 0) (h : hasWeights A B C P w1 w2) :
    baryW1 A B C P = w1 ∧ baryW2 A B C P = w2 := by
  have hd2 : (B.y - A.y) * (C.x - A.x) - (B.x - A.x) * (C.y - A.y) ≠ 0 := hd
  obtain ⟨hx, hpy⟩ := h
  have e1 : baryW1 A B C P = w1 := by
    unfold baryW1 det
    rw [div_eq_iff hd2, hx, hpy]
    ring
  refine ⟨e1, ?_⟩
  unfold baryW2
  rw [e1, div_eq_iff hy, hpy]
  ring

/-- Claim C1. On a complete triangle with corners `A`, `B`, `C` such that
`(By-Ay)(Cx-Ax) - (Bx-Ax)(Cy-Ay) ≠ 0` and `Cy ≠ Ay`, `isInside P` is true exactly when
`P = A + w1 (B - A) + w2 (C - A)` for some `w1 ≥ 0`, `w2 ≥ 0` with `w1 + w2 ≤ 1`
(boundary included). -/
theorem C1_isInside_iff_barycentric (T : Triangle K) (a b c : Vertex K)
    (hc : T.complete = true) (hv : T.vertices = [a, b, c])
    (hdet : (b.vertex.y - a.vertex.y) * (c.vertex.x - a.vertex.x)
      - (b.vertex.x - a.vertex.x) * (c.vertex.y - a.vertex.y) ≠ 0)
    (hy : c.vertex.y ≠ a.vertex.y) (P : Vec2 K) :
    T.isInside P = true ↔
      ∃ w1 w2 : K, 0 ≤ w1 ∧ 0 ≤ w2 ∧ w1 + w2 ≤ 1 ∧
        P.x = a.vertex.x + w1 * (b.vertex.x - a.vertex.x) + w2 * (c.vertex.x - a.vertex.x) ∧
        P.y = a.vertex.y + w1 * (b.vertex.y - a.vertex.y) + w2 * (c.vertex.y - a.vertex.y) := by
  have hy2 : c.vertex.y - a.vertex.y ≠ 0 := sub_ne_zero.mpr hy
  have hd : det a.vertex b.vertex c.vertex ≠ 0 := hdet
  unfold Triangle.isInside
  rw [isInsideZ_iff false false T a b c [] hc hv P]
  constructor
  · rintro ⟨-, -, h1, h2, h3⟩
    exact ⟨_, _, h1, h2, h3, hasWeights_bary a.vertex b.vertex c.vertex P hd hy2⟩
  · rintro ⟨w1, w2, h1, h2, h3, hx, hpy⟩
    obtain ⟨e1, e2⟩ := hasWeights_unique a.vertex b.vertex c.vertex P w1 w2 hd hy2 ⟨hx, hpy⟩
    rw [e1, e2]
    exact ⟨hd, hy2, h1, h2, h3⟩

/-- The triangle `(0,0)`, `(4,0)`, `(0,4)` and the point `(1,1)` satisfy the hypotheses of
C1; the point is inside. -/
theorem C1_witness :
    (triQ ⟨0, 0⟩ ⟨4, 0⟩ ⟨0, 4⟩).isInside ⟨1, 1⟩ = true ∧
    ((triQ ⟨0, 0⟩ ⟨4, 0⟩ ⟨0, 4⟩).isInside ⟨1, 1⟩ = true ↔
      ∃ w1 w2 : ℚ, 0 ≤ w1 ∧ 0 ≤ w2 ∧ w1 + w2 ≤ 1 ∧
        (1 : ℚ) = 0 + w1 * (4 - 0) + w2 * (0 - 0) ∧
        (1 : ℚ) = 0 + w1 * (0 - 0) + w2 * (4 - 0)) := by
  have h := C1_isInside_iff_barycentric (triQ ⟨0, 0⟩ ⟨4, 0⟩ ⟨0, 4⟩)
    ⟨⟨0, 0⟩, white⟩ ⟨⟨4, 0⟩, white⟩ ⟨⟨0, 4⟩, white⟩ rfl rfl (by norm_num) (by norm_num) ⟨1, 1⟩
  refine ⟨?_, h⟩
  rw [h]
  exact ⟨1 / 4, 1 / 4, by norm_num, by norm_num, by norm_num, by norm_num, by norm_num⟩

/-- A complete triangle whose first and third vertex have the same `y` contains no point:
the divisor `C.y - A.y` of `w2` is zero. -/
theorem isInside_false_of_flat (T : Triangle K) (a b c : Vertex K) (rest : List (Vertex K))
    (hc : T.complete = true) (hv : T.vertices = a :: b :: c :: rest)
    (hy : c.vertex.y = a.vertex.y) (P : Vec2 K) : T.isInside P = false := by
  rw [← Bool.not_eq_true]
  unfold Triangle.isInside
  rw [isInsideZ_iff false false T a b c rest hc hv P]
  rintro ⟨-, h, -⟩
  exact h (sub_eq_zero.mpr hy)

/-- Claim C2 (fails in the code). The triangle `A = (0,0)`, `B = (0,3)`, `C = (3,0)` is
complete and not degenerate, its centroid `(1,1)` returned by `barycenter` lies strictly
inside (weights `1/3`, `1/3`, `1/3`), and `isInside` returns false there: `C.y = A.y`, so
`w2` is `0/0`.  The same happens at the point `(1,1)` of the triangle `(0,0)`, `(0,4)`,
`(4,0)` (weights `1/2`, `1/4`, `1/4`), where `w1 = 4/16` and `w2 = (1 - 1)/0`. -/
theorem C2_isInside_centroid_false :
    (triQ ⟨0, 0⟩ ⟨0, 3⟩ ⟨3, 0⟩).isComplete = true ∧
    ¬ collinear (⟨0, 0⟩ : Vec2 ℚ) ⟨0, 3⟩ ⟨3, 0⟩ ∧
    (triQ ⟨0, 0⟩ ⟨0, 3⟩ ⟨3, 0⟩).barycenter = some ⟨1, 1⟩ ∧
    hasWeights (⟨0, 0⟩ : Vec2 ℚ) ⟨0, 3⟩ ⟨3, 0⟩ ⟨1, 1⟩ (1 / 3) (1 / 3) ∧
    (triQ ⟨0, 0⟩ ⟨0, 3⟩ ⟨3, 0⟩).isInside ⟨1, 1⟩ = false ∧
    ¬ collinear (⟨0, 0⟩ : Vec2 ℚ) ⟨0, 4⟩ ⟨4, 0⟩ ∧
    hasWeights (⟨0, 0⟩ : Vec2 ℚ) ⟨0, 4⟩ ⟨4, 0⟩ ⟨1, 1⟩ (1 / 4) (1 / 4) ∧
    (triQ ⟨0, 0⟩ ⟨0, 4⟩ ⟨4, 0⟩).isInside ⟨1, 1⟩ = false := by
  refine ⟨rfl, ?_, ?_, ?_, ?_, ?_, ?_, ?_⟩
  · simp [collinear]
  · simp [triQ, Triangle.barycenter]
  · constructor <;> norm_num
  · exact isInside_false_of_flat _ ⟨⟨0, 0⟩, white⟩ ⟨⟨0, 3⟩, white⟩ ⟨⟨3, 0⟩, white⟩ [] rfl rfl
      rfl _
  · simp [collinear]
  · constructor <;> norm_num
  · exact isInside_false_of_flat _ ⟨⟨0, 0⟩, white⟩ ⟨⟨0, 4⟩, white⟩ ⟨⟨4, 0⟩, white⟩ [] rfl rfl
      rfl _

/-- In exact arithmetic, on a complete degenerate triangle (collinear corners, or two or
three equal corners) `isInside` returns false at every point, whatever the sign of the zero
divisor. -/
theorem isInside_false_of_degenerate (T : Triangle K) (a b c : Vertex K)
    (hc : T.complete = true) (hv : T.vertices = [a, b, c])
    (hdeg : collinear a.vertex b.vertex c.vertex ∨ a.vertex = b.vertex ∨
      b.vertex = c.vertex ∨ a.vertex = c.vertex) (P : Vec2 K) :
    T.isInside P = false ∧ ∀ z1 z2 : Bool, T.isInsideZ z1 z2 P = false := by
  have hd : det a.vertex b.vertex c.vertex = 0 := by
    unfold det
    rcases hdeg with h | h | h | h
    · unfold collinear at h
      linarith
    · rw [h]; ring
    · rw [h]; ring
    · rw [h]; ring
  have key : ∀ z1 z2 : Bool, T.isInsideZ z1 z2 P = false := by
    intro z1 z2
    rw [← Bool.not_eq_true, isInsideZ_iff z1 z2 T a b c [] hc hv P]
    rintro ⟨h, -⟩
    exact h hd
  exact ⟨key false false, key⟩

/-! ## Insertion -/

/-- Claim C4 (as the code behaves). From the initial state three presses at `p1`, `p2`, `p3`
leave exactly one triangle; it is complete and its vertices are `p1`, `p1`, `p2`: the first
press stores `p1` twice, the second appends `p2`, the third only clears the
draw-in-progress flag.  A fourth press at `p4` appends an incomplete draft (`p4`, `p4`) and
leaves the first triangle unchanged. -/
theorem C4_three_presses (p1 p2 p3 p4 : Vec2 K) :
    ∃ (s3 s4 : State K) (T D : Triangle K),
      clicks State.init [p1, p2, p3] = some s3 ∧
      s3.triangles = [T] ∧ T.isComplete = true ∧ T.positions = [p1, p1, p2] ∧
      s3.DrawingsInProgress = false ∧
      handleInsertionClick s3 p4 = some s4 ∧
      s4.triangles = [T, D] ∧ D.isComplete = false ∧ D.positions = [p4, p4] ∧
      s4.DrawingsInProgress = true := by
  refine ⟨{ (State.init : State K) with
      triangles := [⟨[⟨p1, white⟩, ⟨p1, white⟩, ⟨p2, white⟩], true, white, black⟩] },
    { (State.init : State K) with
      triangles := [⟨[⟨p1, white⟩, ⟨p1, white⟩, ⟨p2, white⟩], true, white, black⟩,
        ⟨[⟨p4, white⟩, ⟨p4, white⟩], false, white, black⟩]
      DrawingsInProgress := true },
    ⟨[⟨p1, white⟩, ⟨p1, white⟩, ⟨p2, white⟩], true, white, black⟩,
    ⟨[⟨p4, white⟩, ⟨p4, white⟩], false, white, black⟩, ?_, rfl, rfl, rfl, rfl, ?_, rfl, rfl,
    rfl, rfl⟩
  · simp [clicks, handleInsertionClick, State.init, Triangle.addVertex, Triangle.new,
      Triangle.mk0, Triangle.isComplete]
  · simp [handleInsertionClick, State.init, Triangle.addVertex, Triangle.new, Triangle.mk0]

/-- Claim C4 (counterexample). Three presses at the pairwise distinct points `(0,0)`, `(1,0)`,
`(0,1)` do not produce the triangle with these three vertices: the scene then holds one
triangle with vertices `(0,0)`, `(0,0)`, `(1,0)`. -/
theorem C4_counterexample :
    ∃ s3 : State ℚ, clicks State.init [⟨0, 0⟩, ⟨1, 0⟩, ⟨0, 1⟩] = some s3 ∧
      s3.triangles.map Triangle.positions = [[⟨0, 0⟩, ⟨0, 0⟩, ⟨1, 0⟩]] ∧
      s3.triangles.map Triangle.positions ≠ [[⟨0, 0⟩, ⟨1, 0⟩, ⟨0, 1⟩]] := by
  refine ⟨_, rfl, ?_, ?_⟩
  · rfl
  · decide

/-! ## The two scans -/

/-- What `findFirstInside` returns: the least index of a triangle containing `P`. -/
theorem findFirstInside_eq_some (P : Vec2 K) (ts : List (Triangle K)) (i r : Nat) :
    findFirstInside P ts i = some r ↔
      ∃ (k : Nat) (t : Triangle K), r = i + k ∧ ts[k]? = some t ∧ t.isInside P = true ∧
        ∀ (j : Nat) (u : Triangle K), j < k → ts[j]? = some u → u.isInside P = false := by
  induction ts generalizing i with
  | nil => simp [findFirstInside]
  | cons t ts ih =>
    unfold findFirstInside
    by_cases ht : t.isInside P = true
    · simp only [ht, if_true]
      constructor
      · intro h
        refine ⟨0, t, ?_, by simp, ht, ?_⟩
        · simpa using (Option.some.inj h).symm
        · intro j u hj
          omega
      · rintro ⟨k, u, hr, hk, hu, hlt⟩
        rcases k with _ | k
        · simp [hr]
        · have := hlt 0 t (by omega) (by simp)
          rw [ht] at this
          cases this
    · have hf : t.isInside P = false := by simpa using ht
      simp only [hf, Bool.false_eq_true, if_false]
      rw [ih (i + 1)]
      constructor
      · rintro ⟨k, u, hr, hk, hu, hlt⟩
        refine ⟨k + 1, u, by omega, by simpa using hk, hu, ?_⟩
        intro j v hj hv
        rcases j with _ | j
        · simp at hv
          subst hv
          simpa using ht
        · exact hlt j v (by omega) (by simpa using hv)
      · rintro ⟨k, u, hr, hk, hu, hlt⟩
        rcases k with _ | k
        · simp at hk
          subst hk
          exact absurd hu ht
        · refine ⟨k, u, by omega, by simpa using hk, hu, ?_⟩
          intro j v hj hv
          exact hlt (j + 1) v (by omega) (by simpa using hv)

/-- When `findFirstInside` finds nothing, no triangle contains `P`. -/
theorem findFirstInside_eq_none (P : Vec2 K) (ts : List (Triangle K)) (i : Nat) :
    findFirstInside P ts i = none ↔ ∀ t ∈ ts, t.isInside P = false := by
  induction ts generalizing i with
  | nil => simp [findFirstInside]
  | cons t ts ih =>
    unfold findFirstInside
    by_cases ht : t.isInside P = true
    · simp [ht]
    · have hf : t.isInside P = false := by simpa using ht
      simp only [hf, Bool.false_eq_true, if_false]
      rw [ih (i + 1)]
      simp [ht]

/-- An index returned by `findFirstInside` from `0` is in range. -/
theorem findFirstInside_lt (P : Vec2 K) (ts : List (Triangle K)) (r : Nat)
    (h : findFirstInside P ts 0 = some r) : r < ts.length := by
  obtain ⟨k, t, hr, hk, -, -⟩ := (findFirstInside_eq_some P ts 0 r).mp h
  have := (List.getElem?_eq_some.mp hk).1
  omega

/-- What the loop of `handleTranslationClick` returns: the greatest index of a triangle
containing `P`, or the initial selection when there is none. -/
theorem pickLast_eq_some (P : Vec2 K) (ts : List (Triangle K)) (i : Nat) (sel : Option Nat)
    (r : Nat) :
    pickLast P ts i sel = some r ↔
      (∃ (k : Nat) (t : Triangle K), r = i + k ∧ ts[k]? = some t ∧ t.isInside P = true ∧
        ∀ (j : Nat) (u : Triangle K), k < j → ts[j]? = some u → u.isInside P = false) ∨
      (sel = some r ∧ ∀ t ∈ ts, t.isInside P = false) := by
  induction ts generalizing i sel with
  | nil => simp [pickLast]
  | cons t ts ih =>
    unfold pickLast
    rw [ih (i + 1)]
    constructor
    · rintro (⟨k, u, hr, hk, hu, hgt⟩ | ⟨hsel, hall⟩)
      · left
        refine ⟨k + 1, u, by omega, by simpa using hk, hu, ?_⟩
        intro j v hj hv
        rcases j with _ | j
        · omega
        · exact hgt j v (by omega) (by simpa using hv)
      · by_cases ht : t.isInside P = true
        · left
          simp only [ht, if_true] at hsel
          refine ⟨0, t, ?_, by simp, ht, ?_⟩
          · simpa using (Option.some.inj hsel).symm
          · intro j v hj hv
            rcases j with _ | j
            · omega
            · exact hall v (List.mem_iff_getElem?.mpr ⟨j, by simpa using hv⟩)
        · right
          have hf : t.isInside P = false := by simpa using ht
          simp only [hf, Bool.false_eq_true, if_false] at hsel
          refine ⟨hsel, ?_⟩
          intro v hv
          rcases List.mem_cons.mp hv with h | h
          · subst h
            simpa using ht
          · exact hall v h
    · rintro (⟨k, u, hr, hk, hu, hgt⟩ | ⟨hsel, hall⟩)
      · rcases k with _ | k
        · right
          simp at hk
          subst hk
          refine ⟨by simp [hu, hr], ?_⟩
          intro v hv
          obtain ⟨n, hn⟩ := List.mem_iff_getElem?.mp hv
          exact hgt (n + 1) v (by omega) (by simpa using hn)
        · left
          refine ⟨k, u, by omega, by simpa using hk, hu, ?_⟩
          intro j v hj hv
          exact hgt (j + 1) v (by omega) (by simpa using hv)
      · right
        have ht : t.isInside P = false := hall t (List.mem_cons_self _ _)
        refine ⟨by simp [ht, hsel], ?_⟩
        intro v hv
        exact hall v (List.mem_cons_of_mem _ hv)

/-- The loop of `handleTranslationClick` keeps an empty selection exactly when no triangle
contains `P`. -/
theorem pickLast_eq_none (P : Vec2 K) (ts : List (Triangle K)) (i : Nat) :
    pickLast P ts i none = none ↔ ∀ t ∈ ts, t.isInside P = false := by
  induction ts generalizing i with
  | nil => simp [pickLast]
  | cons t ts ih =>
    unfold pickLast
    by_cases ht : t.isInside P = true
    · simp only [ht, if_true]
      constructor
      · intro h
        have : ∀ (l : List (Triangle K)) (n m : Nat), pickLast P l n (some m) ≠ none := by
          intro l
          induction l with
          | nil => simp [pickLast]
          | cons a l ihl =>
            intro n m
            unfold pickLast
            split_ifs
            · exact ihl _ _
            · exact ihl _ _
        exact absurd h (this _ _ _)
      · intro h
        have := h t (List.mem_cons_self _ _)
        rw [ht] at this
        cases this
    · have hf : t.isInside P = false := by simpa using ht
      simp only [hf, Bool.false_eq_true, if_false]
      rw [ih (i + 1)]
      simp [ht]

/-- An index returned by the loop of `handleTranslationClick` from `0` is in range. -/
theorem pickLast_lt (P : Vec2 K) (ts : List (Triangle K)) (r : Nat)
    (h : pickLast P ts 0 none = some r) : r < ts.length := by
  rcases (pickLast_eq_some P ts 0 none r).mp h with ⟨k, t, hr, hk, -, -⟩ | ⟨h, -⟩
  · have := (List.getElem?_eq_some.mp hk).1
    omega
  · cases h

/-- A point with barycentric weights `w1, w2 ≥ 0`, `w1 + w2 ≤ 1` is inside, provided both
divisors of `isInside` are non-zero. -/
theorem isInside_of_hasWeights (T : Triangle K) (a b c : Vertex K) (rest : List (Vertex K))
    (hc : T.complete = true) (hv : T.vertices = a :: b :: c :: rest)
    (hd : det a.vertex b.vertex c.vertex ≠ 0) (hy : c.vertex.y - a.vertex.y ≠ 0)
    (P : Vec2 K) (w1 w2 : K) (h1 : 0 ≤ w1) (h2 : 0 ≤ w2) (h3 : w1 + w2 ≤ 1)
    (hw : hasWeights a.vertex b.vertex c.vertex P w1 w2) : T.isInside P = true := by
  unfold Triangle.isInside
  rw [isInsideZ_iff false false T a b c rest hc hv P]
  obtain ⟨e1, e2⟩ := hasWeights_unique a.vertex b.vertex c.vertex P w1 w2 hd hy hw
  rw [e1, e2]
  exact ⟨hd, hy, h1, h2, h3⟩

/-! ## Remove and pick -/

/-- Claim C6. `handleRemoveClick` at `P` erases the triangle of least index that contains `P`
(every other triangle stays, in order, and the scene has one triangle less) and changes
nothing else; when no triangle contains `P` the state is unchanged; with two triangles
`A`, `B` both containing `P` only `B` is left. -/
theorem C6_remove_lowest_index (s : State K) (P : Vec2 K) :
    (∀ (i : Nat) (t : Triangle K), s.triangles[i]? = some t → t.isInside P = true →
      (∀ (j : Nat) (u : Triangle K), j < i → s.triangles[j]? = some u →
        u.isInside P = false) →
      handleRemoveClick s P = { s with triangles := s.triangles.eraseIdx i } ∧
      (handleRemoveClick s P).triangles.length + 1 = s.triangles.length ∧
      ∀ j : Nat, (handleRemoveClick s P).triangles[j]? =
        if j < i then s.triangles[j]? else s.triangles[j + 1]?) ∧
    ((∀ t ∈ s.triangles, t.isInside P = false) → handleRemoveClick s P = s) ∧
    (∀ A B : Triangle K, s.triangles = [A, B] → A.isInside P = true → B.isInside P = true →
      (handleRemoveClick s P).triangles = [B]) := by
  have main : ∀ (i : Nat) (t : Triangle K), s.triangles[i]? = some t → t.isInside P = true →
      (∀ (j : Nat) (u : Triangle K), j < i → s.triangles[j]? = some u →
        u.isInside P = false) →
      handleRemoveClick s P = { s with triangles := s.triangles.eraseIdx i } := by
    intro i t hi ht hlt
    have h : findFirstInside P s.triangles 0 = some i :=
      (findFirstInside_eq_some P s.triangles 0 i).mpr ⟨i, t, by omega, hi, ht, hlt⟩
    simp [handleRemoveClick, h]
  refine ⟨?_, ?_, ?_⟩
  · intro i t hi ht hlt
    have hlen := (List.getElem?_eq_some.mp hi).1
    rw [main i t hi ht hlt]
    refine ⟨rfl, ?_, ?_⟩
    · simp only [List.length_eraseIdx, hlen, if_true]
      omega
    · intro j
      exact List.getElem?_eraseIdx _ _ _
  · intro h
    have h0 : findFirstInside P s.triangles 0 = none :=
      (findFirstInside_eq_none P s.triangles 0).mpr h
    simp [handleRemoveClick, h0]
  · intro A B hs hA hB
    rw [main 0 A (by simp [hs]) hA (by intro j u hj; omega), hs]
    rfl

/-- Two nested triangles that contain `(1,1)` and a third triangle away from it: a remove
click at `(1,1)` erases index `0` and keeps the other two, in order. -/
theorem C6_witness :
    (handleRemoveClick (sceneQ AppMode.REMOVE
        [triQ ⟨0, 0⟩ ⟨4, 0⟩ ⟨0, 4⟩, triQ ⟨0, 0⟩ ⟨8, 0⟩ ⟨0, 8⟩, triQ ⟨9, 9⟩ ⟨10, 9⟩ ⟨9, 10⟩])
      ⟨1, 1⟩).triangles = [triQ ⟨0, 0⟩ ⟨8, 0⟩ ⟨0, 8⟩, triQ ⟨9, 9⟩ ⟨10, 9⟩ ⟨9, 10⟩] := by
  have h := (C6_remove_lowest_index (sceneQ AppMode.REMOVE
        [triQ ⟨0, 0⟩ ⟨4, 0⟩ ⟨0, 4⟩, triQ ⟨0, 0⟩ ⟨8, 0⟩ ⟨0, 8⟩, triQ ⟨9, 9⟩ ⟨10, 9⟩ ⟨9, 10⟩])
      ⟨1, 1⟩).1 0 (triQ ⟨0, 0⟩ ⟨4, 0⟩ ⟨0, 4⟩) rfl
      (isInside_of_hasWeights _ ⟨⟨0, 0⟩, white⟩ ⟨⟨4, 0⟩, white⟩ ⟨⟨0, 4⟩, white⟩ [] rfl rfl
        (by norm_num [det]) (by norm_num) ⟨1, 1⟩ (1 / 4) (1 / 4) (by norm_num) (by norm_num)
        (by norm_num) (by constructor <;> norm_num))
      (by intro j u hj; omega)
  rw [h.1]
  rfl

/-- Claim C10. In `handleTranslationClick` with the drag flag clear, the flag becomes set, the
triangles are unchanged, and the selection is the greatest index of a triangle containing
`P`, or none when no triangle contains `P`. -/
theorem C10_pick_topmost (s : State K) (P : Vec2 K) (h : s.TranslationInProgress = false) :
    (handleTranslationClick s P).TranslationInProgress = true ∧
    (handleTranslationClick s P).triangles = s.triangles ∧
    (∀ i : Nat, (handleTranslationClick s P).selectedTriangle = some i ↔
      ∃ t : Triangle K, s.triangles[i]? = some t ∧ t.isInside P = true ∧
        ∀ (j : Nat) (u : Triangle K), i < j → s.triangles[j]? = some u →
          u.isInside P = false) ∧
    ((handleTranslationClick s P).selectedTriangle = none ↔
      ∀ t ∈ s.triangles, t.isInside P = false) := by
  simp only [handleTranslationClick, h, Bool.false_eq_true, if_false]
  refine ⟨trivial, trivial, ?_, ?_⟩
  · intro i
    rw [pickLast_eq_some]
    constructor
    · rintro (⟨k, t, hr, hk, ht, hgt⟩ | ⟨h0, -⟩)
      · have : i = k := by omega
        subst this
        exact ⟨t, hk, ht, hgt⟩
      · cases h0
    · rintro ⟨t, hk, ht, hgt⟩
      exact Or.inl ⟨i, t, by omega, hk, ht, hgt⟩
  · exact pickLast_eq_none P s.triangles 0

/-- Two nested triangles that both contain `(1,1)`: the pick selects index `1`, the topmost
one. -/
theorem C10_witness :
    (sceneQ AppMode.TRANSFORMATION
      [triQ ⟨0, 0⟩ ⟨4, 0⟩ ⟨0, 4⟩, triQ ⟨0, 0⟩ ⟨8, 0⟩ ⟨0, 8⟩]).TranslationInProgress = false ∧
    (handleTranslationClick (sceneQ AppMode.TRANSFORMATION
      [triQ ⟨0, 0⟩ ⟨4, 0⟩ ⟨0, 4⟩, triQ ⟨0, 0⟩ ⟨8, 0⟩ ⟨0, 8⟩]) ⟨1, 1⟩).selectedTriangle
        = some 1 ∧
    (handleTranslationClick (sceneQ AppMode.TRANSFORMATION
      [triQ ⟨0, 0⟩ ⟨4, 0⟩ ⟨0, 4⟩, triQ ⟨0, 0⟩ ⟨8, 0⟩ ⟨0, 8⟩]) ⟨1, 1⟩).TranslationInProgress
        = true := by
  have h := C10_pick_topmost (sceneQ AppMode.TRANSFORMATION
      [triQ ⟨0, 0⟩ ⟨4, 0⟩ ⟨0, 4⟩, triQ ⟨0, 0⟩ ⟨8, 0⟩ ⟨0, 8⟩]) ⟨1, 1⟩ rfl
  refine ⟨rfl, (h.2.2.1 1).mpr ⟨triQ ⟨0, 0⟩ ⟨8, 0⟩ ⟨0, 8⟩, rfl, ?_, ?_⟩, h.1⟩
  · exact isInside_of_hasWeights _ ⟨⟨0, 0⟩, white⟩ ⟨⟨8, 0⟩, white⟩ ⟨⟨0, 8⟩, white⟩ [] rfl rfl
      (by norm_num [det]) (by norm_num) ⟨1, 1⟩ (1 / 8) (1 / 8) (by norm_num) (by norm_num)
      (by norm_num) (by constructor <;> norm_num)
  · intro j u hj hu
    have : (sceneQ AppMode.TRANSFORMATION
      [triQ ⟨0, 0⟩ ⟨4, 0⟩ ⟨0, 4⟩, triQ ⟨0, 0⟩ ⟨8, 0⟩ ⟨0, 8⟩]).triangles.length ≤ j := by
      show 2 ≤ j
      omega
    rw [List.getElem?_eq_none this] at hu
    cases hu

/-! ## The invariant of the editor -/

set_option linter.unusedSectionVars false

theorem Triangle.move_shape (t : Triangle K) (d : Vec2 K) :
    (t.move d).complete = t.complete ∧ (t.move d).vertices.length = t.vertices.length := by
  unfold Triangle.move
  split_ifs <;> simp

theorem Triangle.rotate_shape (lib : MathLib K) (t t1 : Triangle K) (a : K)
    (h : t.rotate lib a = some t1) :
    t1.complete = t.complete ∧ t1.vertices.length = t.vertices.length := by
  unfold Triangle.rotate at h
  cases hb : t.barycenter with
  | none => simp [hb] at h
  | some Pc =>
    simp only [hb, Option.some.injEq] at h
    subst h
    simp

theorem Triangle.scale_shape (t t1 : Triangle K) (f : K) (h : t.scale f = some t1) :
    t1.complete = t.complete ∧ t1.vertices.length = t.vertices.length := by
  unfold Triangle.scale at h
  split_ifs at h with hf
  · simp only [Option.some.injEq] at h
    subst h
    simp
  · cases hb : t.barycenter with
    | none => simp [hb] at h
    | some Pc =>
      simp only [hb, Option.some.injEq] at h
      subst h
      simp

theorem Triangle.addDeltas_shape (t t1 : Triangle K) (d : Vec2 K × Vec2 K × Vec2 K)
    (h : t.addDeltas d = some t1) :
    t1.complete = t.complete ∧ t1.vertices.length = t.vertices.length := by
  unfold Triangle.addDeltas at h
  split at h
  · rename_i v0 v1 v2 rest hv
    simp only [Option.some.injEq] at h
    subst h
    simp [hv]
  · cases h

/-- Replacing one triangle by a well-formed one that is incomplete only if the old one was,
keeping mode and draw flag and keeping or clearing each reference, preserves the
invariant. -/
theorem Inv.update_gen {s : State K} (hs : Inv s) (s1 : State K) (i : Nat)
    (t t1 : Triangle K)
    (htri : s1.triangles = s.triangles.set i t1)
    (hi : s.triangles[i]? = some t) (hwf : t1.WF)
    (hc : t1.complete = false → t.complete = false)
    (hmode : s1.curMode = s.curMode)
    (hdraw : s1.DrawingsInProgress = s.DrawingsInProgress)
    (hT : s1.selectedTriangle = s.selectedTriangle ∨ s1.selectedTriangle = none)
    (hV : s1.selectedVertex = s.selectedVertex ∨ s1.selectedVertex = none)
    (hS : s1.animationStartTriangle = s.animationStartTriangle ∨
      s1.animationStartTriangle = none)
    (hF : s1.animationFinalTriangle = s.animationFinalTriangle ∨
      s1.animationFinalTriangle = none) : Inv s1 := by
  have hlen : s1.triangles.length = s.triangles.length := by rw [htri, List.length_set]
  have hget : ∀ (j : Nat) (u : Triangle K), s1.triangles[j]? = some u →
      ∃ u0 : Triangle K, s.triangles[j]? = some u0 ∧ u.WF ∧
        (u.complete = false → u0.complete = false) := by
    intro j u hj
    rw [htri] at hj
    by_cases hij : i = j
    · subst hij
      have hlt : i < s.triangles.length := (List.getElem?_eq_some.mp hi).1
      rw [List.getElem?_set_self hlt] at hj
      simp only [Option.some.injEq] at hj
      subst hj
      exact ⟨t, hi, hwf, hc⟩
    · rw [List.getElem?_set_ne hij] at hj
      exact ⟨u, hj, hs.wf j u hj, id⟩
  constructor
  · intro j u hj
    obtain ⟨u0, h0, e1, e2⟩ := hget j u hj
    exact e1
  · intro j u hj hu
    obtain ⟨u0, h0, e1, e2⟩ := hget j u hj
    rw [hlen, hmode, hdraw]
    exact hs.draft j u0 h0 (e2 hu)
  · intro h
    rw [hdraw] at h
    rw [hmode]
    refine ⟨(hs.draw h).1, ?_⟩
    intro he
    have h2 := (hs.draw h).2
    rw [he] at hlen
    exact h2 (List.length_eq_zero.mp hlen.symm)
  · intro j hj
    rcases hT with h | h
    · rw [h] at hj
      rw [hmode, hlen]
      exact hs.selT j hj
    · rw [h] at hj
      cases hj
  · intro j k hj
    rcases hV with h | h
    · rw [h] at hj
      rw [hmode, hlen]
      exact hs.selV j k hj
    · rw [h] at hj
      cases hj
  · intro j hj
    rcases hS with h | h
    · rw [h] at hj
      rw [hmode, hlen]
      exact hs.animS j hj
    · rw [h] at hj
      cases hj
  · intro j hj
    rcases hF with h | h
    · rw [h] at hj
      rw [hmode, hlen]
      exact hs.animF j hj
    · rw [h] at hj
      cases hj
  · rw [hmode]
    exact hs.mode

/-- Replacing one triangle by one of the same shape preserves the invariant. -/
theorem Inv.update {s : State K} (hs : Inv s) (s1 : State K) (i : Nat) (t t1 : Triangle K)
    (htri : s1.triangles = s.triangles.set i t1)
    (hi : s.triangles[i]? = some t) (hc : t1.complete = t.complete)
    (hl : t1.vertices.length = t.vertices.length)
    (hmode : s1.curMode = s.curMode)
    (hdraw : s1.DrawingsInProgress = s.DrawingsInProgress)
    (hT : s1.selectedTriangle = s.selectedTriangle ∨ s1.selectedTriangle = none)
    (hV : s1.selectedVertex = s.selectedVertex ∨ s1.selectedVertex = none)
    (hS : s1.animationStartTriangle = s.animationStartTriangle ∨
      s1.animationStartTriangle = none)
    (hF : s1.animationFinalTriangle = s.animationFinalTriangle ∨
      s1.animationFinalTriangle = none) : Inv s1 := by
  refine hs.update_gen s1 i t t1 htri hi ?_ ?_ hmode hdraw hT hV hS hF
  · have := hs.wf i t hi
    unfold Triangle.WF at this ⊢
    rw [hc, hl]
    exact this
  · intro h
    rw [← hc]
    exact h

/-- Keeping the scene, the mode and the draw flag and keeping or clearing each reference
preserves the invariant. -/
theorem Inv.same {s : State K} (hs : Inv s) (s1 : State K)
    (htri : s1.triangles = s.triangles)
    (hmode : s1.curMode = s.curMode)
    (hdraw : s1.DrawingsInProgress = s.DrawingsInProgress)
    (hT : s1.selectedTriangle = s.selectedTriangle ∨ s1.selectedTriangle = none)
    (hV : s1.selectedVertex = s.selectedVertex ∨ s1.selectedVertex = none)
    (hS : s1.animationStartTriangle = s.animationStartTriangle ∨
      s1.animationStartTriangle = none)
    (hF : s1.animationFinalTriangle = s.animationFinalTriangle ∨
      s1.animationFinalTriangle = none) : Inv s1 := by
  constructor
  · rw [htri]
    exact hs.wf
  · rw [htri, hmode, hdraw]
    exact hs.draft
  · rw [htri, hmode, hdraw]
    exact hs.draw
  · intro j hj
    rcases hT with h | h
    · rw [h] at hj
      rw [hmode, htri]
      exact hs.selT j hj
    · rw [h] at hj
      cases hj
  · intro j k hj
    rcases hV with h | h
    · rw [h] at hj
      rw [hmode, htri]
      exact hs.selV j k hj
    · rw [h] at hj
      cases hj
  · intro j hj
    rcases hS with h | h
    · rw [h] at hj
      rw [hmode, htri]
      exact hs.animS j hj
    · rw [h] at hj
      cases hj
  · intro j hj
    rcases hF with h | h
    · rw [h] at hj
      rw [hmode, htri]
      exact hs.animF j hj
    · rw [h] at hj
      cases hj
  · rw [hmode]
    exact hs.mode

theorem inv_init : Inv (State.init : State K) := by
  constructor <;> simp [State.init]

/-- In a state that satisfies the invariant in a mode `m`, the references of the other
modes are null. -/
theorem Inv.refs_none {s : State K} (hs : Inv s) :
    (s.curMode ≠ AppMode.TRANSFORMATION → s.selectedTriangle = none) ∧
    (s.curMode ≠ AppMode.COLOR_VERTEX → s.selectedVertex = none) ∧
    (s.curMode ≠ AppMode.ANIMATION → s.animationStartTriangle = none) ∧
    (s.curMode ≠ AppMode.ANIMATION → s.animationFinalTriangle = none) := by
  refine ⟨?_, ?_, ?_, ?_⟩
  · intro h
    cases hT : s.selectedTriangle with
    | none => rfl
    | some i => exact absurd (hs.selT i hT).1 h
  · intro h
    cases hT : s.selectedVertex with
    | none => rfl
    | some ij => exact absurd (hs.selV ij.1 ij.2 hT).1 h
  · intro h
    cases hT : s.animationStartTriangle with
    | none => rfl
    | some i => exact absurd (hs.animS i hT).1 h
  · intro h
    cases hT : s.animationFinalTriangle with
    | none => rfl
    | some i => exact absurd (hs.animF i hT).1 h

theorem inv_handleInsertionMove {s s1 : State K} (p : Vec2 K) (hs : Inv s)
    (h : handleInsertionMove s p = some s1) : Inv s1 := by
  unfold handleInsertionMove at h
  split_ifs at h with hd
  · cases hl : s.triangles.getLast? with
    | none => simp [hl] at h
    | some t =>
      simp only [hl] at h
      cases hv : t.vertices[t.size - 1]? with
      | none => simp [hv] at h
      | some v =>
        simp only [hv, Option.some.injEq] at h
        subst h
        rw [List.getLast?_eq_getElem?] at hl
        exact hs.update _ _ t _ rfl hl rfl (by simp) rfl rfl
          (Or.inl rfl) (Or.inl rfl) (Or.inl rfl) (Or.inl rfl)
  · simp only [Option.some.injEq] at h
    subst h
    exact hs

/-- Outside a draw every triangle of the scene is complete. -/
theorem Inv.all_complete {s : State K} (hs : Inv s)
    (h : s.curMode ≠ AppMode.INSERTION ∨ s.DrawingsInProgress = false)
    (i : Nat) (t : Triangle K) (hi : s.triangles[i]? = some t) : t.complete = true := by
  cases hc : t.complete with
  | true => rfl
  | false =>
    obtain ⟨-, hm, hd⟩ := hs.draft i t hi hc
    rcases h with h | h
    · exact absurd hm h
    · rw [hd] at h
      cases h

theorem Triangle.addVertex_of_two (t : Triangle K) (p : Vec2 K) (c : Vec3 K)
    (h : t.WF) (hc : t.complete = false) : (t.addVertex p c).WF ∧
    (t.addVertex p c).complete = true := by
  unfold Triangle.WF at h
  rcases h with ⟨hl, -⟩ | ⟨-, h3⟩
  · unfold Triangle.addVertex Triangle.WF
    simp [hc, hl]
  · rw [hc] at h3
    cases h3

theorem inv_handleInsertionClick {s s1 : State K} (p : Vec2 K) (hs : Inv s)
    (hm : s.curMode = AppMode.INSERTION)
    (h : handleInsertionClick s p = some s1) : Inv s1 := by
  unfold handleInsertionClick at h
  split_ifs at h with hd
  · cases hl : s.triangles.getLast? with
    | none => simp [hl] at h
    | some t =>
      simp only [hl] at h
      rw [List.getLast?_eq_getElem?] at hl
      split_ifs at h with hc
      · simp only [Option.some.injEq] at h
        subst h
        have hall : ∀ (i : Nat) (u : Triangle K), s.triangles[i]? = some u →
            u.complete = true := by
          intro i u hi
          cases hu : u.complete with
          | true => rfl
          | false =>
            have h1 := (hs.draft i u hi hu).1
            have : i = s.triangles.length - 1 := by omega
            rw [this, hl] at hi
            simp only [Option.some.injEq] at hi
            subst hi
            rw [Triangle.isComplete] at hc
            rw [hc] at hu
            cases hu
        refine ⟨hs.wf, ?_, ?_, hs.selT, hs.selV, hs.animS, hs.animF, hs.mode⟩
        · intro i u hi hu
          rw [hall i u hi] at hu
          cases hu
        · intro h
          cases h
      · simp only [Option.some.injEq] at h
        subst h
        have hc2 : t.complete = false := by simpa [Triangle.isComplete] using hc
        have hw := Triangle.addVertex_of_two t p white (hs.wf _ t hl) hc2
        exact hs.update_gen _ _ t _ rfl hl hw.1 (fun h => by rw [hw.2] at h; cases h) rfl rfl
          (Or.inl rfl) (Or.inl rfl) (Or.inl rfl) (Or.inl rfl)
  · simp only [Option.some.injEq] at h
    subst h
    have hdf : s.DrawingsInProgress = false := by simpa using hd
    obtain ⟨r1, r2, r3, r4⟩ := hs.refs_none
    constructor
    · intro i u hi
      simp only [List.getElem?_append] at hi
      split_ifs at hi with hlt
      · exact hs.wf i u hi
      · have : i - s.triangles.length = 0 := by
          by_contra hne
          rw [List.getElem?_eq_none (by simp; omega)] at hi
          cases hi
        rw [this] at hi
        simp only [List.getElem?_cons_zero, Option.some.injEq] at hi
        subst hi
        left
        simp [Triangle.addVertex, Triangle.new, Triangle.mk0]
    · intro i u hi hu
      simp only [List.getElem?_append] at hi
      split_ifs at hi with hlt
      · have := hs.all_complete (Or.inr hdf) i u hi
        rw [this] at hu
        cases hu
      · have : i - s.triangles.length = 0 := by
          by_contra hne
          rw [List.getElem?_eq_none (by simp; omega)] at hi
          cases hi
        refine ⟨?_, hm, rfl⟩
        simp only [List.length_append, List.length_singleton]
        omega
    · intro _
      exact ⟨hm, by simp⟩
    · intro i hi
      have : s.selectedTriangle = none := r1 (by rw [hm]; decide)
      simp [this] at hi
    · intro i j hi
      have : s.selectedVertex = none := r2 (by rw [hm]; decide)
      simp [this] at hi
    · intro i hi
      have : s.animationStartTriangle = none := r3 (by rw [hm]; decide)
      simp [this] at hi
    · intro i hi
      have : s.animationFinalTriangle = none := r4 (by rw [hm]; decide)
      simp [this] at hi
    · exact hs.mode

theorem inv_handleSelectionMove {s s1 : State K} (p : Vec2 K) (hs : Inv s)
    (h : handleSelectionMove s p = some s1) : Inv s1 := by
  unfold handleSelectionMove at h
  split_ifs at h with hd
  · simp only [Option.some.injEq] at h
    subst h
    exact hs
  · cases hsel : s.selectedTriangle with
    | none =>
      simp only [hsel, Option.some.injEq] at h
      subst h
      exact hs
    | some i =>
      simp only [hsel] at h
      cases ht : s.triangles[i]? with
      | none => simp [ht] at h
      | some t =>
        simp only [ht, Option.some.injEq] at h
        subst h
        exact hs.update _ _ t _ rfl ht (t.move_shape _).1 (t.move_shape _).2 rfl rfl
          (Or.inl hsel.symm) (Or.inl rfl) (Or.inl rfl) (Or.inl rfl)

theorem inv_handleTranslationClick {s : State K} (p : Vec2 K) (hs : Inv s)
    (hm : s.curMode = AppMode.TRANSFORMATION) : Inv (handleTranslationClick s p) := by
  unfold handleTranslationClick
  split_ifs with hd
  · exact hs.same _ rfl rfl rfl (Or.inl rfl) (Or.inl rfl) (Or.inl rfl) (Or.inl rfl)
  · refine ⟨hs.wf, hs.draft, hs.draw, ?_, hs.selV, hs.animS, hs.animF, hs.mode⟩
    intro i hi
    exact ⟨hm, pickLast_lt p s.triangles i hi⟩

theorem inv_handleRemoveClick {s : State K} (p : Vec2 K) (hs : Inv s)
    (hm : s.curMode = AppMode.REMOVE) : Inv (handleRemoveClick s p) := by
  unfold handleRemoveClick
  cases hf : findFirstInside p s.triangles 0 with
  | none => exact hs
  | some r =>
    obtain ⟨r1, r2, r3, r4⟩ := hs.refs_none
    have hget : ∀ (i : Nat) (u : Triangle K), (s.triangles.eraseIdx r)[i]? = some u →
        ∃ j : Nat, s.triangles[j]? = some u := by
      intro i u hi
      rw [List.getElem?_eraseIdx] at hi
      split_ifs at hi
      · exact ⟨i, hi⟩
      · exact ⟨i + 1, hi⟩
    constructor
    · intro i u hi
      obtain ⟨j, hj⟩ := hget i u hi
      exact hs.wf j u hj
    · intro i u hi hu
      obtain ⟨j, hj⟩ := hget i u hi
      have := hs.all_complete (Or.inl (by rw [hm]; decide)) j u hj
      rw [this] at hu
      cases hu
    · intro h
      have := (hs.draw h).1
      rw [hm] at this
      cases this
    · intro i hi
      have : s.selectedTriangle = none := r1 (by rw [hm]; decide)
      simp [this] at hi
    · intro i j hi
      have : s.selectedVertex = none := r2 (by rw [hm]; decide)
      simp [this] at hi
    · intro i hi
      have : s.animationStartTriangle = none := r3 (by rw [hm]; decide)
      simp [this] at hi
    · intro i hi
      have : s.animationFinalTriangle = none := r4 (by rw [hm]; decide)
      simp [this] at hi
    · exact hs.mode

theorem closestStep_ok (lib : MathLib K) (p : Vec2 K) (i j n : Nat) (T : Triangle K)
    (acc a : Closest K) (hi : i < n) (hj : j < 3)
    (hacc : (acc.triagPos = -1 ∧ acc.vertexPos = -1) ∨
      (0 ≤ acc.triagPos ∧ acc.triagPos < n ∧ 0 ≤ acc.vertexPos ∧ acc.vertexPos < 3))
    (h : closestStep lib p i j T acc = some a) :
    (a.triagPos = -1 ∧ a.vertexPos = -1) ∨
      (0 ≤ a.triagPos ∧ a.triagPos < n ∧ 0 ≤ a.vertexPos ∧ a.vertexPos < 3) := by
  unfold closestStep at h
  cases hv : T.vertices[j]? with
  | none => simp [hv] at h
  | some v =>
    simp only [hv] at h
    split_ifs at h
    · simp only [Option.some.injEq] at h
      subst h
      right
      simp only
      omega
    · simp only [Option.some.injEq] at h
      subst h
      exact hacc

theorem closestInner_ok (lib : MathLib K) (p : Vec2 K) (i n : Nat) (T : Triangle K)
    (acc a : Closest K) (hi : i < n)
    (hacc : (acc.triagPos = -1 ∧ acc.vertexPos = -1) ∨
      (0 ≤ acc.triagPos ∧ acc.triagPos < n ∧ 0 ≤ acc.vertexPos ∧ acc.vertexPos < 3))
    (h : closestInner lib p i T acc = some a) :
    (a.triagPos = -1 ∧ a.vertexPos = -1) ∨
      (0 ≤ a.triagPos ∧ a.triagPos < n ∧ 0 ≤ a.vertexPos ∧ a.vertexPos < 3) := by
  unfold closestInner at h
  cases h0 : closestStep lib p i 0 T acc with
  | none => simp [h0] at h
  | some a0 =>
    simp only [h0, Option.some_bind] at h
    cases h1 : closestStep lib p i 1 T a0 with
    | none => simp [h1] at h
    | some a1 =>
      simp only [h1, Option.some_bind] at h
      exact closestStep_ok lib p i 2 n T a1 a hi (by omega)
        (closestStep_ok lib p i 1 n T a0 a1 hi (by omega)
          (closestStep_ok lib p i 0 n T acc a0 hi (by omega) hacc h0) h1) h

theorem closestLoop_ok (lib : MathLib K) (p : Vec2 K) (ts : List (Triangle K)) (i : Nat)
    (acc r : Closest K)
    (hacc : (acc.triagPos = -1 ∧ acc.vertexPos = -1) ∨
      (0 ≤ acc.triagPos ∧ acc.triagPos < ((i + ts.length : Nat) : Int) ∧
        0 ≤ acc.vertexPos ∧ acc.vertexPos < 3))
    (h : closestLoop lib p ts i acc = some r) :
    (r.triagPos = -1 ∧ r.vertexPos = -1) ∨
      (0 ≤ r.triagPos ∧ r.triagPos < ((i + ts.length : Nat) : Int) ∧
        0 ≤ r.vertexPos ∧ r.vertexPos < 3) := by
  induction ts generalizing i acc with
  | nil =>
    simp only [closestLoop, Option.some.injEq] at h
    subst h
    exact hacc
  | cons T ts ih =>
    unfold closestLoop at h
    cases ha : closestInner lib p i T acc with
    | none => simp [ha] at h
    | some a =>
      simp only [ha] at h
      have hlen : i + (T :: ts).length = i + 1 + ts.length := by
        simp only [List.length_cons]
        omega
      rw [hlen] at hacc ⊢
      exact ih (i + 1) a
        (closestInner_ok lib p i (i + 1 + ts.length) T acc a (by omega) hacc ha) h

theorem inv_handleSelectClosestVertex {s s1 : State K} (lib : MathLib K) (p : Vec2 K)
    (hs : Inv s) (hm : s.curMode = AppMode.COLOR_VERTEX)
    (h : handleSelectClosestVertex lib s p = some s1) : Inv s1 := by
  unfold handleSelectClosestVertex at h
  cases hl : closestLoop lib p s.triangles 0 { minLen := -1, triagPos := -1, vertexPos := -1 }
    with
  | none => simp [hl] at h
  | some r =>
    simp only [hl] at h
    have hr := closestLoop_ok lib p s.triangles 0 _ r (Or.inl ⟨rfl, rfl⟩) hl
    split_ifs at h with hc
    · simp only [Option.some.injEq] at h
      subst h
      refine ⟨hs.wf, hs.draft, hs.draw, hs.selT, ?_, hs.animS, hs.animF, hs.mode⟩
      intro i j hij
      simp only [Option.some.injEq, Prod.mk.injEq] at hij
      rcases hr with ⟨h1, -⟩ | ⟨h1, h2, h3, h4⟩
      · exact absurd h1 hc.1
      · refine ⟨hm, ?_, ?_⟩
        · have e1 := hij.1
          have e2 : (r.triagPos.toNat : Int) = r.triagPos := Int.toNat_of_nonneg h1
          simp only [zero_add] at h2
          show i < s.triangles.length
          omega
        · have e1 := hij.2
          have e2 : (r.vertexPos.toNat : Int) = r.vertexPos := Int.toNat_of_nonneg h3
          omega
    · simp only [Option.some.injEq] at h
      subst h
      exact hs.same _ rfl rfl rfl (Or.inl rfl) (Or.inr rfl) (Or.inl rfl) (Or.inl rfl)

theorem inv_setSelectedColor {s s1 : State K} (k : Nat) (hs : Inv s)
    (h : setSelectedColor s k = some s1) : Inv s1 := by
  unfold setSelectedColor at h
  split_ifs at h with hm
  · simp only [Option.some.injEq] at h
    subst h
    exact hs
  · cases hsel : s.selectedVertex with
    | none =>
      simp only [hsel, Option.some.injEq] at h
      subst h
      exact hs
    | some ij =>
      obtain ⟨i, j⟩ := ij
      simp only [hsel] at h
      cases ht : s.triangles[i]? with
      | none => simp [ht] at h
      | some t =>
        cases hcol : (COLOURS : List (Vec3 K))[k]? with
        | none => simp [ht, hcol] at h
        | some c =>
          simp only [ht, hcol] at h
          cases hv : t.vertices[j]? with
          | none => simp [hv] at h
          | some v =>
            simp only [hv, Option.some.injEq] at h
            subst h
            exact hs.update _ _ t _ rfl ht rfl (by simp) rfl rfl
              (Or.inl rfl) (Or.inl hsel.symm) (Or.inl rfl) (Or.inl rfl)

theorem inv_runAnimation {s s1 : State K} (hs : Inv s)
    (h : runAnimation s = some s1) : Inv s1 := by
  unfold runAnimation at h
  split_ifs at h with hc
  · simp only [Option.some.injEq] at h
    subst h
    exact hs
  · cases hsel : s.animationStartTriangle with
    | none => simp [hsel] at h
    | some i =>
      simp only [hsel] at h
      cases ht : s.triangles[i]? with
      | none => simp [ht] at h
      | some t =>
        simp only [ht] at h
        cases hd : t.addDeltas s.AnimationDeltas with
        | none => simp [hd] at h
        | some t1 =>
          simp only [hd] at h
          have hsh := Triangle.addDeltas_shape t t1 _ hd
          split_ifs at h
          · simp only [Option.some.injEq] at h
            subst h
            exact hs.update _ _ t _ rfl ht hsh.1 hsh.2 rfl rfl
              (Or.inl rfl) (Or.inl rfl) (Or.inr rfl) (Or.inr rfl)
          · simp only [Option.some.injEq] at h
            subst h
            exact hs.update _ _ t _ rfl ht hsh.1 hsh.2 rfl rfl
              (Or.inl rfl) (Or.inl rfl) (Or.inl hsel.symm) (Or.inl rfl)

theorem inv_handleAnimationClick {s s1 : State K} (p : Vec2 K) (hs : Inv s)
    (hm : s.curMode = AppMode.ANIMATION)
    (h : handleAnimationClick s p = some s1) : Inv s1 := by
  unfold handleAnimationClick at h
  split_ifs at h with h2 h1
  · simp only [Option.some.injEq] at h
    subst h
    exact hs
  · cases hf : findFirstInside p s.triangles 0 with
    | none =>
      simp only [hf, Option.some.injEq] at h
      subst h
      exact hs.same _ rfl rfl rfl (Or.inl rfl) (Or.inl rfl) (Or.inr rfl) (Or.inr rfl)
    | some j =>
      simp only [hf] at h
      cases hsel : s.animationStartTriangle with
      | none =>
        simp only [hsel, Option.some.injEq] at h
        subst h
        exact hs.same _ rfl rfl rfl (Or.inl rfl) (Or.inl rfl) (Or.inr rfl) (Or.inr rfl)
      | some i =>
        simp only [hsel] at h
        cases hti : s.triangles[i]? with
        | none => simp [hti] at h
        | some ts =>
          cases htj : s.triangles[j]? with
          | none => simp [hti, htj] at h
          | some tf =>
            simp only [hti, htj] at h
            cases hd : animationDeltas ts tf with
            | none => simp [hd] at h
            | some d =>
              simp only [hd, Option.some.injEq] at h
              subst h
              refine ⟨hs.wf, hs.draft, hs.draw, hs.selT, hs.selV, ?_, ?_, hs.mode⟩
              · intro k hk
                exact hs.animS k (hsel ▸ hk)
              · intro k hk
                simp only [Option.some.injEq] at hk
                subst hk
                exact ⟨hm, findFirstInside_lt p s.triangles _ hf⟩
  · cases hf : findFirstInside p s.triangles 0 with
    | none =>
      simp only [hf, Option.some.injEq] at h
      subst h
      exact hs.same _ rfl rfl rfl (Or.inl rfl) (Or.inl rfl) (Or.inr rfl) (Or.inl rfl)
    | some i =>
      simp only [hf, Option.some.injEq] at h
      subst h
      refine ⟨hs.wf, hs.draft, hs.draw, hs.selT, hs.selV, ?_, hs.animF, hs.mode⟩
      intro k hk
      simp only [Option.some.injEq] at hk
      subst hk
      exact ⟨hm, findFirstInside_lt p s.triangles _ hf⟩

/-- What `resetMode(curMode)` leaves behind in a state that satisfies the invariant: only
complete triangles of the old scene, no draw in progress, and no reference. -/
theorem resetMode_props {s : State K} (hs : Inv s) :
    (∀ (i : Nat) (u : Triangle K), (resetMode s s.curMode).triangles[i]? = some u →
      s.triangles[i]? = some u ∧ u.complete = true) ∧
    (resetMode s s.curMode).DrawingsInProgress = false ∧
    (resetMode s s.curMode).selectedTriangle = none ∧
    (resetMode s s.curMode).selectedVertex = none ∧
    (resetMode s s.curMode).animationStartTriangle = none ∧
    (resetMode s s.curMode).animationFinalTriangle = none := by
  obtain ⟨r1, r2, r3, r4⟩ := hs.refs_none
  have hdraw : s.curMode ≠ AppMode.INSERTION → s.DrawingsInProgress = false := by
    intro h
    cases hd : s.DrawingsInProgress with
    | false => rfl
    | true => exact absurd (hs.draw hd).1 h
  cases hm : s.curMode with
  | INSERTION =>
    have q1 := r1 (by rw [hm]; decide)
    have q2 := r2 (by rw [hm]; decide)
    have q3 := r3 (by rw [hm]; decide)
    have q4 := r4 (by rw [hm]; decide)
    unfold resetMode
    simp only
    cases hl : s.triangles.getLast? with
    | none =>
      simp only
      have he : s.triangles = [] := List.getLast?_eq_none_iff.mp hl
      refine ⟨?_, ?_, q1, q2, q3, q4⟩
      · intro i u hi
        rw [he] at hi
        simp at hi
      · cases hd : s.DrawingsInProgress with
        | false => rfl
        | true => exact absurd he (hs.draw hd).2
    | some t =>
      simp only
      rw [List.getLast?_eq_getElem?] at hl
      split_ifs with hc
      · refine ⟨?_, rfl, q1, q2, q3, q4⟩
        intro i u hi
        simp only [List.getElem?_dropLast] at hi
        split_ifs at hi with hlt
        refine ⟨hi, ?_⟩
        cases hu : u.complete with
        | true => rfl
        | false =>
          have := (hs.draft i u hi hu).1
          omega
      · have hc2 : t.size % 3 = 0 ∧ s.DrawingsInProgress = false := by
          constructor
          · by_contra h
            exact hc (Or.inl h)
          · cases hd : s.DrawingsInProgress with
            | false => rfl
            | true => exact absurd (Or.inr hd) hc
        refine ⟨?_, hc2.2, q1, q2, q3, q4⟩
        intro i u hi
        exact ⟨hi, hs.all_complete (Or.inr hc2.2) i u hi⟩
  | TRANSFORMATION =>
    have q2 := r2 (by rw [hm]; decide)
    have q3 := r3 (by rw [hm]; decide)
    have q4 := r4 (by rw [hm]; decide)
    refine ⟨?_, hdraw (by rw [hm]; decide), rfl, q2, q3, q4⟩
    intro i u hi
    exact ⟨hi, hs.all_complete (Or.inl (by rw [hm]; decide)) i u hi⟩
  | REMOVE =>
    have q2 := r2 (by rw [hm]; decide)
    have q3 := r3 (by rw [hm]; decide)
    have q4 := r4 (by rw [hm]; decide)
    refine ⟨?_, hdraw (by rw [hm]; decide), rfl, q2, q3, q4⟩
    intro i u hi
    exact ⟨hi, hs.all_complete (Or.inl (by rw [hm]; decide)) i u hi⟩
  | COLOR_VERTEX =>
    have q1 := r1 (by rw [hm]; decide)
    have q3 := r3 (by rw [hm]; decide)
    have q4 := r4 (by rw [hm]; decide)
    refine ⟨?_, hdraw (by rw [hm]; decide), q1, rfl, q3, q4⟩
    intro i u hi
    exact ⟨hi, hs.all_complete (Or.inl (by rw [hm]; decide)) i u hi⟩
  | ANIMATION =>
    have q1 := r1 (by rw [hm]; decide)
    have q2 := r2 (by rw [hm]; decide)
    refine ⟨?_, hdraw (by rw [hm]; decide), q1, q2, rfl, rfl⟩
    intro i u hi
    exact ⟨hi, hs.all_complete (Or.inl (by rw [hm]; decide)) i u hi⟩
  | NONE =>
    have q1 := r1 (by rw [hm]; decide)
    have q2 := r2 (by rw [hm]; decide)
    have q3 := r3 (by rw [hm]; decide)
    have q4 := r4 (by rw [hm]; decide)
    refine ⟨?_, hdraw (by rw [hm]; decide), q1, q2, q3, q4⟩
    intro i u hi
    exact ⟨hi, hs.all_complete (Or.inl (by rw [hm]; decide)) i u hi⟩

theorem inv_switchMode {s : State K} (m : AppMode) (hs : Inv s) (hm : m ≠ AppMode.NONE) :
    Inv (switchMode s m) := by
  unfold switchMode
  split_ifs with h
  · exact hs
  · obtain ⟨p1, p2, p3, p4, p5, p6⟩ := resetMode_props hs
    constructor
    · intro i u hi
      exact hs.wf i u (p1 i u hi).1
    · intro i u hi hu
      have := (p1 i u hi).2
      rw [this] at hu
      cases hu
    · intro hd
      have : (resetMode s s.curMode).DrawingsInProgress = true := hd
      rw [p2] at this
      cases this
    · intro i hi
      have : (resetMode s s.curMode).selectedTriangle = some i := hi
      rw [p3] at this
      cases this
    · intro i j hi
      have : (resetMode s s.curMode).selectedVertex = some (i, j) := hi
      rw [p4] at this
      cases this
    · intro i hi
      have : (resetMode s s.curMode).animationStartTriangle = some i := hi
      rw [p5] at this
      cases this
    · intro i hi
      have : (resetMode s s.curMode).animationFinalTriangle = some i := hi
      rw [p6] at this
      cases this
    · exact hm

theorem inv_onSelected {s s1 : State K} (f : Triangle K → Option (Triangle K))
    (hf : ∀ t t1 : Triangle K, f t = some t1 →
      t1.complete = t.complete ∧ t1.vertices.length = t.vertices.length)
    (hs : Inv s) (h : onSelected s f = some s1) : Inv s1 := by
  unfold onSelected at h
  split_ifs at h with hm
  · simp only [Option.some.injEq] at h
    subst h
    exact hs
  · cases hsel : s.selectedTriangle with
    | none =>
      simp only [hsel, Option.some.injEq] at h
      subst h
      exact hs
    | some i =>
      simp only [hsel] at h
      cases ht : s.triangles[i]? with
      | none => simp [ht] at h
      | some t =>
        simp only [ht] at h
        cases hft : f t with
        | none => simp [hft] at h
        | some t1 =>
          simp only [hft, Option.some.injEq] at h
          subst h
          exact hs.update _ _ t _ rfl ht (hf t t1 hft).1 (hf t t1 hft).2 rfl rfl
            (Or.inl hsel.symm) (Or.inl rfl) (Or.inl rfl) (Or.inl rfl)

theorem inv_key_callback {s s1 : State K} (lib : MathLib K) (key : Key) (action : Action)
    (hs : Inv s) (h : key_callback lib s key action = some s1) : Inv s1 := by
  unfold key_callback at h
  by_cases ha : action ≠ Action.RELEASE
  · rw [if_pos ha] at h
    simp only [Option.some.injEq] at h
    subst h
    exact hs
  · rw [if_neg ha] at h
    cases key with
    | F1 =>
      simp only [Option.some.injEq] at h
      subst h
      exact inv_switchMode _ hs (by decide)
    | SPACE =>
      simp only at h
      split_ifs at h
      · simp only [Option.some.injEq] at h
        subst h
        exact hs
      · simp only [Option.some.injEq] at h
        subst h
        exact hs.same _ rfl rfl rfl (Or.inl rfl) (Or.inl rfl) (Or.inl rfl) (Or.inl rfl)
    | I =>
      simp only [Option.some.injEq] at h
      subst h
      exact inv_switchMode _ hs (by decide)
    | O =>
      simp only [Option.some.injEq] at h
      subst h
      exact inv_switchMode _ hs (by decide)
    | P =>
      simp only [Option.some.injEq] at h
      subst h
      exact inv_switchMode _ hs (by decide)
    | C =>
      simp only [Option.some.injEq] at h
      subst h
      exact inv_switchMode _ hs (by decide)
    | H => exact inv_onSelected _ (fun t t1 => Triangle.rotate_shape lib t t1 _) hs h
    | J => exact inv_onSelected _ (fun t t1 => Triangle.rotate_shape lib t t1 _) hs h
    | K => exact inv_onSelected _ (fun t t1 => Triangle.scale_shape t t1 _) hs h
    | L => exact inv_onSelected _ (fun t t1 => Triangle.scale_shape t t1 _) hs h
    | N1 => exact inv_setSelectedColor _ hs h
    | N2 => exact inv_setSelectedColor _ hs h
    | N3 => exact inv_setSelectedColor _ hs h
    | N4 => exact inv_setSelectedColor _ hs h
    | N5 => exact inv_setSelectedColor _ hs h
    | N6 => exact inv_setSelectedColor _ hs h
    | N7 => exact inv_setSelectedColor _ hs h
    | N8 => exact inv_setSelectedColor _ hs h
    | N9 => exact inv_setSelectedColor _ hs h
    | W =>
      simp only [Option.some.injEq] at h
      subst h
      exact hs.same _ rfl rfl rfl (Or.inl rfl) (Or.inl rfl) (Or.inl rfl) (Or.inl rfl)
    | A =>
      simp only [Option.some.injEq] at h
      subst h
      exact hs.same _ rfl rfl rfl (Or.inl rfl) (Or.inl rfl) (Or.inl rfl) (Or.inl rfl)
    | S =>
      simp only [Option.some.injEq] at h
      subst h
      exact hs.same _ rfl rfl rfl (Or.inl rfl) (Or.inl rfl) (Or.inl rfl) (Or.inl rfl)
    | D =>
      simp only [Option.some.injEq] at h
      subst h
      exact hs.same _ rfl rfl rfl (Or.inl rfl) (Or.inl rfl) (Or.inl rfl) (Or.inl rfl)
    | MINUS =>
      simp only at h
      split_ifs at h
      · simp only [Option.some.injEq] at h
        subst h
        exact hs.same _ rfl rfl rfl (Or.inl rfl) (Or.inl rfl) (Or.inl rfl) (Or.inl rfl)
      · simp only [Option.some.injEq] at h
        subst h
        exact hs
    | EQUAL =>
      simp only at h
      split_ifs at h
      · simp only [Option.some.injEq] at h
        subst h
        exact hs.same _ rfl rfl rfl (Or.inl rfl) (Or.inl rfl) (Or.inl rfl) (Or.inl rfl)
      · simp only [Option.some.injEq] at h
        subst h
        exact hs
    | OTHER =>
      simp only [Option.some.injEq] at h
      subst h
      exact hs

theorem inv_mouse_pos_callback {s s1 : State K} (p : Vec2 K) (hs : Inv s)
    (h : mouse_pos_callback s p = some s1) : Inv s1 := by
  unfold mouse_pos_callback at h
  split at h
  · split_ifs at h
    · exact inv_handleInsertionMove p hs h
    · simp only [Option.some.injEq] at h
      subst h
      exact hs
  · split_ifs at h
    · exact inv_handleSelectionMove p hs h
    · simp only [Option.some.injEq] at h
      subst h
      exact hs
  · simp only [Option.some.injEq] at h
    subst h
    exact hs

theorem inv_mouse_button_callback {s s1 : State K} (lib : MathLib K) (b : Button)
    (a : Action) (p : Vec2 K) (hs : Inv s)
    (h : mouse_button_callback lib s b a p = some s1) : Inv s1 := by
  unfold mouse_button_callback at h
  split at h
  · simp only [Option.some.injEq] at h
    subst h
    exact hs
  · rename_i hm
    split_ifs at h
    · exact inv_handleInsertionClick p hs hm h
    · simp only [Option.some.injEq] at h
      subst h
      exact hs
  · rename_i hm
    split_ifs at h
    · simp only [Option.some.injEq] at h
      subst h
      exact inv_handleTranslationClick p hs hm
    · simp only [Option.some.injEq] at h
      subst h
      exact hs
  · rename_i hm
    split_ifs at h
    · simp only [Option.some.injEq] at h
      subst h
      exact inv_handleRemoveClick p hs hm
    · simp only [Option.some.injEq] at h
      subst h
      exact hs
  · rename_i hm
    split_ifs at h
    · exact inv_handleSelectClosestVertex lib p hs hm h
    · simp only [Option.some.injEq] at h
      subst h
      exact hs
  · rename_i hm
    split_ifs at h
    · exact inv_handleAnimationClick p hs hm h
    · simp only [Option.some.injEq] at h
      subst h
      exact hs

theorem inv_frameTick {s s1 : State K} (hs : Inv s) (h : frameTick s = some s1) :
    Inv s1 := by
  unfold frameTick at h
  split_ifs at h
  · exact inv_runAnimation hs h
  · simp only [Option.some.injEq] at h
    subst h
    exact hs

theorem inv_step {s s1 : State K} (lib : MathLib K) (e : Event K) (hs : Inv s)
    (h : step lib s e = some s1) : Inv s1 := by
  cases e with
  | move p => exact inv_mouse_pos_callback p hs h
  | button b a p => exact inv_mouse_button_callback lib b a p hs h
  | key k a => exact inv_key_callback lib k a hs h
  | tick => exact inv_frameTick hs h

/-- Every reachable state satisfies the invariant. -/
theorem reachable_inv {lib : MathLib K} {s : State K} (h : Reachable lib s) : Inv s := by
  induction h with
  | init => exact inv_init
  | step s s1 e _ hstep ih => exact inv_step lib e ih hstep

/-- A state reached by running a list of events from a reachable state is reachable. -/
theorem reachable_run {lib : MathLib K} (es : List (Event K)) {s s1 : State K}
    (hs : Reachable lib s) (h : run lib s es = some s1) : Reachable lib s1 := by
  induction es generalizing s with
  | nil =>
    simp only [run, Option.some.injEq] at h
    subst h
    exact hs
  | cons e es ih =>
    unfold run at h
    cases he : step lib s e with
    | none => simp [he] at h
    | some s2 =>
      simp only [he, Option.some_bind] at h
      exact ih (Reachable.step s s2 e hs he) h

/-! ## Mode exit and references -/

/-- Claim C5. In a reachable state in insertion mode, releasing the key of another mode
(`F1`, `O`, `P`, `C`) switches to that mode and, when the last triangle is incomplete or a
draw is in progress, removes exactly the last triangle and clears the draw flag; when the
scene is empty, or its last triangle is complete and no draw is in progress, scene and flag
are unchanged.  In particular one press from the initial state followed by the key `O`
leaves no triangle. -/
theorem C5_mode_exit_discard (lib : MathLib K) (s : State K) (hr : Reachable lib s)
    (hm : s.curMode = AppMode.INSERTION) (key : Key) (m : AppMode)
    (hk : modeOfKey key = some m) (hne : m ≠ AppMode.INSERTION) :
    (∃ s1 : State K, key_callback lib s key Action.RELEASE = some s1 ∧ s1.curMode = m ∧
      (((∃ t : Triangle K, s.triangles.getLast? = some t ∧ t.isComplete = false) ∨
          s.DrawingsInProgress = true) →
        (∃ t : Triangle K, s.triangles = s1.triangles ++ [t]) ∧
          s1.DrawingsInProgress = false) ∧
      ((s.triangles = [] ∨
          ((∃ t : Triangle K, s.triangles.getLast? = some t ∧ t.isComplete = true) ∧
            s.DrawingsInProgress = false)) →
        s1.triangles = s.triangles ∧ s1.DrawingsInProgress = s.DrawingsInProgress)) ∧
    (∀ p : Vec2 K, ∃ s2 : State K,
      run lib State.init [Event.button Button.LEFT Action.PRESS p,
        Event.key Key.O Action.RELEASE] = some s2 ∧
      s2.curMode = AppMode.TRANSFORMATION ∧ s2.triangles = []) := by
  have hs := reachable_inv hr
  constructor
  · have hkey : key_callback lib s key Action.RELEASE =
        some { resetMode s AppMode.INSERTION with curMode := m } := by
      have hne2 : ¬ AppMode.INSERTION = m := fun h => hne h.symm
      cases key <;> simp only [modeOfKey] at hk <;> cases hk
      all_goals first
        | exact absurd rfl hne
        | simp [key_callback, switchMode, hm]
    refine ⟨_, hkey, rfl, ?_, ?_⟩
    · intro hA
      cases hl : s.triangles.getLast? with
      | none =>
        have he : s.triangles = [] := List.getLast?_eq_none_iff.mp hl
        rcases hA with ⟨t, ht, -⟩ | hd
        · rw [hl] at ht
          cases ht
        · exact absurd he (hs.draw hd).2
      | some t =>
        have hpop : t.size % 3 ≠ 0 ∨ s.DrawingsInProgress = true := by
          rcases hA with ⟨u, hu, huc⟩ | hd
          · rw [hl] at hu
            simp only [Option.some.injEq] at hu
            subst hu
            left
            have hw := hs.wf (s.triangles.length - 1) t
              (by rw [← List.getLast?_eq_getElem?]; exact hl)
            rcases hw with ⟨h2, -⟩ | ⟨-, h3⟩
            · simp [Triangle.size, h2]
            · rw [Triangle.isComplete] at huc
              rw [huc] at h3
              cases h3
          · exact Or.inr hd
        simp only [resetMode, hl, hpop, if_true]
        refine ⟨⟨t, ?_⟩, trivial⟩
        exact (List.dropLast_append_getLast? t hl).symm
    · intro hB
      cases hl : s.triangles.getLast? with
      | none => simp [resetMode, hl]
      | some t =>
        have hnopop : ¬ (t.size % 3 ≠ 0 ∨ s.DrawingsInProgress = true) := by
          rcases hB with he | ⟨⟨u, hu, huc⟩, hd⟩
          · rw [he] at hl
            cases hl
          · rw [hl] at hu
            simp only [Option.some.injEq] at hu
            subst hu
            have hw := hs.wf (s.triangles.length - 1) t
              (by rw [← List.getLast?_eq_getElem?]; exact hl)
            rintro (h | h)
            · rcases hw with ⟨-, h2⟩ | ⟨h3, -⟩
              · rw [Triangle.isComplete] at huc
                rw [huc] at h2
                cases h2
              · simp [Triangle.size, h3] at h
            · rw [hd] at h
              cases h
        simp only [resetMode, hl, hnopop, if_false]
        exact ⟨trivial, trivial⟩
  · intro p
    refine ⟨_, rfl, rfl, ?_⟩
    simp [switchMode, resetMode, handleInsertionClick, State.init, Triangle.addVertex,
      Triangle.new, Triangle.mk0, Triangle.size]

/-- After one press at `(0,0)` the scene holds a draft; the key `O` removes it. -/
theorem C5_witness :
    ∃ s s1 : State ℚ, Reachable libQ s ∧ s.curMode = AppMode.INSERTION ∧
      s.triangles.length = 1 ∧ s.DrawingsInProgress = true ∧
      key_callback libQ s Key.O Action.RELEASE = some s1 ∧
      s1.curMode = AppMode.TRANSFORMATION ∧ s1.triangles = [] ∧
      s1.DrawingsInProgress = false := by
  have hr : Reachable libQ (State.init : State ℚ) := Reachable.init
  have hrun : run libQ State.init [Event.button Button.LEFT Action.PRESS ⟨0, 0⟩] =
      some { (State.init : State ℚ) with
        triangles := [⟨[⟨⟨0, 0⟩, white⟩, ⟨⟨0, 0⟩, white⟩], false, white, black⟩]
        DrawingsInProgress := true } := rfl
  have hr1 := reachable_run _ hr hrun
  obtain ⟨⟨s1, h1, h2, h3, -⟩, -⟩ := C5_mode_exit_discard libQ _ hr1 rfl Key.O
    AppMode.TRANSFORMATION rfl (by decide)
  obtain ⟨⟨t, ht⟩, hd⟩ := h3 (Or.inr rfl)
  refine ⟨_, s1, hr1, rfl, rfl, rfl, h1, h2, ?_, hd⟩
  have hlen := congrArg List.length ht
  simp only [List.length_append, List.length_singleton] at hlen
  exact List.length_eq_zero.mp (by omega)

/-! ## Animation -/

/-- The constant `ANIMATION_TIME / ANIMATION_STEP` is `500`, as a `double` and as an `int`. -/
theorem totalSteps_eq : ((ANIMATION_TIME / ANIMATION_STEP : ℚ) : K) = 500 ∧
    cTrunc (ANIMATION_TIME / ANIMATION_STEP) = 500 := by
  have h : (ANIMATION_TIME / ANIMATION_STEP : ℚ) = 500 := by
    norm_num [ANIMATION_TIME, ANIMATION_STEP]
  rw [h]
  constructor
  · norm_num
  · unfold cTrunc
    norm_num

/-- On a positive counter `AnimationTimeout -= ANIMATION_STEP` subtracts exactly one: the
difference `t - 0.01` is truncated toward zero. -/
theorem cTrunc_sub_step (t : Int) (ht : 0 < t) :
    cTrunc ((t : ℚ) - ANIMATION_STEP) = t - 1 := by
  have h1 : (1 : ℚ) ≤ (t : ℚ) := by exact_mod_cast ht
  unfold cTrunc ANIMATION_STEP
  rw [if_pos (by linarith)]
  rw [Int.floor_eq_iff]
  constructor
  · push_cast
    linarith
  · push_cast
    linarith

theorem Triangle.shifted_zero (t : Triangle K) (d : Vec2 K × Vec2 K × Vec2 K) :
    t.shifted d 0 = t := by
  unfold Triangle.shifted
  split
  · rename_i v0 v1 v2 rest hv
    cases t
    simp only [Vec2.add, Vec2.smul, mul_zero, add_zero] at hv ⊢
    simp [hv]
  · rfl

theorem Triangle.addDeltas_shifted (t : Triangle K) (d : Vec2 K × Vec2 K × Vec2 K)
    (h3 : 3 ≤ t.vertices.length) :
    ∃ t1 : Triangle K, t.addDeltas d = some t1 ∧ 3 ≤ t1.vertices.length ∧
      ∀ k : K, t1.shifted d k = t.shifted d (k + 1) := by
  rcases hv : t.vertices with _ | ⟨v0, _ | ⟨v1, _ | ⟨v2, rest⟩⟩⟩
  · rw [hv] at h3; simp at h3
  · rw [hv] at h3; simp at h3
  · rw [hv] at h3; simp at h3
  · refine ⟨⟨Vertex.mk (v0.vertex.add d.1) v0.color :: Vertex.mk (v1.vertex.add d.2.1) v1.color
      :: Vertex.mk (v2.vertex.add d.2.2) v2.color :: rest, t.complete, t.fillColor,
      t.outlineColor⟩, by simp only [Triangle.addDeltas, hv], by simp, ?_⟩
    intro k
    simp only [Triangle.shifted, hv, Vec2.add, Vec2.smul]
    have e : ∀ a b : K, a + b + b * k = a + b * (k + 1) := fun a b => by ring
    simp only [e]

theorem List.set_of_getElem? {α : Type} (l : List α) (i : Nat) (a : α)
    (h : l[i]? = some a) : l.set i a = l := by
  apply List.ext_getElem?
  intro j
  by_cases hij : i = j
  · subst hij
    rw [List.getElem?_set_self (List.getElem?_eq_some.mp h).1, h]
  · rw [List.getElem?_set_ne hij]

/-- One call of `runAnimation` in the running phase with a positive counter: the source
moves by the deltas, the counter loses one, and the phase ends when the counter reaches
zero. -/
theorem runAnimation_running (s : State K) (i : Nat) (t : Triangle K)
    (hrun : s.AnimationInProgress = 3) (hT : 0 < s.AnimationTimeout)
    (hS : s.animationStartTriangle = some i) (ht : s.triangles[i]? = some t)
    (h3 : 3 ≤ t.vertices.length) :
    ∃ (s1 : State K) (t1 : Triangle K), runAnimation s = some s1 ∧
      t.addDeltas s.AnimationDeltas = some t1 ∧
      s1.triangles = s.triangles.set i t1 ∧
      s1.AnimationTimeout = s.AnimationTimeout - 1 ∧
      s1.AnimationDeltas = s.AnimationDeltas ∧ s1.curMode = s.curMode ∧
      (1 < s.AnimationTimeout → s1.AnimationInProgress = 3 ∧
        s1.animationStartTriangle = some i ∧
        s1.animationFinalTriangle = s.animationFinalTriangle) ∧
      (s.AnimationTimeout = 1 → s1.AnimationInProgress = 0 ∧
        s1.animationStartTriangle = none ∧ s1.animationFinalTriangle = none) := by
  obtain ⟨t1, hd, -, -⟩ := Triangle.addDeltas_shifted t s.AnimationDeltas h3
  have hc : ¬ (s.AnimationInProgress ≠ 3 ∨ s.AnimationTimeout ≤ 0) := by
    rintro (h | h)
    · exact h hrun
    · omega
  unfold runAnimation
  simp only [hc, if_false, hS, ht, hd, cTrunc_sub_step _ hT]
  by_cases h1 : s.AnimationTimeout - 1 ≤ 0
  · simp only [h1, if_true]
    refine ⟨_, t1, rfl, rfl, rfl, rfl, rfl, rfl, ?_, ?_⟩
    · intro h
      omega
    · intro _
      exact ⟨rfl, rfl, rfl⟩
  · simp only [h1, if_false]
    refine ⟨_, t1, rfl, rfl, rfl, rfl, rfl, rfl, ?_, ?_⟩
    · intro _
      exact ⟨hrun, rfl, rfl⟩
    · intro h
      omega

/-- The effect of `k` calls of `runAnimation` in the running phase while the counter
lasts. -/
theorem runAnimationN_running (k : Nat) : ∀ (s : State K) (i : Nat) (t : Triangle K),
    s.AnimationInProgress = 3 → (k : Int) ≤ s.AnimationTimeout →
    s.animationStartTriangle = some i → s.triangles[i]? = some t →
    3 ≤ t.vertices.length →
    ∃ sk : State K, runAnimationN k s = some sk ∧
      sk.triangles = s.triangles.set i (t.shifted s.AnimationDeltas (k : K)) ∧
      sk.AnimationTimeout = s.AnimationTimeout - k ∧
      sk.AnimationDeltas = s.AnimationDeltas ∧ sk.curMode = s.curMode ∧
      ((k : Int) < s.AnimationTimeout → sk.AnimationInProgress = 3 ∧
        sk.animationStartTriangle = some i ∧
        sk.animationFinalTriangle = s.animationFinalTriangle) ∧
      ((k : Int) = s.AnimationTimeout → 0 < k → sk.AnimationInProgress = 0 ∧
        sk.animationStartTriangle = none ∧ sk.animationFinalTriangle = none) := by
  induction k with
  | zero =>
    intro s i t hrun _ hS ht _
    refine ⟨s, rfl, ?_, by simp, rfl, rfl, ?_, ?_⟩
    · simp only [Nat.cast_zero, Triangle.shifted_zero]
      exact (List.set_of_getElem? _ _ _ ht).symm
    · intro _
      exact ⟨hrun, hS, rfl⟩
    · intro _ h
      omega
  | succ k ih =>
    intro s i t hrun hk hS ht h3
    have hT : 0 < s.AnimationTimeout := by
      push_cast at hk
      omega
    obtain ⟨s1, t1, hs1, hd, htri, hto, hdel, hmode, hgo, hstop⟩ :=
      runAnimation_running s i t hrun hT hS ht h3
    obtain ⟨t1', hd', h3', hshift⟩ := Triangle.addDeltas_shifted t s.AnimationDeltas h3
    rw [hd] at hd'
    simp only [Option.some.injEq] at hd'
    subst hd'
    have hlt : i < s.triangles.length := (List.getElem?_eq_some.mp ht).1
    have hcast : ((k + 1 : Nat) : K) = (k : K) + 1 := by push_cast; ring
    by_cases h1 : s.AnimationTimeout = 1
    · have hk0 : k = 0 := by
        push_cast at hk
        omega
      subst hk0
      obtain ⟨e1, e2, e3⟩ := hstop h1
      refine ⟨s1, by simp [runAnimationN, hs1], ?_, ?_, hdel, hmode, ?_, ?_⟩
      · rw [htri, hcast, ← hshift, Nat.cast_zero, Triangle.shifted_zero]
      · rw [hto]
        push_cast
        ring
      · intro h
        push_cast at h
        omega
      · intro _ _
        exact ⟨e1, e2, e3⟩
    · have h1' : 1 < s.AnimationTimeout := by omega
      obtain ⟨e1, e2, e3⟩ := hgo h1'
      have hk1 : (k : Int) ≤ s1.AnimationTimeout := by
        rw [hto]
        push_cast at hk
        omega
      have ht1 : s1.triangles[i]? = some t1 := by
        rw [htri, List.getElem?_set_self hlt]
      obtain ⟨sk, hsk, q1, q2, q3, q4, q5, q6⟩ := ih s1 i t1 e1 hk1 e2 ht1 h3'
      refine ⟨sk, by simp [runAnimationN, hs1, hsk], ?_, ?_, ?_, ?_, ?_, ?_⟩
      · rw [q1, htri, List.set_set, hdel, hshift, hcast]
      · rw [q2, hto]
        push_cast
        ring
      · rw [q3, hdel]
      · rw [q4, hmode]
      · intro h
        have := q5 (by rw [hto]; push_cast at h; omega)
        rw [e3] at this
        exact this
      · intro h _
        by_cases hk0 : k = 0
        · subst hk0
          push_cast at h
          omega
        · exact q6 (by rw [hto]; push_cast at h; omega) (by omega)

/-- Claim C8. From a running animation whose counter is `500`, the first `499` calls of
`runAnimation` keep the phase running and each takes one off the counter; the `500`th call
ends the phase and clears both references.  Arming sets the counter to `500`, and a call
in another phase or with a counter `≤ 0` changes nothing. -/
theorem C8_exactly_500_ticks (s : State K) (i : Nat) (t : Triangle K)
    (hrun : s.AnimationInProgress = 3) (hT : s.AnimationTimeout = 500)
    (hS : s.animationStartTriangle = some i) (ht : s.triangles[i]? = some t)
    (h3 : 3 ≤ t.vertices.length) :
    (∀ k : Nat, k < 500 → ∃ sk : State K, runAnimationN k s = some sk ∧
      sk.AnimationInProgress = 3 ∧ sk.AnimationTimeout = 500 - k ∧
      sk.animationStartTriangle = some i ∧
      sk.animationFinalTriangle = s.animationFinalTriangle) ∧
    (∃ s500 : State K, runAnimationN 500 s = some s500 ∧ s500.AnimationInProgress = 0 ∧
      s500.AnimationTimeout = 0 ∧ s500.animationStartTriangle = none ∧
      s500.animationFinalTriangle = none) ∧
    (∀ (s0 sa : State K) (p : Vec2 K), s0.AnimationInProgress = 1 →
      handleAnimationClick s0 p = some sa → sa.AnimationInProgress = 2 →
      sa.AnimationTimeout = 500) ∧
    (∀ s0 : State K, s0.AnimationInProgress ≠ 3 ∨ s0.AnimationTimeout ≤ 0 →
      runAnimation s0 = some s0) := by
  refine ⟨?_, ?_, ?_, ?_⟩
  · intro k hk
    obtain ⟨sk, h1, -, h3', -, -, h5, -⟩ :=
      runAnimationN_running k s i t hrun (by rw [hT]; omega) hS ht h3
    obtain ⟨e1, e2, e3⟩ := h5 (by rw [hT]; omega)
    exact ⟨sk, h1, e1, by rw [h3', hT], e2, e3⟩
  · obtain ⟨sk, h1, -, h3', -, -, -, h6⟩ :=
      runAnimationN_running 500 s i t hrun (by rw [hT]; norm_num) hS ht h3
    obtain ⟨e1, e2, e3⟩ := h6 (by rw [hT]; norm_num) (by norm_num)
    exact ⟨sk, h1, e1, by rw [h3', hT]; norm_num, e2, e3⟩
  · intro s0 sa p h1 h h2
    unfold handleAnimationClick at h
    have hn : ¬ s0.AnimationInProgress ≥ 2 := by omega
    rw [if_neg hn, if_pos h1] at h
    cases hf : findFirstInside p s0.triangles 0 with
    | none =>
      simp only [hf, Option.some.injEq] at h
      subst h
      simp at h2
    | some j =>
      simp only [hf] at h
      cases hsel : s0.animationStartTriangle with
      | none =>
        simp only [hsel, Option.some.injEq] at h
        subst h
        simp at h2
      | some i0 =>
        simp only [hsel] at h
        cases hti : s0.triangles[i0]? with
        | none => simp [hti] at h
        | some ts =>
          cases htj : s0.triangles[j]? with
          | none => simp [hti, htj] at h
          | some tf =>
            simp only [hti, htj] at h
            cases hd : animationDeltas ts tf with
            | none => simp [hd] at h
            | some d =>
              simp only [hd, Option.some.injEq] at h
              subst h
              exact (@totalSteps_eq ℚ _).2
  · intro s0 h
    unfold runAnimation
    rw [if_pos h]

/-- The running state `runningQ`: after `499` calls the phase is still running with
counter `1`, after `500` it is idle with both references cleared. -/
theorem C8_witness :
    (∃ sk : State ℚ, runAnimationN 499 runningQ = some sk ∧ sk.AnimationInProgress = 3 ∧
      sk.AnimationTimeout = 1) ∧
    (∃ s500 : State ℚ, runAnimationN 500 runningQ = some s500 ∧
      s500.AnimationInProgress = 0 ∧ s500.AnimationTimeout = 0 ∧
      s500.animationStartTriangle = none ∧ s500.animationFinalTriangle = none) := by
  have h := C8_exactly_500_ticks runningQ 0 (triQ ⟨0, 0⟩ ⟨1, 0⟩ ⟨0, 1⟩) rfl rfl rfl rfl
    (by decide)
  obtain ⟨sk, h1, h2, h3, -⟩ := h.1 499 (by norm_num)
  exact ⟨⟨sk, h1, h2, by rw [h3]; norm_num⟩, h.2.1⟩

/-- The deltas armed for a source `a0, a1, a2` and a target `b0, b1, b2`: a 500th of the
difference, vertex by vertex. -/
theorem animationDeltas_eq (ts tf : Triangle K) (a0 a1 a2 b0 b1 b2 : Vertex K)
    (hvs : ts.vertices = [a0, a1, a2]) (hvf : tf.vertices = [b0, b1, b2]) :
    animationDeltas ts tf = some ((b0.vertex.sub a0.vertex).sdiv 500,
      (b1.vertex.sub a1.vertex).sdiv 500, (b2.vertex.sub a2.vertex).sdiv 500) := by
  simp only [animationDeltas, hvs, hvf, (@totalSteps_eq K _).1]

/-- Claim C7. When a click in the target-picking phase finds a triangle `j` other than the
source `i`, the animation is armed, the key `SPACE` starts it, and after `k ≤ 500` calls of
`runAnimation` source vertex `n` is at `a_n + (k/500) (b_n - a_n)`, with its colour; every
other triangle, the target included, is unchanged.  After `500` calls the source is at the
target's positions, after `250` at the midpoints. -/
theorem C7_tween_is_linear (lib : MathLib K) (s : State K) (P : Vec2 K) (i j : Nat)
    (ts tf : Triangle K) (a0 a1 a2 b0 b1 b2 : Vertex K)
    (hmode : s.curMode = AppMode.ANIMATION) (h1 : s.AnimationInProgress = 1)
    (hS : s.animationStartTriangle = some i)
    (hfind : findFirstInside P s.triangles 0 = some j) (hij : i ≠ j)
    (hts : s.triangles[i]? = some ts) (htf : s.triangles[j]? = some tf)
    (hvs : ts.vertices = [a0, a1, a2]) (hvf : tf.vertices = [b0, b1, b2]) :
    ∃ sa sr : State K,
      handleAnimationClick s P = some sa ∧ sa.AnimationInProgress = 2 ∧
      sa.triangles = s.triangles ∧
      key_callback lib sa Key.SPACE Action.RELEASE = some sr ∧ sr.AnimationInProgress = 3 ∧
      sr.triangles = s.triangles ∧
      ∀ k : Nat, k ≤ 500 → ∃ sk : State K, runAnimationN k sr = some sk ∧
        sk.triangles[i]? = some { ts with vertices :=
          [⟨lerp a0.vertex b0.vertex ((k : K) / 500), a0.color⟩,
           ⟨lerp a1.vertex b1.vertex ((k : K) / 500), a1.color⟩,
           ⟨lerp a2.vertex b2.vertex ((k : K) / 500), a2.color⟩] } ∧
        sk.triangles[j]? = some tf ∧
        sk.triangles.length = s.triangles.length ∧
        (∀ n : Nat, n ≠ i → sk.triangles[n]? = s.triangles[n]?) ∧
        (k = 500 → sk.triangles[i]? = some { ts with vertices :=
          [⟨b0.vertex, a0.color⟩, ⟨b1.vertex, a1.color⟩, ⟨b2.vertex, a2.color⟩] }) ∧
        (k = 250 → sk.triangles[i]? = some { ts with vertices :=
          [⟨⟨(a0.vertex.x + b0.vertex.x) / 2, (a0.vertex.y + b0.vertex.y) / 2⟩, a0.color⟩,
           ⟨⟨(a1.vertex.x + b1.vertex.x) / 2, (a1.vertex.y + b1.vertex.y) / 2⟩, a1.color⟩,
           ⟨⟨(a2.vertex.x + b2.vertex.x) / 2, (a2.vertex.y + b2.vertex.y) / 2⟩,
             a2.color⟩] }) := by
  have hn : ¬ s.AnimationInProgress ≥ 2 := by omega
  have hd := animationDeltas_eq ts tf a0 a1 a2 b0 b1 b2 hvs hvf
  have harm : handleAnimationClick s P = some { s with
      animationFinalTriangle := some j
      restoreTriangle := ts
      AnimationDeltas := ((b0.vertex.sub a0.vertex).sdiv 500,
        (b1.vertex.sub a1.vertex).sdiv 500, (b2.vertex.sub a2.vertex).sdiv 500)
      AnimationInProgress := 2
      AnimationTimeout := cTrunc (ANIMATION_TIME / ANIMATION_STEP) } := by
    unfold handleAnimationClick
    rw [if_neg hn, if_pos h1]
    simp only [hfind, hS, hts, htf, hd]
  have hkey : key_callback lib { s with
      animationFinalTriangle := some j
      restoreTriangle := ts
      AnimationDeltas := ((b0.vertex.sub a0.vertex).sdiv 500,
        (b1.vertex.sub a1.vertex).sdiv 500, (b2.vertex.sub a2.vertex).sdiv 500)
      AnimationInProgress := 2
      AnimationTimeout := cTrunc (ANIMATION_TIME / ANIMATION_STEP) } Key.SPACE
      Action.RELEASE = some { s with
      animationFinalTriangle := some j
      restoreTriangle := ts
      AnimationDeltas := ((b0.vertex.sub a0.vertex).sdiv 500,
        (b1.vertex.sub a1.vertex).sdiv 500, (b2.vertex.sub a2.vertex).sdiv 500)
      AnimationInProgress := 3
      AnimationTimeout := cTrunc (ANIMATION_TIME / ANIMATION_STEP) } := by
    simp [key_callback, hmode, hS]
  refine ⟨_, _, harm, rfl, rfl, hkey, rfl, rfl, ?_⟩
  intro k hk
  have h500 : cTrunc (ANIMATION_TIME / ANIMATION_STEP) = 500 := (@totalSteps_eq ℚ _).2
  obtain ⟨sk, hrunk, htri, -, -, -, -, -⟩ := runAnimationN_running k _ i ts
    (show ({ s with
      animationFinalTriangle := some j
      restoreTriangle := ts
      AnimationDeltas := ((b0.vertex.sub a0.vertex).sdiv 500,
        (b1.vertex.sub a1.vertex).sdiv 500, (b2.vertex.sub a2.vertex).sdiv 500)
      AnimationInProgress := 3
      AnimationTimeout := cTrunc (ANIMATION_TIME / ANIMATION_STEP) } :
        State K).AnimationInProgress = 3 from rfl)
    (by show (k : Int) ≤ cTrunc (ANIMATION_TIME / ANIMATION_STEP); rw [h500]; omega)
    hS hts (by rw [hvs]; simp)
  have hlt : i < s.triangles.length := (List.getElem?_eq_some.mp hts).1
  have hshape : ts.shifted ((b0.vertex.sub a0.vertex).sdiv 500,
      (b1.vertex.sub a1.vertex).sdiv 500, (b2.vertex.sub a2.vertex).sdiv 500) (k : K) =
      { ts with vertices :=
          [⟨lerp a0.vertex b0.vertex ((k : K) / 500), a0.color⟩,
           ⟨lerp a1.vertex b1.vertex ((k : K) / 500), a1.color⟩,
           ⟨lerp a2.vertex b2.vertex ((k : K) / 500), a2.color⟩] } := by
    simp only [Triangle.shifted, hvs, Vec2.add, Vec2.smul, Vec2.sdiv, Vec2.sub, lerp]
    have e : ∀ a b : K, a + (b - a) / 500 * (k : K) = a + (k : K) / 500 * (b - a) :=
      fun a b => by ring
    simp only [e]
  have hi : sk.triangles[i]? = some { ts with vertices :=
          [⟨lerp a0.vertex b0.vertex ((k : K) / 500), a0.color⟩,
           ⟨lerp a1.vertex b1.vertex ((k : K) / 500), a1.color⟩,
           ⟨lerp a2.vertex b2.vertex ((k : K) / 500), a2.color⟩] } := by
    rw [htri]
    show (s.triangles.set i _)[i]? = _
    rw [List.getElem?_set_self hlt, hshape]
  have hother : ∀ n : Nat, n ≠ i → sk.triangles[n]? = s.triangles[n]? := by
    intro n hne
    rw [htri]
    show (s.triangles.set i _)[n]? = _
    rw [List.getElem?_set_ne (Ne.symm hne)]
  refine ⟨sk, hrunk, hi, ?_, ?_, hother, ?_, ?_⟩
  · rw [hother j (Ne.symm hij), htf]
  · rw [htri]
    show (s.triangles.set i _).length = _
    rw [List.length_set]
  · intro hk5
    rw [hi, hk5]
    simp [lerp]
  · intro hk2
    rw [hi, hk2]
    have e : ∀ a b : K, a + ((250 : Nat) : K) / 500 * (b - a) = (a + b) / 2 := by
      intro a b
      push_cast
      ring
    simp only [lerp, e]

/-- The worked example of the specification: source `(0,0)`, `(1,0)`, `(0,1)`, target `(2,0)`, `(3,0)`, `(2,1)`,
the click at `(9/4, 1/4)` inside the target only.  After `250` ticks the source is at
`(1,0)`, `(2,0)`, `(1,1)`, after `500` ticks on the target; the target has not moved. -/
theorem C7_witness :
    ∃ sa sr s250 s500 : State ℚ,
      handleAnimationClick pickedQ ⟨9 / 4, 1 / 4⟩ = some sa ∧
      key_callback libQ sa Key.SPACE Action.RELEASE = some sr ∧
      runAnimationN 250 sr = some s250 ∧
      s250.triangles[0]? = some (triQ ⟨1, 0⟩ ⟨2, 0⟩ ⟨1, 1⟩) ∧
      s250.triangles[1]? = some (triQ ⟨2, 0⟩ ⟨3, 0⟩ ⟨2, 1⟩) ∧
      runAnimationN 500 sr = some s500 ∧
      s500.triangles[0]? = some (triQ ⟨2, 0⟩ ⟨3, 0⟩ ⟨2, 1⟩) ∧
      s500.triangles[1]? = some (triQ ⟨2, 0⟩ ⟨3, 0⟩ ⟨2, 1⟩) := by
  have hsrc : (triQ ⟨0, 0⟩ ⟨1, 0⟩ ⟨0, 1⟩).isInside ⟨9 / 4, 1 / 4⟩ = false := by
    rw [← Bool.not_eq_true]
    unfold Triangle.isInside
    rw [isInsideZ_iff false false _ ⟨⟨0, 0⟩, white⟩ ⟨⟨1, 0⟩, white⟩ ⟨⟨0, 1⟩, white⟩ [] rfl rfl]
    norm_num [baryW1, baryW2, det]
  have htgt : (triQ ⟨2, 0⟩ ⟨3, 0⟩ ⟨2, 1⟩).isInside ⟨9 / 4, 1 / 4⟩ = true :=
    isInside_of_hasWeights _ ⟨⟨2, 0⟩, white⟩ ⟨⟨3, 0⟩, white⟩ ⟨⟨2, 1⟩, white⟩ [] rfl rfl
      (by norm_num [det]) (by norm_num) ⟨9 / 4, 1 / 4⟩ (1 / 4) (1 / 4) (by norm_num)
      (by norm_num) (by norm_num) (by constructor <;> norm_num)
  have hfind : findFirstInside ⟨9 / 4, 1 / 4⟩ pickedQ.triangles 0 = some 1 := by
    show findFirstInside ⟨9 / 4, 1 / 4⟩
      [triQ ⟨0, 0⟩ ⟨1, 0⟩ ⟨0, 1⟩, triQ ⟨2, 0⟩ ⟨3, 0⟩ ⟨2, 1⟩] 0 = some 1
    simp only [findFirstInside, hsrc, htgt, Bool.false_eq_true, if_false, if_true]
  obtain ⟨sa, sr, h1, -, -, h2, -, -, h3⟩ := C7_tween_is_linear libQ pickedQ ⟨9 / 4, 1 / 4⟩
    0 1 (triQ ⟨0, 0⟩ ⟨1, 0⟩ ⟨0, 1⟩) (triQ ⟨2, 0⟩ ⟨3, 0⟩ ⟨2, 1⟩)
    ⟨⟨0, 0⟩, white⟩ ⟨⟨1, 0⟩, white⟩ ⟨⟨0, 1⟩, white⟩
    ⟨⟨2, 0⟩, white⟩ ⟨⟨3, 0⟩, white⟩ ⟨⟨2, 1⟩, white⟩ rfl rfl rfl hfind (by decide) rfl rfl
    rfl rfl
  obtain ⟨s250, r1, -, r3, -, -, -, r6⟩ := h3 250 (by norm_num)
  obtain ⟨s500, q1, -, q3, -, -, q5, -⟩ := h3 500 (by norm_num)
  refine ⟨sa, sr, s250, s500, h1, h2, r1, ?_, r3, q1, ?_, q3⟩
  · rw [r6 rfl]
    norm_num [triQ]
  · rw [q5 rfl]
    rfl

/-! ## No event reads out of range -/

set_option linter.unusedSectionVars false

theorem animOK_handleInsertionMove {s s1 : State K} (p : Vec2 K) (ha : AnimOK s)
    (h : handleInsertionMove s p = some s1) : AnimOK s1 := by
  unfold handleInsertionMove at h
  repeat' split at h
  all_goals first
    | (cases h; done)
    | (cases h; exact ha)

theorem animOK_handleInsertionClick {s s1 : State K} (p : Vec2 K) (ha : AnimOK s)
    (h : handleInsertionClick s p = some s1) : AnimOK s1 := by
  unfold handleInsertionClick at h
  repeat' split at h
  all_goals first
    | (cases h; done)
    | (cases h; exact ha)

theorem animOK_handleSelectionMove {s s1 : State K} (p : Vec2 K) (ha : AnimOK s)
    (h : handleSelectionMove s p = some s1) : AnimOK s1 := by
  unfold handleSelectionMove at h
  repeat' split at h
  all_goals first
    | (cases h; done)
    | (cases h; exact ha)

theorem animOK_handleTranslationClick {s : State K} (p : Vec2 K) (ha : AnimOK s) :
    AnimOK (handleTranslationClick s p) := by
  unfold handleTranslationClick
  split <;> exact ha

theorem animOK_handleRemoveClick {s : State K} (p : Vec2 K) (ha : AnimOK s) :
    AnimOK (handleRemoveClick s p) := by
  unfold handleRemoveClick
  split <;> exact ha

theorem animOK_handleSelectClosestVertex {s s1 : State K} (lib : MathLib K) (p : Vec2 K)
    (ha : AnimOK s) (h : handleSelectClosestVertex lib s p = some s1) : AnimOK s1 := by
  unfold handleSelectClosestVertex at h
  repeat' split at h
  all_goals first
    | (cases h; done)
    | (cases h; exact ha)

theorem animOK_setSelectedColor {s s1 : State K} (k : Nat) (ha : AnimOK s)
    (h : setSelectedColor s k = some s1) : AnimOK s1 := by
  unfold setSelectedColor at h
  repeat' split at h
  all_goals first
    | (cases h; done)
    | (cases h; exact ha)

theorem animOK_onSelected {s s1 : State K} (f : Triangle K → Option (Triangle K))
    (ha : AnimOK s) (h : onSelected s f = some s1) : AnimOK s1 := by
  unfold onSelected at h
  repeat' split at h
  all_goals first
    | (cases h; done)
    | (cases h; exact ha)

theorem animOK_runAnimation {s s1 : State K} (ha : AnimOK s)
    (h : runAnimation s = some s1) : AnimOK s1 := by
  unfold runAnimation at h
  split_ifs at h with hc
  · cases h
    exact ha
  · cases hsel : s.animationStartTriangle with
    | none => simp [hsel] at h
    | some i =>
      simp only [hsel] at h
      cases ht : s.triangles[i]? with
      | none => simp [ht] at h
      | some t =>
        simp only [ht] at h
        cases hd : t.addDeltas s.AnimationDeltas with
        | none => simp [hd] at h
        | some t1 =>
          simp only [hd] at h
          split_ifs at h
          · cases h
            intro h3
            cases h3
          · cases h
            intro _
            exact ⟨i, rfl⟩

theorem animOK_handleAnimationClick {s s1 : State K} (p : Vec2 K) (ha : AnimOK s)
    (h : handleAnimationClick s p = some s1) : AnimOK s1 := by
  unfold handleAnimationClick at h
  repeat' split at h
  all_goals first
    | (cases h; done)
    | (cases h; exact ha)
    | (cases h; intro h3; cases h3)

theorem animOK_switchMode {s : State K} (m : AppMode) (ha : AnimOK s) :
    AnimOK (switchMode s m) := by
  unfold switchMode
  split
  · exact ha
  · unfold resetMode
    repeat' split
    all_goals first
      | exact ha
      | (intro h3; cases h3)

theorem animOK_key_callback {s s1 : State K} (lib : MathLib K) (key : Key) (action : Action)
    (ha : AnimOK s) (h : key_callback lib s key action = some s1) : AnimOK s1 := by
  unfold key_callback at h
  by_cases hact : action ≠ Action.RELEASE
  · rw [if_pos hact] at h
    cases h
    exact ha
  · rw [if_neg hact] at h
    cases key with
    | F1 => cases h; exact animOK_switchMode _ ha
    | SPACE =>
      simp only at h
      split_ifs at h with hc
      · cases h
        exact ha
      · cases h
        intro _
        cases hS : s.animationStartTriangle with
        | none => exact absurd (Or.inr (Or.inl hS)) hc
        | some i => exact ⟨i, rfl⟩
    | I => cases h; exact animOK_switchMode _ ha
    | O => cases h; exact animOK_switchMode _ ha
    | P => cases h; exact animOK_switchMode _ ha
    | C => cases h; exact animOK_switchMode _ ha
    | H => exact animOK_onSelected _ ha h
    | J => exact animOK_onSelected _ ha h
    | K => exact animOK_onSelected _ ha h
    | L => exact animOK_onSelected _ ha h
    | N1 => exact animOK_setSelectedColor _ ha h
    | N2 => exact animOK_setSelectedColor _ ha h
    | N3 => exact animOK_setSelectedColor _ ha h
    | N4 => exact animOK_setSelectedColor _ ha h
    | N5 => exact animOK_setSelectedColor _ ha h
    | N6 => exact animOK_setSelectedColor _ ha h
    | N7 => exact animOK_setSelectedColor _ ha h
    | N8 => exact animOK_setSelectedColor _ ha h
    | N9 => exact animOK_setSelectedColor _ ha h
    | W => cases h; exact ha
    | A => cases h; exact ha
    | S => cases h; exact ha
    | D => cases h; exact ha
    | MINUS =>
      simp only at h
      split_ifs at h <;> (cases h; exact ha)
    | EQUAL =>
      simp only at h
      split_ifs at h <;> (cases h; exact ha)
    | OTHER => cases h; exact ha

theorem animOK_step {s s1 : State K} (lib : MathLib K) (e : Event K) (ha : AnimOK s)
    (h : step lib s e = some s1) : AnimOK s1 := by
  cases e with
  | move p =>
    simp only [step, mouse_pos_callback] at h
    split at h
    · split_ifs at h
      · exact animOK_handleInsertionMove p ha h
      · cases h; exact ha
    · split_ifs at h
      · exact animOK_handleSelectionMove p ha h
      · cases h; exact ha
    · cases h; exact ha
  | button b a p =>
    simp only [step, mouse_button_callback] at h
    split at h
    · cases h; exact ha
    · split_ifs at h
      · exact animOK_handleInsertionClick p ha h
      · cases h; exact ha
    · split_ifs at h
      · cases h; exact animOK_handleTranslationClick p ha
      · cases h; exact ha
    · split_ifs at h
      · cases h; exact animOK_handleRemoveClick p ha
      · cases h; exact ha
    · split_ifs at h
      · exact animOK_handleSelectClosestVertex lib p ha h
      · cases h; exact ha
    · split_ifs at h
      · exact animOK_handleAnimationClick p ha h
      · cases h; exact ha
  | key k a => exact animOK_key_callback lib k a ha h
  | tick =>
    simp only [step, frameTick] at h
    split_ifs at h
    · exact animOK_runAnimation ha h
    · cases h; exact ha

/-- In every reachable state the running phase has a source triangle. -/
theorem reachable_animOK {lib : MathLib K} {s : State K} (h : Reachable lib s) :
    AnimOK s := by
  induction h with
  | init =>
    intro h
    simp [State.init] at h
  | step s s1 e _ hstep ih => exact animOK_step lib e ih hstep

/-- Under the invariant a complete triangle of the scene has exactly three vertices. -/
theorem Inv.three_of_complete {s : State K} (hs : Inv s) (i : Nat) (t : Triangle K)
    (hi : s.triangles[i]? = some t) (hc : t.complete = true) : t.vertices.length = 3 := by
  rcases hs.wf i t hi with ⟨-, h2⟩ | ⟨h3, -⟩
  · rw [hc] at h2
    cases h2
  · exact h3

/-- Under the invariant every triangle of the scene has at least two vertices. -/
theorem Inv.two_le {s : State K} (hs : Inv s) (i : Nat) (t : Triangle K)
    (hi : s.triangles[i]? = some t) : 2 ≤ t.vertices.length := by
  rcases hs.wf i t hi with ⟨h2, -⟩ | ⟨h3, -⟩ <;> omega

theorem Triangle.barycenter_isSome (t : Triangle K) (h : 3 ≤ t.vertices.length) :
    ∃ c : Vec2 K, t.barycenter = some c := by
  rcases hv : t.vertices with _ | ⟨v0, _ | ⟨v1, _ | ⟨v2, rest⟩⟩⟩
  · rw [hv] at h; simp at h
  · rw [hv] at h; simp at h
  · rw [hv] at h; simp at h
  · exact ⟨⟨(v0.vertex.x + v1.vertex.x + v2.vertex.x) / 3,
      (v0.vertex.y + v1.vertex.y + v2.vertex.y) / 3⟩, by simp only [Triangle.barycenter, hv]⟩

/-- While a draw is in progress the scene has a last triangle. -/
theorem Inv.last_of_draw {s : State K} (hs : Inv s) (hd : s.DrawingsInProgress = true) :
    ∃ t : Triangle K, s.triangles.getLast? = some t ∧
      s.triangles[s.triangles.length - 1]? = some t := by
  have hne := (hs.draw hd).2
  have hpos : 0 < s.triangles.length := List.length_pos.mpr hne
  have hlt : s.triangles.length - 1 < s.triangles.length := by omega
  refine ⟨_, ?_, List.getElem?_eq_getElem hlt⟩
  rw [List.getLast?_eq_getElem?, List.getElem?_eq_getElem hlt]

theorem total_handleInsertionMove {s : State K} (p : Vec2 K) (hs : Inv s) :
    ∃ s1 : State K, handleInsertionMove s p = some s1 := by
  unfold handleInsertionMove
  split_ifs with hd
  · obtain ⟨t, hl, hi⟩ := hs.last_of_draw hd
    have h2 := hs.two_le _ t hi
    have hv : t.size - 1 < t.vertices.length := by
      unfold Triangle.size
      omega
    simp only [hl, List.getElem?_eq_getElem hv]
    exact ⟨_, rfl⟩
  · exact ⟨_, rfl⟩

theorem total_handleInsertionClick {s : State K} (p : Vec2 K) (hs : Inv s) :
    ∃ s1 : State K, handleInsertionClick s p = some s1 := by
  unfold handleInsertionClick
  split_ifs with hd
  · obtain ⟨t, hl, -⟩ := hs.last_of_draw hd
    simp only [hl]
    split_ifs
    · exact ⟨_, rfl⟩
    · exact ⟨_, rfl⟩
  · exact ⟨_, rfl⟩

theorem total_handleSelectionMove {s : State K} (p : Vec2 K) (hs : Inv s) :
    ∃ s1 : State K, handleSelectionMove s p = some s1 := by
  unfold handleSelectionMove
  split_ifs with hd
  · exact ⟨_, rfl⟩
  · cases hsel : s.selectedTriangle with
    | none => exact ⟨_, rfl⟩
    | some i =>
      have hlt := (hs.selT i hsel).2
      simp only [List.getElem?_eq_getElem hlt]
      exact ⟨_, rfl⟩

theorem total_closestStep (lib : MathLib K) (p : Vec2 K) (i j : Nat) (T : Triangle K)
    (acc : Closest K) (hj : j < T.vertices.length) :
    ∃ a : Closest K, closestStep lib p i j T acc = some a := by
  unfold closestStep
  simp only [List.getElem?_eq_getElem hj]
  split_ifs
  · exact ⟨_, rfl⟩
  · exact ⟨_, rfl⟩

theorem total_closestLoop (lib : MathLib K) (p : Vec2 K) (ts : List (Triangle K))
    (h3 : ∀ t ∈ ts, 3 ≤ t.vertices.length) (i : Nat) (acc : Closest K) :
    ∃ r : Closest K, closestLoop lib p ts i acc = some r := by
  induction ts generalizing i acc with
  | nil => exact ⟨acc, rfl⟩
  | cons T ts ih =>
    have hT := h3 T (List.mem_cons_self _ _)
    obtain ⟨a0, h0⟩ := total_closestStep lib p i 0 T acc (by omega)
    obtain ⟨a1, h1⟩ := total_closestStep lib p i 1 T a0 (by omega)
    obtain ⟨a2, h2⟩ := total_closestStep lib p i 2 T a1 (by omega)
    obtain ⟨r, hr⟩ := ih (fun t ht => h3 t (List.mem_cons_of_mem _ ht)) (i + 1) a2
    refine ⟨r, ?_⟩
    simp only [closestLoop, closestInner, h0, h1, h2, Option.some_bind, hr]

theorem total_handleSelectClosestVertex {s : State K} (lib : MathLib K) (p : Vec2 K)
    (hs : Inv s) (hm : s.curMode = AppMode.COLOR_VERTEX) :
    ∃ s1 : State K, handleSelectClosestVertex lib s p = some s1 := by
  have h3 : ∀ t ∈ s.triangles, 3 ≤ t.vertices.length := by
    intro t ht
    obtain ⟨n, hn⟩ := List.mem_iff_getElem?.mp ht
    have := hs.three_of_complete n t hn
      (hs.all_complete (Or.inl (by rw [hm]; decide)) n t hn)
    omega
  obtain ⟨r, hr⟩ := total_closestLoop lib p s.triangles h3 0
    { minLen := -1, triagPos := -1, vertexPos := -1 }
  unfold handleSelectClosestVertex
  simp only [hr]
  split_ifs
  · exact ⟨_, rfl⟩
  · exact ⟨_, rfl⟩

theorem total_setSelectedColor {s : State K} (k : Nat) (hk : k < 10) (hs : Inv s) :
    ∃ s1 : State K, setSelectedColor s k = some s1 := by
  unfold setSelectedColor
  split_ifs with hm
  · exact ⟨_, rfl⟩
  · cases hsel : s.selectedVertex with
    | none => exact ⟨_, rfl⟩
    | some ij =>
      obtain ⟨i, j⟩ := ij
      obtain ⟨hmode, hi, hj⟩ := hs.selV i j hsel
      have hget := List.getElem?_eq_getElem hi
      have h3 := hs.three_of_complete i _ hget
        (hs.all_complete (Or.inl (by rw [hmode]; decide)) i _ hget)
      have hcol : k < (COLOURS : List (Vec3 K)).length := by
        simp only [COLOURS, List.length_cons, List.length_nil]
        omega
      have hj2 : j < (s.triangles[i]).vertices.length := by omega
      simp only [hget, List.getElem?_eq_getElem hcol, List.getElem?_eq_getElem hj2]
      exact ⟨_, rfl⟩

theorem total_onSelected {s : State K} (f : Triangle K → Option (Triangle K))
    (hf : ∀ t : Triangle K, 3 ≤ t.vertices.length → ∃ t1 : Triangle K, f t = some t1)
    (hs : Inv s) : ∃ s1 : State K, onSelected s f = some s1 := by
  unfold onSelected
  split_ifs with hm
  · exact ⟨_, rfl⟩
  · cases hsel : s.selectedTriangle with
    | none => exact ⟨_, rfl⟩
    | some i =>
      obtain ⟨hmode, hi⟩ := hs.selT i hsel
      have hget := List.getElem?_eq_getElem hi
      have h3 := hs.three_of_complete i _ hget
        (hs.all_complete (Or.inl (by rw [hmode]; decide)) i _ hget)
      obtain ⟨t1, ht1⟩ := hf (s.triangles[i]) (by omega)
      simp only [hget, ht1]
      exact ⟨_, rfl⟩

theorem total_rotate (lib : MathLib K) (a : K) (t : Triangle K)
    (h3 : 3 ≤ t.vertices.length) : ∃ t1 : Triangle K, t.rotate lib a = some t1 := by
  obtain ⟨c, hc⟩ := t.barycenter_isSome h3
  unfold Triangle.rotate
  simp only [hc]
  exact ⟨_, rfl⟩

theorem total_scale (f : K) (t : Triangle K)
    (h3 : 3 ≤ t.vertices.length) : ∃ t1 : Triangle K, t.scale f = some t1 := by
  obtain ⟨c, hc⟩ := t.barycenter_isSome h3
  unfold Triangle.scale
  split_ifs
  · exact ⟨_, rfl⟩
  · simp only [hc]
    exact ⟨_, rfl⟩

theorem total_runAnimation {s : State K} (hs : Inv s) (ha : AnimOK s) :
    ∃ s1 : State K, runAnimation s = some s1 := by
  by_cases hc : s.AnimationInProgress ≠ 3 ∨ s.AnimationTimeout ≤ 0
  · exact ⟨s, by unfold runAnimation; rw [if_pos hc]⟩
  · have hrun : s.AnimationInProgress = 3 := by
      by_contra h
      exact hc (Or.inl h)
    have hT : 0 < s.AnimationTimeout := by
      by_contra h
      exact hc (Or.inr (by omega))
    obtain ⟨i, hS⟩ := ha hrun
    obtain ⟨hmode, hi⟩ := hs.animS i hS
    have hget := List.getElem?_eq_getElem hi
    have h3 := hs.three_of_complete i _ hget
      (hs.all_complete (Or.inl (by rw [hmode]; decide)) i _ hget)
    obtain ⟨s1, -, h1, -⟩ := runAnimation_running s i _ hrun hT hS hget (by omega)
    exact ⟨s1, h1⟩

theorem total_animationDeltas (ts tf : Triangle K) (hs : 3 ≤ ts.vertices.length)
    (hf : 3 ≤ tf.vertices.length) :
    ∃ d : Vec2 K × Vec2 K × Vec2 K, animationDeltas ts tf = some d := by
  rcases hvs : ts.vertices with _ | ⟨a0, _ | ⟨a1, _ | ⟨a2, r1⟩⟩⟩
  · rw [hvs] at hs; simp at hs
  · rw [hvs] at hs; simp at hs
  · rw [hvs] at hs; simp at hs
  · rcases hvf : tf.vertices with _ | ⟨b0, _ | ⟨b1, _ | ⟨b2, r2⟩⟩⟩
    · rw [hvf] at hf; simp at hf
    · rw [hvf] at hf; simp at hf
    · rw [hvf] at hf; simp at hf
    · simp only [animationDeltas, hvs, hvf]
      exact ⟨_, rfl⟩

theorem total_handleAnimationClick {s : State K} (p : Vec2 K) (hs : Inv s) :
    ∃ s1 : State K, handleAnimationClick s p = some s1 := by
  have h3 : ∀ (n : Nat) (t : Triangle K), s.animationStartTriangle ≠ none →
      s.triangles[n]? = some t → 3 ≤ t.vertices.length := by
    intro n t hne hn
    cases hS : s.animationStartTriangle with
    | none => exact absurd hS hne
    | some i =>
      have hmode := (hs.animS i hS).1
      have := hs.three_of_complete n t hn
        (hs.all_complete (Or.inl (by rw [hmode]; decide)) n t hn)
      omega
  unfold handleAnimationClick
  split_ifs with h2 h1
  · exact ⟨_, rfl⟩
  · cases hf : findFirstInside p s.triangles 0 with
    | none => exact ⟨_, rfl⟩
    | some j =>
      simp only
      cases hS : s.animationStartTriangle with
      | none => exact ⟨_, rfl⟩
      | some i =>
        simp only
        have hi := (hs.animS i hS).2
        have hj := findFirstInside_lt p s.triangles j hf
        have hgi := List.getElem?_eq_getElem hi
        have hgj := List.getElem?_eq_getElem hj
        have hne : s.animationStartTriangle ≠ none := by rw [hS]; simp
        obtain ⟨d, hd⟩ := total_animationDeltas _ _ (h3 i _ hne hgi) (h3 j _ hne hgj)
        simp only [hgi, hgj, hd]
        exact ⟨_, rfl⟩
  · cases hf : findFirstInside p s.triangles 0 with
    | none => exact ⟨_, rfl⟩
    | some j => exact ⟨_, rfl⟩

theorem total_key_callback {s : State K} (lib : MathLib K) (key : Key) (action : Action)
    (hs : Inv s) : ∃ s1 : State K, key_callback lib s key action = some s1 := by
  unfold key_callback
  by_cases hact : action ≠ Action.RELEASE
  · rw [if_pos hact]
    exact ⟨_, rfl⟩
  · rw [if_neg hact]
    cases key with
    | F1 => exact ⟨_, rfl⟩
    | SPACE =>
      simp only
      split_ifs
      · exact ⟨_, rfl⟩
      · exact ⟨_, rfl⟩
    | I => exact ⟨_, rfl⟩
    | O => exact ⟨_, rfl⟩
    | P => exact ⟨_, rfl⟩
    | C => exact ⟨_, rfl⟩
    | H => exact total_onSelected _ (total_rotate lib 10) hs
    | J => exact total_onSelected _ (total_rotate lib (-10)) hs
    | K => exact total_onSelected _ (total_scale (125 / 100)) hs
    | L => exact total_onSelected _ (total_scale (75 / 100)) hs
    | N1 => exact total_setSelectedColor 0 (by omega) hs
    | N2 => exact total_setSelectedColor 1 (by omega) hs
    | N3 => exact total_setSelectedColor 2 (by omega) hs
    | N4 => exact total_setSelectedColor 3 (by omega) hs
    | N5 => exact total_setSelectedColor 4 (by omega) hs
    | N6 => exact total_setSelectedColor 5 (by omega) hs
    | N7 => exact total_setSelectedColor 6 (by omega) hs
    | N8 => exact total_setSelectedColor 7 (by omega) hs
    | N9 => exact total_setSelectedColor 8 (by omega) hs
    | W => exact ⟨_, rfl⟩
    | A => exact ⟨_, rfl⟩
    | S => exact ⟨_, rfl⟩
    | D => exact ⟨_, rfl⟩
    | MINUS =>
      simp only
      split_ifs
      · exact ⟨_, rfl⟩
      · exact ⟨_, rfl⟩
    | EQUAL =>
      simp only
      split_ifs
      · exact ⟨_, rfl⟩
      · exact ⟨_, rfl⟩
    | OTHER => exact ⟨_, rfl⟩

/-- Under the invariant no event makes the editor read out of range. -/
theorem total_step {s : State K} (lib : MathLib K) (e : Event K) (hs : Inv s)
    (ha : AnimOK s) : ∃ s1 : State K, step lib s e = some s1 := by
  cases e with
  | move p =>
    simp only [step, mouse_pos_callback]
    split
    · split_ifs
      · exact total_handleInsertionMove p hs
      · exact ⟨_, rfl⟩
    · split_ifs
      · exact total_handleSelectionMove p hs
      · exact ⟨_, rfl⟩
    · exact ⟨_, rfl⟩
  | button b a p =>
    simp only [step, mouse_button_callback]
    split
    · exact ⟨_, rfl⟩
    · split_ifs
      · exact total_handleInsertionClick p hs
      · exact ⟨_, rfl⟩
    · split_ifs
      · exact ⟨_, rfl⟩
      · exact ⟨_, rfl⟩
    · split_ifs
      · exact ⟨_, rfl⟩
      · exact ⟨_, rfl⟩
    · rename_i hm
      split_ifs
      · exact total_handleSelectClosestVertex lib p hs hm
      · exact ⟨_, rfl⟩
    · split_ifs
      · exact total_handleAnimationClick p hs
      · exact ⟨_, rfl⟩
  | key k a => exact total_key_callback lib k a hs
  | tick =>
    simp only [step, frameTick]
    split_ifs
    · exact total_runAnimation hs ha
    · exact ⟨_, rfl⟩

/-- From a reachable state every event is handled without a read out of range, and leads
to a reachable state. -/
theorem reachable_step_total {lib : MathLib K} {s : State K} (h : Reachable lib s)
    (e : Event K) : ∃ s1 : State K, step lib s e = some s1 ∧ Reachable lib s1 := by
  obtain ⟨s1, h1⟩ := total_step lib e (reachable_inv h) (reachable_animOK h)
  exact ⟨s1, h1, Reachable.step s s1 e h h1⟩

/-- From a reachable state every sequence of events is handled without a read out of
range. -/
theorem reachable_run_total {lib : MathLib K} (es : List (Event K)) {s : State K}
    (h : Reachable lib s) : ∃ s1 : State K, run lib s es = some s1 ∧ Reachable lib s1 := by
  induction es generalizing s with
  | nil => exact ⟨s, rfl, h⟩
  | cons e es ih =>
    obtain ⟨s1, h1, hr1⟩ := reachable_step_total h e
    obtain ⟨s2, h2, hr2⟩ := ih hr1
    exact ⟨s2, by simp only [run, h1, Option.some_bind, h2], hr2⟩

/-! ## References -/

/-- A state is reachable exactly when some sequence of events leads to it from the initial
state. -/
theorem reachable_iff_run {lib : MathLib K} (s : State K) :
    Reachable lib s ↔ ∃ es : List (Event K), run lib State.init es = some s := by
  constructor
  · intro h
    induction h with
    | init => exact ⟨[], rfl⟩
    | step s s1 e _ hstep ih =>
      obtain ⟨es, hes⟩ := ih
      refine ⟨es ++ [e], ?_⟩
      have happ : ∀ (l : List (Event K)) (a b : State K), run lib a l = some b →
          run lib a (l ++ [e]) = step lib b e := by
        intro l
        induction l with
        | nil =>
          intro a b hab
          simp only [run, Option.some.injEq] at hab
          subst hab
          cases hs : step lib a e <;> simp [run, hs]
        | cons x l ihl =>
          intro a b hab
          simp only [run, List.cons_append] at hab ⊢
          cases hx : step lib a x with
          | none => simp [hx] at hab
          | some c =>
            simp only [hx, Option.some_bind] at hab ⊢
            exact ihl c b hab
      rw [happ es _ s hes, hstep]
  · rintro ⟨es, hes⟩
    exact reachable_run es Reachable.init hes

/-- Claim C9. Every sequence of pointer, key and tick events is handled from the initial
state, and in the state it leads to `selectedTriangle` is set only in transformation mode,
`selectedVertex` only in colour mode, the two animation references only in animation mode,
and each reference that is set designates a triangle (for `selectedVertex`, a vertex of a
triangle) of the current scene.  Hence in remove mode every reference is null before and
after `handleRemoveClick`. -/
theorem C9_no_stale_reference (lib : MathLib K) (es : List (Event K)) :
    ∃ s : State K, run lib State.init es = some s ∧
    (∀ i : Nat, s.selectedTriangle = some i →
      s.curMode = AppMode.TRANSFORMATION ∧ i < s.triangles.length) ∧
    (∀ i j : Nat, s.selectedVertex = some (i, j) →
      s.curMode = AppMode.COLOR_VERTEX ∧
      ∃ t : Triangle K, s.triangles[i]? = some t ∧ j < t.vertices.length) ∧
    (∀ i : Nat, s.animationStartTriangle = some i →
      s.curMode = AppMode.ANIMATION ∧ i < s.triangles.length) ∧
    (∀ i : Nat, s.animationFinalTriangle = some i →
      s.curMode = AppMode.ANIMATION ∧ i < s.triangles.length) ∧
    (s.curMode = AppMode.REMOVE →
      s.selectedTriangle = none ∧ s.selectedVertex = none ∧
      s.animationStartTriangle = none ∧ s.animationFinalTriangle = none ∧
      ∀ p : Vec2 K,
        (handleRemoveClick s p).selectedTriangle = none ∧
        (handleRemoveClick s p).selectedVertex = none ∧
        (handleRemoveClick s p).animationStartTriangle = none ∧
        (handleRemoveClick s p).animationFinalTriangle = none) := by
  obtain ⟨s, hrun, hr⟩ := reachable_run_total es (Reachable.init : Reachable lib State.init)
  have hs := reachable_inv hr
  refine ⟨s, hrun, hs.selT, ?_, hs.animS, hs.animF, ?_⟩
  · intro i j hij
    obtain ⟨hm, hi, hj⟩ := hs.selV i j hij
    refine ⟨hm, s.triangles[i], List.getElem?_eq_getElem hi, ?_⟩
    have h3 := hs.three_of_complete i _ (List.getElem?_eq_getElem hi)
      (hs.all_complete (Or.inl (by rw [hm]; decide)) i _ (List.getElem?_eq_getElem hi))
    omega
  · intro hm
    obtain ⟨q1, q2, q3, q4⟩ := hs.refs_none
    refine ⟨q1 (by rw [hm]; decide), q2 (by rw [hm]; decide), q3 (by rw [hm]; decide),
      q4 (by rw [hm]; decide), ?_⟩
    intro p
    obtain ⟨r1, r2, r3, r4⟩ := (inv_handleRemoveClick p hs hm).refs_none
    have hm1 : (handleRemoveClick s p).curMode = AppMode.REMOVE := by
      unfold handleRemoveClick
      split <;> exact hm
    exact ⟨r1 (by rw [hm1]; decide), r2 (by rw [hm1]; decide), r3 (by rw [hm1]; decide),
      r4 (by rw [hm1]; decide)⟩

/-- A triangle is drawn and selected in transformation mode: the reference is set and in
range.  After the key `P` the mode is remove and the reference is null, and it is still
null after the remove click that deletes the triangle. -/
theorem C9_witness :
    (∃ s : State ℚ, run libQ State.init (drawEvents ++ [Event.key Key.O Action.RELEASE,
        Event.button Button.LEFT Action.PRESS ⟨1, 1⟩]) = some s ∧
      s.curMode = AppMode.TRANSFORMATION ∧ s.selectedTriangle = some 0 ∧
      0 < s.triangles.length) ∧
    (∃ s : State ℚ, run libQ State.init (drawEvents ++ [Event.key Key.O Action.RELEASE,
        Event.button Button.LEFT Action.PRESS ⟨1, 1⟩, Event.key Key.P Action.RELEASE])
        = some s ∧
      s.curMode = AppMode.REMOVE ∧ s.triangles.length = 1 ∧ s.selectedTriangle = none ∧
      (handleRemoveClick s ⟨1, 1⟩).triangles = [] ∧
      (handleRemoveClick s ⟨1, 1⟩).selectedTriangle = none) := by
  have hin : (triQ ⟨0, 0⟩ ⟨4, 0⟩ ⟨0, 4⟩).isInside ⟨1, 1⟩ = true :=
    isInside_of_hasWeights _ ⟨⟨0, 0⟩, white⟩ ⟨⟨4, 0⟩, white⟩ ⟨⟨0, 4⟩, white⟩ [] rfl rfl
      (by norm_num [det]) (by norm_num) ⟨1, 1⟩ (1 / 4) (1 / 4) (by norm_num) (by norm_num)
      (by norm_num) (by constructor <;> norm_num)
  constructor
  · obtain ⟨s, hrun, h1, -⟩ := C9_no_stale_reference libQ (drawEvents ++
      [Event.key Key.O Action.RELEASE, Event.button Button.LEFT Action.PRESS ⟨1, 1⟩])
    have hrun2 : run libQ State.init (drawEvents ++ [Event.key Key.O Action.RELEASE,
        Event.button Button.LEFT Action.PRESS ⟨1, 1⟩]) =
        some (handleTranslationClick (sceneQ AppMode.TRANSFORMATION
          [triQ ⟨0, 0⟩ ⟨4, 0⟩ ⟨0, 4⟩]) ⟨1, 1⟩) := rfl
    have hs : s = handleTranslationClick (sceneQ AppMode.TRANSFORMATION
        [triQ ⟨0, 0⟩ ⟨4, 0⟩ ⟨0, 4⟩]) ⟨1, 1⟩ := by
      rw [hrun2] at hrun
      exact (Option.some.inj hrun).symm
    have hsel : s.selectedTriangle = some 0 := by
      rw [hs]
      show pickLast _ [triQ ⟨0, 0⟩ ⟨4, 0⟩ ⟨0, 4⟩] 0 none = some 0
      simp only [pickLast, hin, if_true]
    exact ⟨s, hrun, (h1 0 hsel).1, hsel, (h1 0 hsel).2⟩
  · obtain ⟨s, hrun, -, -, -, -, h5⟩ := C9_no_stale_reference libQ (drawEvents ++
      [Event.key Key.O Action.RELEASE, Event.button Button.LEFT Action.PRESS ⟨1, 1⟩,
        Event.key Key.P Action.RELEASE])
    have hrun2 : run libQ State.init (drawEvents ++ [Event.key Key.O Action.RELEASE,
        Event.button Button.LEFT Action.PRESS ⟨1, 1⟩, Event.key Key.P Action.RELEASE]) =
        some (sceneQ AppMode.REMOVE [triQ ⟨0, 0⟩ ⟨4, 0⟩ ⟨0, 4⟩]) := rfl
    have hs : s = sceneQ AppMode.REMOVE [triQ ⟨0, 0⟩ ⟨4, 0⟩ ⟨0, 4⟩] := by
      rw [hrun2] at hrun
      exact (Option.some.inj hrun).symm
    have hm : s.curMode = AppMode.REMOVE := by rw [hs]; rfl
    obtain ⟨q1, -, -, -, q5⟩ := h5 hm
    refine ⟨s, hrun, hm, by rw [hs]; rfl, q1, ?_, (q5 ⟨1, 1⟩).1⟩
    rw [hs]
    have hf : findFirstInside ⟨1, 1⟩
        (sceneQ AppMode.REMOVE [triQ ⟨0, 0⟩ ⟨4, 0⟩ ⟨0, 4⟩]).triangles 0 = some 0 := by
      show findFirstInside ⟨1, 1⟩ [triQ ⟨0, 0⟩ ⟨4, 0⟩ ⟨0, 4⟩] 0 = some 0
      simp only [findFirstInside, hin, if_true]
    simp only [handleRemoveClick, hf]
    rfl

/-! ## The class invariant of `Triangle` -/

/-- The effect of a sequence of `addVertex` calls on a triangle with at most three vertices
whose flag says whether it has three: the calls fill the vertices up to three, in order. -/
theorem Triangle.addVertices_spec (l : List (Vec2 K × Vec3 K)) :
    ∀ T : Triangle K, T.vertices.length ≤ 3 →
      (T.complete = true ↔ T.vertices.length = 3) →
      (T.addVertices l).vertices =
        T.vertices ++ (l.take (3 - T.vertices.length)).map (fun vc => Vertex.mk vc.1 vc.2) ∧
      ((T.addVertices l).complete = true ↔ (T.addVertices l).vertices.length = 3) ∧
      (T.addVertices l).fillColor = T.fillColor ∧
      (T.addVertices l).outlineColor = T.outlineColor := by
  induction l with
  | nil =>
    intro T _ hc
    simp [Triangle.addVertices, hc]
  | cons vc rest ih =>
    intro T hlen hc
    by_cases hcomp : T.complete = true
    · have h3 : T.vertices.length = 3 := hc.mp hcomp
      have hadd : T.addVertex vc.1 vc.2 = T := by simp [Triangle.addVertex, hcomp]
      have := ih T hlen hc
      simp only [Triangle.addVertices, hadd]
      rw [h3] at this ⊢
      simpa using this
    · have hlt : T.vertices.length < 3 := by
        rcases Nat.lt_or_ge T.vertices.length 3 with h | h
        · exact h
        · exact absurd (hc.mpr (by omega)) hcomp
      have hf : T.complete = false := by simpa using hcomp
      have hv : (T.addVertex vc.1 vc.2).vertices = T.vertices ++ [Vertex.mk vc.1 vc.2] := by
        simp [Triangle.addVertex, hf]
      have hcm : (T.addVertex vc.1 vc.2).complete = true ↔
          (T.addVertex vc.1 vc.2).vertices.length = 3 := by
        simp [Triangle.addVertex, hf]
      have hfo : (T.addVertex vc.1 vc.2).fillColor = T.fillColor ∧
          (T.addVertex vc.1 vc.2).outlineColor = T.outlineColor := by
        simp [Triangle.addVertex, hf]
      have hl2 : (T.addVertex vc.1 vc.2).vertices.length ≤ 3 := by
        rw [hv]
        simp only [List.length_append, List.length_singleton]
        omega
      obtain ⟨q1, q2, q3, q4⟩ := ih (T.addVertex vc.1 vc.2) hl2 hcm
      have hcons : T.addVertices (vc :: rest) = (T.addVertex vc.1 vc.2).addVertices rest := rfl
      rw [hcons]
      refine ⟨?_, q2, by rw [q3, hfo.1], by rw [q4, hfo.2]⟩
      rw [q1, hv]
      have e1 : 3 - (T.vertices ++ [Vertex.mk vc.1 vc.2]).length + 1 = 3 - T.vertices.length := by
        simp only [List.length_append, List.length_singleton]
        omega
      rw [← e1]
      simp

/-- Claim C18. For every sequence of `addVertex` calls on a freshly constructed triangle:
the stored vertices are the first (up to) three appended points with their colours, in
call order; there are never more than three; `complete` holds exactly when there are
three; `addVertex` on a complete triangle changes nothing; the two colours of the
constructor stay. -/
theorem C18_completion_invariant (f o : Vec3 K) (l : List (Vec2 K × Vec3 K)) :
    ((Triangle.mk0 f o).addVertices l).vertices =
      (l.take 3).map (fun vc => Vertex.mk vc.1 vc.2) ∧
    ((Triangle.mk0 f o).addVertices l).vertices.length ≤ 3 ∧
    (((Triangle.mk0 f o).addVertices l).isComplete = true ↔
      ((Triangle.mk0 f o).addVertices l).size = 3) ∧
    (((Triangle.mk0 f o).addVertices l).isComplete = true ↔ 3 ≤ l.length) ∧
    (((Triangle.mk0 f o).addVertices l).isComplete = true → ∀ (v : Vec2 K) (c : Vec3 K),
      ((Triangle.mk0 f o).addVertices l).addVertex v c = (Triangle.mk0 f o).addVertices l) ∧
    ((Triangle.mk0 f o).addVertices l).fillColor = f ∧
    ((Triangle.mk0 f o).addVertices l).outlineColor = o := by
  obtain ⟨q1, q2, q3, q4⟩ := Triangle.addVertices_spec l (Triangle.mk0 f o)
    (by simp [Triangle.mk0]) (by simp [Triangle.mk0])
  have hv : ((Triangle.mk0 f o).addVertices l).vertices =
      (l.take 3).map (fun vc => Vertex.mk vc.1 vc.2) := by
    rw [q1]
    simp [Triangle.mk0]
  have hlen : ((Triangle.mk0 f o).addVertices l).vertices.length = min 3 l.length := by
    rw [hv]
    simp
  refine ⟨hv, by rw [hlen]; omega, q2, ?_, ?_, q3, q4⟩
  · rw [Triangle.isComplete, q2, hlen]
    omega
  · intro hc v c
    simp only [Triangle.isComplete] at hc
    simp [Triangle.addVertex, hc]

/-! ## Rotation and scaling about the centroid -/

theorem Triangle.barycenter_three (T : Triangle K) (v0 v1 v2 : Vertex K)
    (hv : T.vertices = [v0, v1, v2]) :
    T.barycenter = some (centroid3 v0.vertex v1.vertex v2.vertex) := by
  simp only [Triangle.barycenter, hv, centroid3]

/-- What `rotate` does when the centroid exists: every vertex is rotated about it, colours
and the other members stay. -/
theorem Triangle.rotate_eq (lib : MathLib K) (T : Triangle K) (a : K) (Pc : Vec2 K)
    (hb : T.barycenter = some Pc) :
    T.rotate lib a = some { T with vertices := T.vertices.map (fun v =>
      Vertex.mk (rotAbout Pc (lib.cosDeg a) (lib.sinDeg a) v.vertex) v.color) } := by
  simp only [Triangle.rotate, hb, rotAbout]

/-- What `scale` does for a positive factor when the centroid exists. -/
theorem Triangle.scale_eq (T : Triangle K) (f : K) (hf : 0 < f) (Pc : Vec2 K)
    (hb : T.barycenter = some Pc) :
    T.scale f = some { T with vertices := T.vertices.map (fun v =>
      Vertex.mk (scaleAbout Pc f v.vertex) v.color) } := by
  have hn : ¬ f ≤ 0 := not_le.mpr hf
  simp only [Triangle.scale, hn, if_false, hb, scaleAbout, Vec2.sub, Vec2.smul, Vec2.add]
  congr 3
  funext v
  congr 2 <;> ring

theorem centroid3_rotAbout (c s : K) (p0 p1 p2 : Vec2 K) :
    centroid3 (rotAbout (centroid3 p0 p1 p2) c s p0) (rotAbout (centroid3 p0 p1 p2) c s p1)
      (rotAbout (centroid3 p0 p1 p2) c s p2) = centroid3 p0 p1 p2 := by
  simp only [centroid3, rotAbout, Vec2.mk.injEq]
  constructor <;> ring

theorem centroid3_scaleAbout (f : K) (p0 p1 p2 : Vec2 K) :
    centroid3 (scaleAbout (centroid3 p0 p1 p2) f p0) (scaleAbout (centroid3 p0 p1 p2) f p1)
      (scaleAbout (centroid3 p0 p1 p2) f p2) = centroid3 p0 p1 p2 := by
  simp only [centroid3, scaleAbout, Vec2.mk.injEq]
  constructor <;> ring

theorem rotAbout_inv (Pc P : Vec2 K) (c s : K) (h1 : c ^ 2 + s ^ 2 = 1) :
    rotAbout Pc c (-s) (rotAbout Pc c s P) = P := by
  cases P with
  | mk x y =>
    simp only [rotAbout, Vec2.mk.injEq]
    constructor
    · linear_combination (x - Pc.x) * h1
    · linear_combination (y - Pc.y) * h1

theorem scaleAbout_inv (Pc P : Vec2 K) (f : K) (hf : f ≠ 0) :
    scaleAbout Pc (1 / f) (scaleAbout Pc f P) = P := by
  cases P with
  | mk x y =>
    simp only [scaleAbout, Vec2.mk.injEq]
    constructor <;> field_simp

/-- Claim C19. For `factor ≤ 0`, `scale` returns the triangle unchanged, whatever the
triangle; for `factor > 0` every vertex `P` becomes `Pc + factor (P - Pc)`, where `Pc` is
the centroid before the call, and colours, fill, outline and `complete` stay. -/
theorem C19_scale_guard (T : Triangle K) (f : K) :
    (f ≤ 0 → T.scale f = some T) ∧
    (0 < f → ∀ Pc : Vec2 K, T.barycenter = some Pc →
      T.scale f = some { T with vertices := T.vertices.map (fun v =>
        Vertex.mk ⟨Pc.x + f * (v.vertex.x - Pc.x), Pc.y + f * (v.vertex.y - Pc.y)⟩
          v.color) }) := by
  constructor
  · intro h
    simp only [Triangle.scale, h, if_true]
  · intro h Pc hb
    exact Triangle.scale_eq T f h Pc hb

/-- Claim C16. On a triangle with three vertices, `rotate` by any angle and `scale` by any
factor return a triangle whose `barycenter` is the `barycenter` of the original. -/
theorem C16_centroid_fixed (lib : MathLib K) (T : Triangle K) (v0 v1 v2 : Vertex K)
    (hv : T.vertices = [v0, v1, v2]) (a f : K) :
    (∃ T1 : Triangle K, T.rotate lib a = some T1 ∧ T1.barycenter = T.barycenter) ∧
    (∃ T2 : Triangle K, T.scale f = some T2 ∧ T2.barycenter = T.barycenter) := by
  have hb := T.barycenter_three v0 v1 v2 hv
  constructor
  · refine ⟨_, T.rotate_eq lib a _ hb, ?_⟩
    rw [hb]
    simp only [hv, List.map_cons, List.map_nil]
    rw [Triangle.barycenter_three _ _ _ _ rfl]
    simp only [centroid3_rotAbout]
  · by_cases hf : f ≤ 0
    · exact ⟨T, by simp only [Triangle.scale, hf, if_true], rfl⟩
    · refine ⟨_, T.scale_eq f (not_le.mp hf) _ hb, ?_⟩
      rw [hb]
      simp only [hv, List.map_cons, List.map_nil]
      rw [Triangle.barycenter_three _ _ _ _ rfl]
      simp only [centroid3_scaleAbout]

/-- The triangle `(0,0)`, `(3,0)`, `(0,3)` has centroid `(1,1)`; so have its images under
the rotation with cosine `4/5`, sine `3/5` and under the scaling by `2`. -/
theorem C16_witness :
    (triQ ⟨0, 0⟩ ⟨3, 0⟩ ⟨0, 3⟩).barycenter = some ⟨1, 1⟩ ∧
    (∃ T1 : Triangle ℚ, (triQ ⟨0, 0⟩ ⟨3, 0⟩ ⟨0, 3⟩).rotate libQ 10 = some T1 ∧
      T1.barycenter = some ⟨1, 1⟩) ∧
    (∃ T2 : Triangle ℚ, (triQ ⟨0, 0⟩ ⟨3, 0⟩ ⟨0, 3⟩).scale 2 = some T2 ∧
      T2.barycenter = some ⟨1, 1⟩) := by
  have hb : (triQ ⟨0, 0⟩ ⟨3, 0⟩ ⟨0, 3⟩).barycenter = some ⟨1, 1⟩ := by
    simp [triQ, Triangle.barycenter]
  have h := C16_centroid_fixed libQ (triQ ⟨0, 0⟩ ⟨3, 0⟩ ⟨0, 3⟩)
    ⟨⟨0, 0⟩, white⟩ ⟨⟨3, 0⟩, white⟩ ⟨⟨0, 3⟩, white⟩ rfl 10 2
  rw [hb] at h
  exact ⟨hb, h⟩

/-- Claim C15. On a triangle with three vertices and for `f > 0`, `scale(f)` followed by
`scale(1/f)` returns the original triangle: every vertex position is restored (and nothing
else has changed). -/
theorem C15_scale_round_trip (T : Triangle K) (v0 v1 v2 : Vertex K)
    (hv : T.vertices = [v0, v1, v2]) (f : K) (hf : 0 < f) :
    ∃ T1 : Triangle K, T.scale f = some T1 ∧ T1.scale (1 / f) = some T := by
  have hb := T.barycenter_three v0 v1 v2 hv
  refine ⟨_, T.scale_eq f hf _ hb, ?_⟩
  have hb1 : ({ T with vertices := T.vertices.map (fun v =>
      Vertex.mk (scaleAbout (centroid3 v0.vertex v1.vertex v2.vertex) f v.vertex) v.color) } :
        Triangle K).barycenter = some (centroid3 v0.vertex v1.vertex v2.vertex) := by
    simp only [hv, List.map_cons, List.map_nil]
    rw [Triangle.barycenter_three _ _ _ _ rfl]
    simp only [centroid3_scaleAbout]
  rw [Triangle.scale_eq _ (1 / f) (one_div_pos.mpr hf) _ hb1]
  cases T with
  | mk vs cpl fc oc =>
    simp only at hv
    subst hv
    simp only [List.map_cons, List.map_nil, scaleAbout_inv _ _ f (ne_of_gt hf)]

/-- The triangle `(0,0)`, `(3,0)`, `(0,3)` scaled by `2` and then by `1/2` is itself. -/
theorem C15_witness :
    ∃ T1 : Triangle ℚ, (triQ ⟨0, 0⟩ ⟨3, 0⟩ ⟨0, 3⟩).scale 2 = some T1 ∧
      T1.positions = [⟨-1, -1⟩, ⟨5, -1⟩, ⟨-1, 5⟩] ∧
      T1.scale (1 / 2) = some (triQ ⟨0, 0⟩ ⟨3, 0⟩ ⟨0, 3⟩) := by
  obtain ⟨T1, h1, h2⟩ := C15_scale_round_trip (triQ ⟨0, 0⟩ ⟨3, 0⟩ ⟨0, 3⟩)
    ⟨⟨0, 0⟩, white⟩ ⟨⟨3, 0⟩, white⟩ ⟨⟨0, 3⟩, white⟩ rfl 2 (by norm_num)
  refine ⟨T1, h1, ?_, h2⟩
  have hb : (triQ ⟨0, 0⟩ ⟨3, 0⟩ ⟨0, 3⟩).barycenter = some ⟨1, 1⟩ := by
    simp [triQ, Triangle.barycenter]
  rw [Triangle.scale_eq _ 2 (by norm_num) _ hb] at h1
  rw [← Option.some.inj h1]
  norm_num [Triangle.positions, triQ, scaleAbout]

/-- Claim C14. On a triangle with three vertices, `rotate(a)` followed by `rotate(-a)`
returns the original triangle, provided the cosine and sine used satisfy
`cos(-a) = cos a`, `sin(-a) = -sin a` and `cos² a + sin² a = 1`. -/
theorem C14_rotate_round_trip (lib : MathLib K) (T : Triangle K) (v0 v1 v2 : Vertex K)
    (hv : T.vertices = [v0, v1, v2]) (a : K)
    (hcos : lib.cosDeg (-a) = lib.cosDeg a) (hsin : lib.sinDeg (-a) = -lib.sinDeg a)
    (h1 : lib.cosDeg a ^ 2 + lib.sinDeg a ^ 2 = 1) :
    ∃ T1 : Triangle K, T.rotate lib a = some T1 ∧ T1.rotate lib (-a) = some T := by
  have hb := T.barycenter_three v0 v1 v2 hv
  refine ⟨_, T.rotate_eq lib a _ hb, ?_⟩
  have hb1 : ({ T with vertices := T.vertices.map (fun v =>
      Vertex.mk (rotAbout (centroid3 v0.vertex v1.vertex v2.vertex) (lib.cosDeg a)
        (lib.sinDeg a) v.vertex) v.color) } : Triangle K).barycenter =
      some (centroid3 v0.vertex v1.vertex v2.vertex) := by
    simp only [hv, List.map_cons, List.map_nil]
    rw [Triangle.barycenter_three _ _ _ _ rfl]
    simp only [centroid3_rotAbout]
  rw [Triangle.rotate_eq lib _ (-a) _ hb1, hcos, hsin]
  cases T with
  | mk vs cpl fc oc =>
    simp only at hv
    subst hv
    simp only [List.map_cons, List.map_nil, rotAbout_inv _ _ _ _ h1]

/-- With cosine `4/5` and sine `3/5` for the angle `10` (and `4/5`, `-3/5` for `-10`) the
triangle `(0,0)`, `(3,0)`, `(0,3)` rotated forth and back is itself. -/
theorem C14_witness :
    ∃ T1 : Triangle ℚ, (triQ ⟨0, 0⟩ ⟨3, 0⟩ ⟨0, 3⟩).rotate libQ 10 = some T1 ∧
      T1.positions = [⟨4 / 5, -(2 / 5)⟩, ⟨16 / 5, 7 / 5⟩, ⟨-1, 2⟩] ∧
      T1.rotate libQ (-10) = some (triQ ⟨0, 0⟩ ⟨3, 0⟩ ⟨0, 3⟩) := by
  obtain ⟨T1, h1, h2⟩ := C14_rotate_round_trip libQ (triQ ⟨0, 0⟩ ⟨3, 0⟩ ⟨0, 3⟩)
    ⟨⟨0, 0⟩, white⟩ ⟨⟨3, 0⟩, white⟩ ⟨⟨0, 3⟩, white⟩ rfl 10
    (by norm_num [libQ]) (by norm_num [libQ]) (by norm_num [libQ])
  refine ⟨T1, h1, ?_, h2⟩
  have hb : (triQ ⟨0, 0⟩ ⟨3, 0⟩ ⟨0, 3⟩).barycenter = some ⟨1, 1⟩ := by
    simp [triQ, Triangle.barycenter]
  rw [Triangle.rotate_eq libQ _ 10 _ hb] at h1
  rw [← Option.some.inj h1]
  norm_num [Triangle.positions, triQ, rotAbout, libQ]

/-! ## Picking the target of an animation -/

theorem run_append (lib : MathLib K) (es fs : List (Event K)) :
    ∀ s : State K, run lib s (es ++ fs) = (run lib s es).bind fun s1 => run lib s1 fs := by
  induction es with
  | nil => intro s; rfl
  | cons e es ih =>
    intro s
    show (step lib s e).bind (fun s1 => run lib s1 (es ++ fs)) = _
    cases h : step lib s e with
    | none => simp [run, h]
    | some s1 => simp [run, h, ih s1]

theorem run_single (lib : MathLib K) (s : State K) (e : Event K) :
    run lib s [e] = step lib s e := by
  show (step lib s e).bind (fun s1 => some s1) = _
  cases step lib s e <;> rfl

/-- A triangle that contains a point has its three corners. -/
theorem isInside_three (T : Triangle K) (P : Vec2 K) (h : T.isInside P = true) :
    T.complete = true ∧
      ∃ (a b c : Vertex K) (rest : List (Vertex K)), T.vertices = a :: b :: c :: rest := by
  constructor
  · by_contra hc
    rw [isInside_of_not_complete T P (by simpa using hc)] at h
    cases h
  · rcases hv : T.vertices with _ | ⟨a, _ | ⟨b, _ | ⟨c, rest⟩⟩⟩
    · simp [Triangle.isInside, Triangle.isInsideZ, hv] at h
    · simp [Triangle.isInside, Triangle.isInsideZ, hv] at h
    · simp [Triangle.isInside, Triangle.isInsideZ, hv] at h
    · exact ⟨a, b, c, rest, rfl⟩

theorem animationDeltas_self (T : Triangle K) (a b c : Vertex K) (rest : List (Vertex K))
    (hv : T.vertices = a :: b :: c :: rest) :
    animationDeltas T T = some (⟨0, 0⟩, ⟨0, 0⟩, ⟨0, 0⟩) := by
  simp only [animationDeltas, hv, Vec2.sub, Vec2.sdiv, sub_self, zero_div]

/-- In the target-picking phase a click whose containing
shape found by `handleAnimationClick` is the source triangle itself arms the animation:
`AnimationInProgress` becomes `2`, the target is the source, the three per-vertex deltas
are zero and the counter is `500`. -/
theorem handleAnimationClick_source (s : State K) (P : Vec2 K) (i : Nat)
    (h1 : s.AnimationInProgress = 1) (hS : s.animationStartTriangle = some i)
    (hfind : findFirstInside P s.triangles 0 = some i) :
    ∃ ts : Triangle K, s.triangles[i]? = some ts ∧
      handleAnimationClick s P = some { s with
        animationFinalTriangle := some i
        restoreTriangle := ts
        AnimationDeltas := (⟨0, 0⟩, ⟨0, 0⟩, ⟨0, 0⟩)
        AnimationInProgress := 2
        AnimationTimeout := 500 } := by
  obtain ⟨k, ts, hk, hts, hin, -⟩ := (findFirstInside_eq_some P s.triangles 0 i).mp hfind
  have hki : k = i := by omega
  subst hki
  obtain ⟨-, a, b, c, rest, hv⟩ := isInside_three ts P hin
  refine ⟨ts, hts, ?_⟩
  have hn : ¬ s.AnimationInProgress ≥ 2 := by omega
  unfold handleAnimationClick
  rw [if_neg hn, if_pos h1]
  simp only [hfind, hS, hts, animationDeltas_self ts a b c rest hv, (@totalSteps_eq K _).2]

/-- Claim C13, as the code has it. In the target-picking phase a click whose containing
shape found by `handleAnimationClick` is the source triangle itself arms the animation:
`AnimationInProgress` becomes `2`, the target is the source, the three per-vertex deltas
are zero and the counter is `500`. -/
theorem C13_source_as_target_arms (s : State K) (P : Vec2 K) (i : Nat)
    (h1 : s.AnimationInProgress = 1) (hS : s.animationStartTriangle = some i)
    (hfind : findFirstInside P s.triangles 0 = some i) :
    ∃ ts : Triangle K, s.triangles[i]? = some ts ∧
      handleAnimationClick s P = some { s with
        animationFinalTriangle := some i
        restoreTriangle := ts
        AnimationDeltas := (⟨0, 0⟩, ⟨0, 0⟩, ⟨0, 0⟩)
        AnimationInProgress := 2
        AnimationTimeout := 500 } :=
  handleAnimationClick_source s P i h1 hS hfind

/-- The state `pickedQ` has the source `0`; a click at `(1/4, 1/4)`, inside the source,
arms the animation with the source as its own target. -/
theorem C13_witness :
    pickedQ.AnimationInProgress = 1 ∧ pickedQ.animationStartTriangle = some 0 ∧
    findFirstInside ⟨1 / 4, 1 / 4⟩ pickedQ.triangles 0 = some 0 ∧
    ∃ s1 : State ℚ, handleAnimationClick pickedQ ⟨1 / 4, 1 / 4⟩ = some s1 ∧
      s1.AnimationInProgress = 2 ∧ s1.animationFinalTriangle = some 0 ∧
      s1.AnimationDeltas = (⟨0, 0⟩, ⟨0, 0⟩, ⟨0, 0⟩) := by
  have hin : (triQ ⟨0, 0⟩ ⟨1, 0⟩ ⟨0, 1⟩).isInside ⟨1 / 4, 1 / 4⟩ = true :=
    isInside_of_hasWeights _ ⟨⟨0, 0⟩, white⟩ ⟨⟨1, 0⟩, white⟩ ⟨⟨0, 1⟩, white⟩ [] rfl rfl
      (by norm_num [det]) (by norm_num) ⟨1 / 4, 1 / 4⟩ (1 / 4) (1 / 4) (by norm_num)
      (by norm_num) (by norm_num) (by constructor <;> norm_num)
  have hf : findFirstInside ⟨1 / 4, 1 / 4⟩ pickedQ.triangles 0 = some 0 := by
    show findFirstInside ⟨1 / 4, 1 / 4⟩
      [triQ ⟨0, 0⟩ ⟨1, 0⟩ ⟨0, 1⟩, triQ ⟨2, 0⟩ ⟨3, 0⟩ ⟨2, 1⟩] 0 = some 0
    simp only [findFirstInside, hin, if_true]
  obtain ⟨ts, -, h⟩ := C13_source_as_target_arms pickedQ ⟨1 / 4, 1 / 4⟩ 0 rfl rfl hf
  exact ⟨rfl, rfl, hf, _, h, rfl, rfl, rfl⟩

/-- Claim C13, as stated, fails. From the initial state a triangle is drawn, the key `F1`
enters animation mode, and two clicks at `(1,1)`, inside the triangle, pick it as the source
and then find it again as the target: the second click enters the armed state. -/
theorem C13_counterexample :
    ∃ s s1 : State ℚ,
      run libQ State.init (drawEvents ++ [Event.key Key.F1 Action.RELEASE,
        Event.button Button.LEFT Action.PRESS ⟨1, 1⟩]) = some s ∧
      s.AnimationInProgress = 1 ∧ s.animationStartTriangle = some 0 ∧
      findFirstInside ⟨1, 1⟩ s.triangles 0 = s.animationStartTriangle ∧
      step libQ s (Event.button Button.LEFT Action.PRESS ⟨1, 1⟩) = some s1 ∧
      s1.AnimationInProgress = 2 ∧ s1.animationStartTriangle = some 0 ∧
      s1.animationFinalTriangle = some 0 := by
  have hin : (triQ ⟨0, 0⟩ ⟨4, 0⟩ ⟨0, 4⟩).isInside ⟨1, 1⟩ = true :=
    isInside_of_hasWeights _ ⟨⟨0, 0⟩, white⟩ ⟨⟨4, 0⟩, white⟩ ⟨⟨0, 4⟩, white⟩ [] rfl rfl
      (by norm_num [det]) (by norm_num) ⟨1, 1⟩ (1 / 4) (1 / 4) (by norm_num) (by norm_num)
      (by norm_num) (by constructor <;> norm_num)
  have hf : findFirstInside (⟨1, 1⟩ : Vec2 ℚ) [triQ ⟨0, 0⟩ ⟨4, 0⟩ ⟨0, 4⟩] 0 = some 0 := by
    simp only [findFirstInside, hin, if_true]
  have hrun0 : run libQ State.init (drawEvents ++ [Event.key Key.F1 Action.RELEASE]) =
      some (sceneQ AppMode.ANIMATION [triQ ⟨0, 0⟩ ⟨4, 0⟩ ⟨0, 4⟩]) := rfl
  have hrun : run libQ State.init (drawEvents ++ [Event.key Key.F1 Action.RELEASE,
      Event.button Button.LEFT Action.PRESS ⟨1, 1⟩]) =
      handleAnimationClick (sceneQ AppMode.ANIMATION [triQ ⟨0, 0⟩ ⟨4, 0⟩ ⟨0, 4⟩]) ⟨1, 1⟩ := by
    have e : drawEvents ++ [Event.key Key.F1 Action.RELEASE,
        Event.button Button.LEFT Action.PRESS ⟨1, 1⟩] =
        (drawEvents ++ [Event.key Key.F1 Action.RELEASE]) ++
          [Event.button Button.LEFT Action.PRESS ⟨1, 1⟩] := rfl
    rw [e, run_append, hrun0]
    exact run_single _ _ _
  have hclick : handleAnimationClick (sceneQ AppMode.ANIMATION [triQ ⟨0, 0⟩ ⟨4, 0⟩ ⟨0, 4⟩])
      ⟨1, 1⟩ = some { sceneQ AppMode.ANIMATION [triQ ⟨0, 0⟩ ⟨4, 0⟩ ⟨0, 4⟩] with
        animationStartTriangle := some 0, AnimationInProgress := 1 } := by
    have h0 : (sceneQ AppMode.ANIMATION [triQ ⟨0, 0⟩ ⟨4, 0⟩ ⟨0, 4⟩]).AnimationInProgress = 0 :=
      rfl
    have ht : (sceneQ AppMode.ANIMATION [triQ ⟨0, 0⟩ ⟨4, 0⟩ ⟨0, 4⟩]).triangles =
      [triQ ⟨0, 0⟩ ⟨4, 0⟩ ⟨0, 4⟩] := rfl
    simp only [handleAnimationClick, h0, ht, hf]
    rfl
  obtain ⟨ts, hts, h2⟩ := handleAnimationClick_source
    ({ sceneQ AppMode.ANIMATION [triQ ⟨0, 0⟩ ⟨4, 0⟩ ⟨0, 4⟩] with
        animationStartTriangle := some 0, AnimationInProgress := 1 } : State ℚ)
    ⟨1, 1⟩ 0 rfl rfl hf
  exact ⟨_, _, hrun.trans hclick, rfl, rfl, hf, h2, rfl, rfl, rfl⟩

/-! ## Dragging the selected triangle -/

/-- Claim C12, as the code has it. In transformation mode with the drag flag set, a
primary-button release clears the drag flag and changes nothing else: the selection is
exactly as it was before the event. -/
theorem C12_release_clears_set_flag (lib : MathLib K) (s : State K) (p : Vec2 K)
    (hmode : s.curMode = AppMode.TRANSFORMATION) (hflag : s.TranslationInProgress = true) :
    ∃ s1 : State K, step lib s (Event.button Button.LEFT Action.RELEASE p) = some s1 ∧
      s1.TranslationInProgress = false ∧ s1.selectedTriangle = s.selectedTriangle ∧
      s1 = { s with TranslationInProgress := false } := by
  refine ⟨{ s with TranslationInProgress := false }, ?_, rfl, rfl, rfl⟩
  simp only [step, mouse_button_callback, hmode, handleTranslationClick, hflag, if_true,
    true_and, or_true]

/-- A triangle is drawn, the key `O` enters transformation mode and a press at `(1,1)`
selects the triangle and sets the drag flag; the release at `(2,2)` clears the flag and
keeps the selection. -/
theorem C12_witness :
    ∃ s : State ℚ, run libQ State.init (drawEvents ++ [Event.key Key.O Action.RELEASE,
        Event.button Button.LEFT Action.PRESS ⟨1, 1⟩]) = some s ∧
      s.curMode = AppMode.TRANSFORMATION ∧ s.TranslationInProgress = true ∧
      s.selectedTriangle = some 0 ∧
      ∃ s1 : State ℚ, step libQ s (Event.button Button.LEFT Action.RELEASE ⟨2, 2⟩) = some s1 ∧
        s1.TranslationInProgress = false ∧ s1.selectedTriangle = some 0 := by
  have hin : (triQ ⟨0, 0⟩ ⟨4, 0⟩ ⟨0, 4⟩).isInside ⟨1, 1⟩ = true :=
    isInside_of_hasWeights _ ⟨⟨0, 0⟩, white⟩ ⟨⟨4, 0⟩, white⟩ ⟨⟨0, 4⟩, white⟩ [] rfl rfl
      (by norm_num [det]) (by norm_num) ⟨1, 1⟩ (1 / 4) (1 / 4) (by norm_num) (by norm_num)
      (by norm_num) (by constructor <;> norm_num)
  have hrun : run libQ State.init (drawEvents ++ [Event.key Key.O Action.RELEASE,
      Event.button Button.LEFT Action.PRESS ⟨1, 1⟩]) =
      some (handleTranslationClick (sceneQ AppMode.TRANSFORMATION
        [triQ ⟨0, 0⟩ ⟨4, 0⟩ ⟨0, 4⟩]) ⟨1, 1⟩) := rfl
  have hsel : (handleTranslationClick (sceneQ AppMode.TRANSFORMATION
      [triQ ⟨0, 0⟩ ⟨4, 0⟩ ⟨0, 4⟩]) ⟨1, 1⟩).selectedTriangle = some 0 := by
    show pickLast _ [triQ ⟨0, 0⟩ ⟨4, 0⟩ ⟨0, 4⟩] 0 none = some 0
    simp only [pickLast, hin, if_true]
  obtain ⟨s1, h1, h2, h3, -⟩ := C12_release_clears_set_flag libQ
    (handleTranslationClick (sceneQ AppMode.TRANSFORMATION [triQ ⟨0, 0⟩ ⟨4, 0⟩ ⟨0, 4⟩]) ⟨1, 1⟩)
    ⟨2, 2⟩ rfl rfl
  exact ⟨_, hrun, rfl, rfl, hsel, s1, h1, h2, h3.trans hsel⟩

/-- Claim C12, as stated, fails. A triangle is drawn and the key `O` enters transformation
mode while the button of the last press is still down: the drag flag is clear and nothing
is selected.  The release of the button at `(1,1)` sets the drag flag and selects the
triangle. -/
theorem C12_counterexample :
    ∃ s s1 : State ℚ,
      run libQ State.init (drawEvents ++ [Event.key Key.O Action.RELEASE]) = some s ∧
      s.curMode = AppMode.TRANSFORMATION ∧ s.TranslationInProgress = false ∧
      s.selectedTriangle = none ∧
      step libQ s (Event.button Button.LEFT Action.RELEASE ⟨1, 1⟩) = some s1 ∧
      s1.TranslationInProgress = true ∧ s1.selectedTriangle = some 0 := by
  have hin : (triQ ⟨0, 0⟩ ⟨4, 0⟩ ⟨0, 4⟩).isInside ⟨1, 1⟩ = true :=
    isInside_of_hasWeights _ ⟨⟨0, 0⟩, white⟩ ⟨⟨4, 0⟩, white⟩ ⟨⟨0, 4⟩, white⟩ [] rfl rfl
      (by norm_num [det]) (by norm_num) ⟨1, 1⟩ (1 / 4) (1 / 4) (by norm_num) (by norm_num)
      (by norm_num) (by constructor <;> norm_num)
  have hrun : run libQ State.init (drawEvents ++ [Event.key Key.O Action.RELEASE]) =
      some (sceneQ AppMode.TRANSFORMATION [triQ ⟨0, 0⟩ ⟨4, 0⟩ ⟨0, 4⟩]) := rfl
  refine ⟨_, handleTranslationClick (sceneQ AppMode.TRANSFORMATION
    [triQ ⟨0, 0⟩ ⟨4, 0⟩ ⟨0, 4⟩]) ⟨1, 1⟩, hrun, rfl, rfl, rfl, rfl, rfl, ?_⟩
  show pickLast _ [triQ ⟨0, 0⟩ ⟨4, 0⟩ ⟨0, 4⟩] 0 none = some 0
  simp only [pickLast, hin, if_true]

theorem Vec2.add_sub_telescope (a b c : Vec2 K) (v : Vec2 K) :
    (v.add (b.sub a)).add (c.sub b) = v.add (c.sub a) := by
  simp only [Vec2.add, Vec2.sub, Vec2.mk.injEq]
  constructor <;> ring

theorem Triangle.translated_translated (T : Triangle K) (a b c : Vec2 K) :
    (T.translated (b.sub a)).translated (c.sub b) = T.translated (c.sub a) := by
  simp only [Triangle.translated, List.map_map]
  congr 1
  apply List.map_congr_left
  intro v _
  simp only [Function.comp, Vec2.add_sub_telescope]

theorem Triangle.translated_self (T : Triangle K) (a : Vec2 K) :
    T.translated (a.sub a) = T := by
  cases T with
  | mk vs cpl fc oc =>
    simp only [Triangle.translated, Triangle.mk.injEq, and_true]
    have : (fun v : Vertex K => Vertex.mk (v.vertex.add (a.sub a)) v.color) = id := by
      funext v
      simp only [Vec2.add, Vec2.sub, sub_self, add_zero, id]
    rw [this, List.map_id]

theorem Triangle.move_of_complete (T : Triangle K) (d : Vec2 K) (hc : T.complete = true) :
    T.move d = T.translated d := by
  simp only [Triangle.move, Triangle.isComplete, hc, Triangle.translated, Bool.not_true,
    Bool.false_eq_true, if_false]

theorem getLast?_getD_cons {α : Type} (p d : α) (ps : List α) :
    (p :: ps).getLast?.getD d = ps.getLast?.getD p := by
  cases ps with
  | nil => rfl
  | cons q qs =>
    rw [List.getLast?_cons_cons, List.getLast?_eq_getLast _ (List.cons_ne_nil q qs)]
    rfl

/-- A sequence of moves while dragging triangle `i` translates it by the difference between
the last pointer position and the position stored at the start, and changes nothing else
but the stored position. -/
theorem selectionMoves_spec (ps : List (Vec2 K)) :
    ∀ (s : State K) (i : Nat) (T : Triangle K), s.TranslationInProgress = true →
      s.selectedTriangle = some i → s.triangles[i]? = some T → T.complete = true →
      ∃ s1 : State K, selectionMoves s ps = some s1 ∧
        s1 = { s with
          touchPos := ps.getLast?.getD s.touchPos
          triangles := s.triangles.set i
            (T.translated ((ps.getLast?.getD s.touchPos).sub s.touchPos)) } := by
  induction ps with
  | nil =>
    intro s i T _ _ hT _
    refine ⟨s, rfl, ?_⟩
    simp only [List.getLast?_nil, Option.getD_none, Triangle.translated_self,
      List.set_of_getElem? _ _ _ hT]
  | cons p ps ih =>
    intro s i T hflag hsel hT hc
    have hmove : handleSelectionMove s p = some { s with
        touchPos := p
        triangles := s.triangles.set i (T.translated (p.sub s.touchPos)) } := by
      simp only [handleSelectionMove, hflag, hsel, hT, Triangle.move_of_complete T _ hc,
        Bool.true_eq_false, if_false]
    have hi : i < s.triangles.length := by
      rcases Nat.lt_or_ge i s.triangles.length with h | h
      · exact h
      · rw [List.getElem?_eq_none h] at hT
        cases hT
    obtain ⟨s1, h1, e1⟩ := ih ({ s with
        touchPos := p
        triangles := s.triangles.set i (T.translated (p.sub s.touchPos)) } : State K)
      i (T.translated (p.sub s.touchPos)) hflag hsel
      (by show (s.triangles.set i _)[i]? = some _
          rw [List.getElem?_set_self hi]) hc
    refine ⟨s1, ?_, ?_⟩
    · show (handleSelectionMove s p).bind (fun s1 => selectionMoves s1 ps) = some s1
      rw [hmove]
      exact h1
    · rw [e1, getLast?_getD_cons]
      dsimp only
      rw [List.set_set, Triangle.translated_translated]

/-- Claim C11. After a press at `p0` in transformation mode (drag flag clear) that selects
triangle `i`, every non-empty sequence of pointer moves handled by `handleSelectionMove` and
ending at `pn` leaves every vertex of that triangle at its original position plus `pn - p0`,
whatever the intermediate points; its colours, fill, outline and flag are unchanged, and so
is every other triangle. -/
theorem C11_drag_telescopes (s : State K) (p0 : Vec2 K) (i : Nat) (T : Triangle K)
    (hflag : s.TranslationInProgress = false)
    (hsel : (handleTranslationClick s p0).selectedTriangle = some i)
    (hT : s.triangles[i]? = some T)
    (ps : List (Vec2 K)) (pn : Vec2 K) (hlast : ps.getLast? = some pn) :
    ∃ s1 : State K, selectionMoves (handleTranslationClick s p0) ps = some s1 ∧
      s1.triangles[i]? = some { T with vertices := T.vertices.map (fun v =>
        Vertex.mk ⟨v.vertex.x + (pn.x - p0.x), v.vertex.y + (pn.y - p0.y)⟩ v.color) } ∧
      s1.triangles.length = s.triangles.length ∧
      (∀ n : Nat, n ≠ i → s1.triangles[n]? = s.triangles[n]?) ∧
      s1.selectedTriangle = some i := by
  have h0 : handleTranslationClick s p0 = { s with
      touchPos := p0
      selectedTriangle := pickLast p0 s.triangles 0 none
      TranslationInProgress := true } := by
    simp only [handleTranslationClick, hflag, Bool.false_eq_true, if_false]
  have hpick : pickLast p0 s.triangles 0 none = some i := by
    rw [h0] at hsel
    exact hsel
  have hc : T.complete = true := by
    rcases (pickLast_eq_some p0 s.triangles 0 none i).mp hpick with
      ⟨k, t, hk, hkt, hin, -⟩ | ⟨hn, -⟩
    · have hki : k = i := by omega
      subst hki
      rw [hT] at hkt
      cases hkt
      exact (isInside_three T p0 hin).1
    · cases hn
  have hi : i < s.triangles.length := by
    rcases Nat.lt_or_ge i s.triangles.length with h | h
    · exact h
    · rw [List.getElem?_eq_none h] at hT
      cases hT
  obtain ⟨s1, h1, e1⟩ := selectionMoves_spec ps (handleTranslationClick s p0) i T
    (by rw [h0]) hsel (by rw [h0]; exact hT) hc
  refine ⟨s1, h1, ?_⟩
  rw [e1, h0, hlast]
  dsimp only [Option.getD_some]
  refine ⟨?_, ?_, ?_, hpick⟩
  · rw [List.getElem?_set_self hi]
    rfl
  · rw [List.length_set]
  · intro n hn
    rw [List.getElem?_set_ne (Ne.symm hn)]

/-- A triangle away from the pointer and the triangle `(0,0)`, `(4,0)`, `(0,4)`: the press at
`(1,1)` selects the second, and the moves to `(2,5)` and then `(3,3)` leave it at
`(2,2)`, `(6,2)`, `(2,6)`, its corners plus `(3,3) - (1,1)`. -/
theorem C11_witness :
    ∃ s1 : State ℚ, selectionMoves (handleTranslationClick (sceneQ AppMode.TRANSFORMATION
        [triQ ⟨9, 9⟩ ⟨10, 9⟩ ⟨9, 10⟩, triQ ⟨0, 0⟩ ⟨4, 0⟩ ⟨0, 4⟩]) ⟨1, 1⟩)
        [⟨2, 5⟩, ⟨3, 3⟩] = some s1 ∧
      s1.triangles[1]? = some (triQ ⟨2, 2⟩ ⟨6, 2⟩ ⟨2, 6⟩) ∧
      s1.triangles[0]? = some (triQ ⟨9, 9⟩ ⟨10, 9⟩ ⟨9, 10⟩) ∧
      s1.triangles.length = 2 := by
  have hin : (triQ ⟨0, 0⟩ ⟨4, 0⟩ ⟨0, 4⟩).isInside ⟨1, 1⟩ = true :=
    isInside_of_hasWeights _ ⟨⟨0, 0⟩, white⟩ ⟨⟨4, 0⟩, white⟩ ⟨⟨0, 4⟩, white⟩ [] rfl rfl
      (by norm_num [det]) (by norm_num) ⟨1, 1⟩ (1 / 4) (1 / 4) (by norm_num) (by norm_num)
      (by norm_num) (by constructor <;> norm_num)
  have hsel : (handleTranslationClick (sceneQ AppMode.TRANSFORMATION
      [triQ ⟨9, 9⟩ ⟨10, 9⟩ ⟨9, 10⟩, triQ ⟨0, 0⟩ ⟨4, 0⟩ ⟨0, 4⟩]) ⟨1, 1⟩).selectedTriangle
      = some 1 := by
    show pickLast _ [triQ ⟨9, 9⟩ ⟨10, 9⟩ ⟨9, 10⟩, triQ ⟨0, 0⟩ ⟨4, 0⟩ ⟨0, 4⟩] 0 none = some 1
    simp only [pickLast, hin, if_true]
  obtain ⟨s1, h1, h2, h3, h4, -⟩ := C11_drag_telescopes (sceneQ AppMode.TRANSFORMATION
      [triQ ⟨9, 9⟩ ⟨10, 9⟩ ⟨9, 10⟩, triQ ⟨0, 0⟩ ⟨4, 0⟩ ⟨0, 4⟩]) ⟨1, 1⟩ 1
      (triQ ⟨0, 0⟩ ⟨4, 0⟩ ⟨0, 4⟩) rfl hsel rfl [⟨2, 5⟩, ⟨3, 3⟩] ⟨3, 3⟩ rfl
  refine ⟨s1, h1, ?_, (h4 0 (by decide)).trans rfl, h3.trans rfl⟩
  rw [h2]
  norm_num [triQ]

/-! ## The zoom factor -/

theorem zoom_handleInsertionMove (s s1 : State K) (p : Vec2 K)
    (h : handleInsertionMove s p = some s1) : s1.ZoomFactor = s.ZoomFactor := by
  unfold handleInsertionMove at h
  repeat' split at h
  all_goals cases h <;> rfl

theorem zoom_handleInsertionClick (s s1 : State K) (p : Vec2 K)
    (h : handleInsertionClick s p = some s1) : s1.ZoomFactor = s.ZoomFactor := by
  unfold handleInsertionClick at h
  repeat' split at h
  all_goals cases h <;> rfl

theorem zoom_handleSelectionMove (s s1 : State K) (p : Vec2 K)
    (h : handleSelectionMove s p = some s1) : s1.ZoomFactor = s.ZoomFactor := by
  unfold handleSelectionMove at h
  repeat' split at h
  all_goals cases h <;> rfl

theorem zoom_handleTranslationClick (s : State K) (p : Vec2 K) :
    (handleTranslationClick s p).ZoomFactor = s.ZoomFactor := by
  unfold handleTranslationClick
  split <;> rfl

theorem zoom_handleRemoveClick (s : State K) (p : Vec2 K) :
    (handleRemoveClick s p).ZoomFactor = s.ZoomFactor := by
  unfold handleRemoveClick
  split <;> rfl

theorem zoom_handleSelectClosestVertex (lib : MathLib K) (s s1 : State K) (p : Vec2 K)
    (h : handleSelectClosestVertex lib s p = some s1) : s1.ZoomFactor = s.ZoomFactor := by
  unfold handleSelectClosestVertex at h
  repeat' split at h
  all_goals cases h <;> rfl

theorem zoom_setSelectedColor (s s1 : State K) (k : Nat)
    (h : setSelectedColor s k = some s1) : s1.ZoomFactor = s.ZoomFactor := by
  unfold setSelectedColor at h
  repeat' split at h
  all_goals cases h <;> rfl

theorem zoom_runAnimation (s s1 : State K)
    (h : runAnimation s = some s1) : s1.ZoomFactor = s.ZoomFactor := by
  unfold runAnimation at h
  split at h
  · cases h; rfl
  · split at h
    · cases h
    · split at h
      · cases h
      · split at h
        · cases h
        · dsimp only at h
          split at h <;> cases h <;> rfl

theorem zoom_handleAnimationClick (s s1 : State K) (p : Vec2 K)
    (h : handleAnimationClick s p = some s1) : s1.ZoomFactor = s.ZoomFactor := by
  unfold handleAnimationClick at h
  repeat' split at h
  all_goals cases h <;> rfl

theorem zoom_resetMode (s : State K) (m : AppMode) :
    (resetMode s m).ZoomFactor = s.ZoomFactor := by
  unfold resetMode
  repeat' split
  all_goals rfl

theorem zoom_switchMode (s : State K) (m : AppMode) :
    (switchMode s m).ZoomFactor = s.ZoomFactor := by
  unfold switchMode
  split
  · rfl
  · exact zoom_resetMode s s.curMode

theorem zoom_onSelected (s s1 : State K) (f : Triangle K → Option (Triangle K))
    (h : onSelected s f = some s1) : s1.ZoomFactor = s.ZoomFactor := by
  unfold onSelected at h
  repeat' split at h
  all_goals cases h <;> rfl

/-! ## Evaluating the roundings -/

theorem roundEven_intCast (n : ℤ) : roundEven (n : ℚ) = n := by
  simp [roundEven]

theorem roundEven_of_lt (x : ℚ) (f : ℤ) (h1 : (f : ℚ) ≤ x) (h2 : x - f < 1 / 2) :
    roundEven x = f := by
  have hf : ⌊x⌋ = f := Int.floor_eq_iff.mpr ⟨h1, by linarith⟩
  simp only [roundEven, hf, h2, if_true]

theorem roundEven_of_gt (x : ℚ) (f : ℤ) (h1 : 1 / 2 < x - f) (h2 : x < f + 1) :
    roundEven x = f + 1 := by
  have hf : ⌊x⌋ = f := Int.floor_eq_iff.mpr ⟨by linarith, h2⟩
  have h3 : ¬ x - f < 1 / 2 := not_lt.mpr (le_of_lt h1)
  simp only [roundEven, hf, h3, if_false, h1, if_true]

theorem roundEven_half_even (x : ℚ) (f : ℤ) (h1 : x - f = 1 / 2) (h2 : f % 2 = 0) :
    roundEven x = f := by
  have hf : ⌊x⌋ = f := Int.floor_eq_iff.mpr ⟨by linarith, by linarith⟩
  simp only [roundEven, hf, h1, lt_irrefl, if_false, h2, if_true]

theorem roundEven_half_odd (x : ℚ) (f : ℤ) (h1 : x - f = 1 / 2) (h2 : f % 2 = 1) :
    roundEven x = f + 1 := by
  have hf : ⌊x⌋ = f := Int.floor_eq_iff.mpr ⟨by linarith, by linarith⟩
  have h3 : ¬ f % 2 = 0 := by omega
  simp only [roundEven, hf, h1, lt_irrefl, if_false, h3]

/-- The binade of a positive rational: `Int.log 2 r = e` when `2 ^ e ≤ r < 2 ^ (e + 1)`. -/
theorem log2_eq (r : ℚ) (e : ℤ) (h1 : (2 : ℚ) ^ e ≤ r) (h2 : r < 2 ^ (e + 1)) :
    Int.log 2 r = e := by
  have hr : 0 < r := lt_of_lt_of_le (zpow_pos (by norm_num) e) h1
  have a1 : e ≤ Int.log 2 r :=
    (Int.zpow_le_iff_le_log (by norm_num) hr).mp (by exact_mod_cast h1)
  have a2 : Int.log 2 r < e + 1 :=
    (Int.lt_zpow_iff_log_lt (by norm_num) hr).mp (by exact_mod_cast h2)
  omega

/-- The value of `roundBin` at `q` in the binade `[2 ^ b, 2 ^ (b + 1))`: with the unit
`2 ^ e` in the last place, it is `m * 2 ^ e` for the integer `m` nearest to `q / 2 ^ e`. -/
theorem roundBin_eval (prec : ℕ) (emin : ℤ) (q : ℚ) (b e m : ℤ)
    (h1 : (2 : ℚ) ^ b ≤ |q|) (h2 : |q| < 2 ^ (b + 1))
    (he : max (b - ((prec : ℤ) - 1)) emin = e) (hm : roundEven (q / 2 ^ e) = m) :
    roundBin prec emin q = (m : ℚ) * 2 ^ e := by
  simp only [roundBin, ulpExp, log2_eq _ b h1 h2, he, hm]

theorem roundBin_zero (prec : ℕ) (emin : ℤ) : roundBin prec emin 0 = 0 := by
  simp [roundBin, roundEven]

theorem libF_f32 : libF.f32 = roundF32 := rfl

theorem libF_f64 : libF.f64 = roundF64 := rfl

/-! ### The roundings of the zoom commands -/

theorem roundF64_two_tenths : roundF64 (2 / 10) = (3602879701896397 / 18014398509481984) := by
  rw [roundF64, roundBin_eval 53 (-1074) _ (-3) (-55) 7205759403792794
    (by rw [abs_of_pos (by norm_num)]; norm_num) (by rw [abs_of_pos (by norm_num)]; norm_num)
    (by norm_num)
    ((roundEven_of_gt _ 7205759403792793 (by norm_num) (by norm_num)).trans (by norm_num))]
  norm_num

theorem roundF64_four_tenths : roundF64 (4 / 10) = (3602879701896397 / 9007199254740992) := by
  rw [roundF64, roundBin_eval 53 (-1074) _ (-2) (-54) 7205759403792794
    (by rw [abs_of_pos (by norm_num)]; norm_num) (by rw [abs_of_pos (by norm_num)]; norm_num)
    (by norm_num)
    ((roundEven_of_gt _ 7205759403792793 (by norm_num) (by norm_num)).trans (by norm_num))]
  norm_num

theorem roundF64_nine_tenths : roundF64 (9 / 10) = (8106479329266893 / 9007199254740992) := by
  rw [roundF64, roundBin_eval 53 (-1074) _ (-1) (-53) 8106479329266893
    (by rw [abs_of_pos (by norm_num)]; norm_num) (by rw [abs_of_pos (by norm_num)]; norm_num)
    (by norm_num)
    ((roundEven_of_gt _ 8106479329266892 (by norm_num) (by norm_num)).trans (by norm_num))]
  norm_num

theorem zoomOut_one_f64 :
    roundF64 (14411518807585587 / 18014398509481984) =
      (3602879701896397 / 4503599627370496) := by
  rw [roundF64, roundBin_eval 53 (-1074) _ (-1) (-53) 7205759403792794
    (by rw [abs_of_pos (by norm_num)]; norm_num) (by rw [abs_of_pos (by norm_num)]; norm_num)
    (by norm_num)
    ((roundEven_half_odd _ 7205759403792793 (by norm_num) (by norm_num)).trans (by norm_num))]
  norm_num

theorem zoomOut_one_f32 :
    roundF32 (3602879701896397 / 4503599627370496) =
      (13421773 / 16777216) := by
  rw [roundF32, roundBin_eval 24 (-149) _ (-1) (-24) 13421773
    (by rw [abs_of_pos (by norm_num)]; norm_num) (by rw [abs_of_pos (by norm_num)]; norm_num)
    (by norm_num)
    ((roundEven_of_gt _ 13421772 (by norm_num) (by norm_num)).trans (by norm_num))]
  norm_num

theorem zoomOut_one :
    roundF32 (roundF64 (1 - roundF64 (2 / 10))) = (13421773 / 16777216) := by
  rw [roundF64_two_tenths,
    show (1 : ℚ) - (3602879701896397 / 18014398509481984) =
      (14411518807585587 / 18014398509481984) by norm_num,
    zoomOut_one_f64, zoomOut_one_f32]

theorem zoomOut_p8_f64 :
    roundF64 (10808639320437555 / 18014398509481984) =
      (2702159830109389 / 4503599627370496) := by
  rw [roundF64, roundBin_eval 53 (-1074) _ (-1) (-53) 5404319660218778
    (by rw [abs_of_pos (by norm_num)]; norm_num) (by rw [abs_of_pos (by norm_num)]; norm_num)
    (by norm_num)
    ((roundEven_half_odd _ 5404319660218777 (by norm_num) (by norm_num)).trans (by norm_num))]
  norm_num

theorem zoomOut_p8_f32 : roundF32 (2702159830109389 / 4503599627370496) = (5033165 / 8388608) := by
  rw [roundF32, roundBin_eval 24 (-149) _ (-1) (-24) 10066330
    (by rw [abs_of_pos (by norm_num)]; norm_num) (by rw [abs_of_pos (by norm_num)]; norm_num)
    (by norm_num)
    ((roundEven_of_gt _ 10066329 (by norm_num) (by norm_num)).trans (by norm_num))]
  norm_num

theorem zoomOut_p8 :
    roundF32 (roundF64 ((13421773 / 16777216) - roundF64 (2 / 10))) = (5033165 / 8388608) := by
  rw [roundF64_two_tenths,
    show ((13421773 / 16777216) : ℚ) - (3602879701896397 / 18014398509481984) =
      (10808639320437555 / 18014398509481984) by norm_num,
    zoomOut_p8_f64, zoomOut_p8_f32]

theorem zoomIn_p8_f64 :
    roundF64 (18014398724230349 / 18014398509481984) =
      (4503599681057587 / 4503599627370496) := by
  rw [roundF64, roundBin_eval 53 (-1074) _ 0 (-52) 4503599681057587
    (by rw [abs_of_pos (by norm_num)]; norm_num) (by rw [abs_of_pos (by norm_num)]; norm_num)
    (by norm_num)
    (roundEven_of_lt _ 4503599681057587 (by norm_num) (by norm_num))]
  norm_num

theorem zoomIn_p8_f32 : roundF32 (4503599681057587 / 4503599627370496) = 1 := by
  rw [roundF32, roundBin_eval 24 (-149) _ 0 (-23) 8388608
    (by rw [abs_of_pos (by norm_num)]; norm_num) (by rw [abs_of_pos (by norm_num)]; norm_num)
    (by norm_num)
    (roundEven_of_lt _ 8388608 (by norm_num) (by norm_num))]
  norm_num

theorem zoomIn_p8 :
    roundF32 (roundF64 ((13421773 / 16777216) + roundF64 (2 / 10))) = 1 := by
  rw [roundF64_two_tenths,
    show ((13421773 / 16777216) : ℚ) + (3602879701896397 / 18014398509481984) =
      (18014398724230349 / 18014398509481984) by norm_num,
    zoomIn_p8_f64, zoomIn_p8_f32]

theorem zoomOut_p6_f64 :
    roundF64 (7205759833289523 / 18014398509481984) =
      (7205759833289523 / 18014398509481984) := by
  rw [roundF64, roundBin_eval 53 (-1074) _ (-2) (-54) 7205759833289523
    (by rw [abs_of_pos (by norm_num)]; norm_num) (by rw [abs_of_pos (by norm_num)]; norm_num)
    (by norm_num)
    (roundEven_of_lt _ 7205759833289523 (by norm_num) (by norm_num))]
  norm_num

theorem zoomOut_p6_f32 :
    roundF32 (7205759833289523 / 18014398509481984) =
      (6710887 / 16777216) := by
  rw [roundF32, roundBin_eval 24 (-149) _ (-2) (-25) 13421774
    (by rw [abs_of_pos (by norm_num)]; norm_num) (by rw [abs_of_pos (by norm_num)]; norm_num)
    (by norm_num)
    ((roundEven_of_gt _ 13421773 (by norm_num) (by norm_num)).trans (by norm_num))]
  norm_num

theorem zoomOut_p6 :
    roundF32 (roundF64 ((5033165 / 8388608) - roundF64 (2 / 10))) = (6710887 / 16777216) := by
  rw [roundF64_two_tenths,
    show ((5033165 / 8388608) : ℚ) - (3602879701896397 / 18014398509481984) =
      (7205759833289523 / 18014398509481984) by norm_num,
    zoomOut_p6_f64, zoomOut_p6_f32]

theorem zoomIn_p6_f64 :
    roundF64 (14411519237082317 / 18014398509481984) =
      (3602879809270579 / 4503599627370496) := by
  rw [roundF64, roundBin_eval 53 (-1074) _ (-1) (-53) 7205759618541158
    (by rw [abs_of_pos (by norm_num)]; norm_num) (by rw [abs_of_pos (by norm_num)]; norm_num)
    (by norm_num)
    (roundEven_half_even _ 7205759618541158 (by norm_num) (by norm_num))]
  norm_num

theorem zoomIn_p6_f32 :
    roundF32 (3602879809270579 / 4503599627370496) =
      (13421773 / 16777216) := by
  rw [roundF32, roundBin_eval 24 (-149) _ (-1) (-24) 13421773
    (by rw [abs_of_pos (by norm_num)]; norm_num) (by rw [abs_of_pos (by norm_num)]; norm_num)
    (by norm_num)
    (roundEven_of_lt _ 13421773 (by norm_num) (by norm_num))]
  norm_num

theorem zoomIn_p6 :
    roundF32 (roundF64 ((5033165 / 8388608) + roundF64 (2 / 10))) = (13421773 / 16777216) := by
  rw [roundF64_two_tenths,
    show ((5033165 / 8388608) : ℚ) + (3602879701896397 / 18014398509481984) =
      (14411519237082317 / 18014398509481984) by norm_num,
    zoomIn_p6_f64, zoomIn_p6_f32]

theorem zoomOut_p4_f64 :
    roundF64 (3602880346141491 / 18014398509481984) =
      (3602880346141491 / 18014398509481984) := by
  rw [roundF64, roundBin_eval 53 (-1074) _ (-3) (-55) 7205760692282982
    (by rw [abs_of_pos (by norm_num)]; norm_num) (by rw [abs_of_pos (by norm_num)]; norm_num)
    (by norm_num)
    (roundEven_of_lt _ 7205760692282982 (by norm_num) (by norm_num))]
  norm_num

theorem zoomOut_p4_f32 :
    roundF32 (3602880346141491 / 18014398509481984) =
      (13421775 / 67108864) := by
  rw [roundF32, roundBin_eval 24 (-149) _ (-3) (-26) 13421775
    (by rw [abs_of_pos (by norm_num)]; norm_num) (by rw [abs_of_pos (by norm_num)]; norm_num)
    (by norm_num)
    (roundEven_of_lt _ 13421775 (by norm_num) (by norm_num))]
  norm_num

theorem zoomOut_p4 :
    roundF32 (roundF64 ((6710887 / 16777216) - roundF64 (2 / 10))) = (13421775 / 67108864) := by
  rw [roundF64_two_tenths,
    show ((6710887 / 16777216) : ℚ) - (3602879701896397 / 18014398509481984) =
      (3602880346141491 / 18014398509481984) by norm_num,
    zoomOut_p4_f64, zoomOut_p4_f32]

theorem zoomIn_p4_f64 :
    roundF64 (10808639749934285 / 18014398509481984) =
      (2702159937483571 / 4503599627370496) := by
  rw [roundF64, roundBin_eval 53 (-1074) _ (-1) (-53) 5404319874967142
    (by rw [abs_of_pos (by norm_num)]; norm_num) (by rw [abs_of_pos (by norm_num)]; norm_num)
    (by norm_num)
    (roundEven_half_even _ 5404319874967142 (by norm_num) (by norm_num))]
  norm_num

theorem zoomIn_p4_f32 : roundF32 (2702159937483571 / 4503599627370496) = (5033165 / 8388608) := by
  rw [roundF32, roundBin_eval 24 (-149) _ (-1) (-24) 10066330
    (by rw [abs_of_pos (by norm_num)]; norm_num) (by rw [abs_of_pos (by norm_num)]; norm_num)
    (by norm_num)
    (roundEven_of_lt _ 10066330 (by norm_num) (by norm_num))]
  norm_num

theorem zoomIn_p4 :
    roundF32 (roundF64 ((6710887 / 16777216) + roundF64 (2 / 10))) = (5033165 / 8388608) := by
  rw [roundF64_two_tenths,
    show ((6710887 / 16777216) : ℚ) + (3602879701896397 / 18014398509481984) =
      (10808639749934285 / 18014398509481984) by norm_num,
    zoomIn_p4_f64, zoomIn_p4_f32]

theorem zoomIn_p2_f64 :
    roundF64 (7205759994350797 / 18014398509481984) =
      (7205759994350797 / 18014398509481984) := by
  rw [roundF64, roundBin_eval 53 (-1074) _ (-2) (-54) 7205759994350797
    (by rw [abs_of_pos (by norm_num)]; norm_num) (by rw [abs_of_pos (by norm_num)]; norm_num)
    (by norm_num)
    (roundEven_of_lt _ 7205759994350797 (by norm_num) (by norm_num))]
  norm_num

theorem zoomIn_p2_f32 :
    roundF32 (7205759994350797 / 18014398509481984) =
      (6710887 / 16777216) := by
  rw [roundF32, roundBin_eval 24 (-149) _ (-2) (-25) 13421774
    (by rw [abs_of_pos (by norm_num)]; norm_num) (by rw [abs_of_pos (by norm_num)]; norm_num)
    (by norm_num)
    ((roundEven_of_gt _ 13421773 (by norm_num) (by norm_num)).trans (by norm_num))]
  norm_num

theorem zoomIn_p2 :
    roundF32 (roundF64 ((13421775 / 67108864) + roundF64 (2 / 10))) = (6710887 / 16777216) := by
  rw [roundF64_two_tenths,
    show ((13421775 / 67108864) : ℚ) + (3602879701896397 / 18014398509481984) =
      (7205759994350797 / 18014398509481984) by norm_num,
    zoomIn_p2_f64, zoomIn_p2_f32]

theorem ZoomLevel.of_eq {s s1 : State K} (h : s1.ZoomFactor = s.ZoomFactor)
    (hz : ZoomLevel s) : ZoomLevel s1 := by
  unfold ZoomLevel at *
  rw [h]
  exact hz

theorem key_callback_minus (lib : MathLib K) (s : State K) :
    key_callback lib s Key.MINUS Action.RELEASE =
      if s.ZoomFactor > lib.f64 (4 / 10) then
        some { s with ZoomFactor := lib.f32 (lib.f64 (s.ZoomFactor - lib.f64 (2 / 10))) }
      else some s := rfl

theorem key_callback_equal (lib : MathLib K) (s : State K) :
    key_callback lib s Key.EQUAL Action.RELEASE =
      if s.ZoomFactor ≤ lib.f64 (9 / 10) then
        some { s with ZoomFactor := lib.f32 (lib.f64 (s.ZoomFactor + lib.f64 (2 / 10))) }
      else some s := rfl

/-- A set of zoom factors that the two zoom commands keep is kept by every key. -/
theorem zoomInv_key_callback (lib : MathLib K) (P : K → Prop)
    (hminus : ∀ z : K, P z → z > lib.f64 (4 / 10) →
      P (lib.f32 (lib.f64 (z - lib.f64 (2 / 10)))))
    (hplus : ∀ z : K, P z → z ≤ lib.f64 (9 / 10) →
      P (lib.f32 (lib.f64 (z + lib.f64 (2 / 10)))))
    (s s1 : State K) (k : Key) (a : Action) (hz : P s.ZoomFactor)
    (h : key_callback lib s k a = some s1) : P s1.ZoomFactor := by
  by_cases ha : a = Action.RELEASE
  · subst ha
    cases k with
    | MINUS =>
      rw [key_callback_minus] at h
      split at h
      · cases h
        exact hminus _ hz (by assumption)
      · cases h
        exact hz
    | EQUAL =>
      rw [key_callback_equal] at h
      split at h
      · cases h
        exact hplus _ hz (by assumption)
      · cases h
        exact hz
    | SPACE =>
      have e : s1.ZoomFactor = s.ZoomFactor := by
        simp only [key_callback, ne_eq, not_true_eq_false, if_false] at h
        split at h <;> cases h <;> rfl
      rw [e]
      exact hz
    | _ =>
      have e : s1.ZoomFactor = s.ZoomFactor := by
        simp only [key_callback, ne_eq, not_true_eq_false, if_false] at h
        first
          | exact zoom_onSelected _ _ _ h
          | exact zoom_setSelectedColor _ _ _ h
          | (cases h; rfl)
          | (cases h; exact zoom_switchMode _ _)
      rw [e]
      exact hz
  · unfold key_callback at h
    rw [if_pos ha] at h
    cases h
    exact hz

theorem zoomInv_step (lib : MathLib K) (P : K → Prop)
    (hminus : ∀ z : K, P z → z > lib.f64 (4 / 10) →
      P (lib.f32 (lib.f64 (z - lib.f64 (2 / 10)))))
    (hplus : ∀ z : K, P z → z ≤ lib.f64 (9 / 10) →
      P (lib.f32 (lib.f64 (z + lib.f64 (2 / 10)))))
    (s s1 : State K) (e : Event K) (hz : P s.ZoomFactor)
    (h : step lib s e = some s1) : P s1.ZoomFactor := by
  cases e with
  | key k a => exact zoomInv_key_callback lib P hminus hplus s s1 k a hz h
  | move p =>
    have e : s1.ZoomFactor = s.ZoomFactor := by
      simp only [step, mouse_pos_callback] at h
      repeat' split at h
      all_goals first
        | exact zoom_handleInsertionMove _ _ _ h
        | exact zoom_handleSelectionMove _ _ _ h
        | (cases h; rfl)
    rw [e]
    exact hz
  | button b a p =>
    have e : s1.ZoomFactor = s.ZoomFactor := by
      simp only [step, mouse_button_callback] at h
      repeat' split at h
      all_goals first
        | exact zoom_handleInsertionClick _ _ _ h
        | exact zoom_handleSelectClosestVertex _ _ _ _ h
        | exact zoom_handleAnimationClick _ _ _ h
        | (cases h; rfl)
        | (cases h; exact zoom_handleTranslationClick _ _)
        | (cases h; exact zoom_handleRemoveClick _ _)
    rw [e]
    exact hz
  | tick =>
    have e : s1.ZoomFactor = s.ZoomFactor := by
      simp only [step, frameTick] at h
      split at h
      · exact zoom_runAnimation _ _ h
      · cases h; rfl
    rw [e]
    exact hz

/-- A set of zoom factors that the two zoom commands keep is kept by every sequence of
events. -/
theorem zoomInv_run (lib : MathLib K) (P : K → Prop)
    (hminus : ∀ z : K, P z → z > lib.f64 (4 / 10) →
      P (lib.f32 (lib.f64 (z - lib.f64 (2 / 10)))))
    (hplus : ∀ z : K, P z → z ≤ lib.f64 (9 / 10) →
      P (lib.f32 (lib.f64 (z + lib.f64 (2 / 10)))))
    (es : List (Event K)) :
    ∀ s s1 : State K, P s.ZoomFactor → run lib s es = some s1 → P s1.ZoomFactor := by
  induction es with
  | nil =>
    intro s s1 hz h
    cases h
    exact hz
  | cons e es ih =>
    intro s s1 hz h
    change (step lib s e).bind (fun s2 => run lib s2 es) = some s1 at h
    cases hs : step lib s e with
    | none => rw [hs] at h; cases h
    | some s2 =>
      rw [hs] at h
      exact ih s2 s1 (zoomInv_step lib P hminus hplus s s2 e hz hs) h

/-- A sequence of zoom commands is handled without a fault, from every state. -/
theorem zoomKeys_total (lib : MathLib K) (ks : List Key) :
    ∀ s : State K, (∀ k ∈ ks, k = Key.MINUS ∨ k = Key.EQUAL) →
      ∃ s1 : State K, run lib s (ks.map fun k => Event.key k Action.RELEASE) = some s1 := by
  induction ks with
  | nil => intro s _; exact ⟨s, rfl⟩
  | cons k ks ih =>
    intro s hk
    have hstep : ∃ s2 : State K, key_callback lib s k Action.RELEASE = some s2 := by
      rcases hk k (List.mem_cons_self k ks) with e | e
      · rw [e, key_callback_minus]
        split
        · exact ⟨_, rfl⟩
        · exact ⟨_, rfl⟩
      · rw [e, key_callback_equal]
        split
        · exact ⟨_, rfl⟩
        · exact ⟨_, rfl⟩
    obtain ⟨s2, h2⟩ := hstep
    obtain ⟨s1, h1⟩ := ih s2 (fun k1 hk1 => hk k1 (List.mem_cons_of_mem k hk1))
    refine ⟨s1, ?_⟩
    show (key_callback lib s k Action.RELEASE).bind _ = some s1
    rw [h2]
    exact h1

/-! ### Exact arithmetic -/

theorem zoomLevel_exact_minus (lib : MathLib K) (hex : lib.Exact) (z : K)
    (hz : z = 4 / 10 ∨ z = 6 / 10 ∨ z = 8 / 10 ∨ z = 1) (hg : z > lib.f64 (4 / 10)) :
    lib.f32 (lib.f64 (z - lib.f64 (2 / 10))) = 4 / 10 ∨
    lib.f32 (lib.f64 (z - lib.f64 (2 / 10))) = 6 / 10 ∨
    lib.f32 (lib.f64 (z - lib.f64 (2 / 10))) = 8 / 10 ∨
    lib.f32 (lib.f64 (z - lib.f64 (2 / 10))) = 1 := by
  rw [hex.2] at hg
  rw [hex.1, hex.2, hex.2]
  rcases hz with e | e | e | e
  · rw [e] at hg
    exact absurd hg (lt_irrefl _)
  · left; rw [e]; norm_num
  · right; left; rw [e]; norm_num
  · right; right; left; rw [e]; norm_num

theorem zoomLevel_exact_plus (lib : MathLib K) (hex : lib.Exact) (z : K)
    (hz : z = 4 / 10 ∨ z = 6 / 10 ∨ z = 8 / 10 ∨ z = 1) (hg : z ≤ lib.f64 (9 / 10)) :
    lib.f32 (lib.f64 (z + lib.f64 (2 / 10))) = 4 / 10 ∨
    lib.f32 (lib.f64 (z + lib.f64 (2 / 10))) = 6 / 10 ∨
    lib.f32 (lib.f64 (z + lib.f64 (2 / 10))) = 8 / 10 ∨
    lib.f32 (lib.f64 (z + lib.f64 (2 / 10))) = 1 := by
  rw [hex.2] at hg
  rw [hex.1, hex.2, hex.2]
  rcases hz with e | e | e | e
  · right; left; rw [e]; norm_num
  · right; right; left; rw [e]; norm_num
  · right; right; right; rw [e]; norm_num
  · rw [e] at hg
    norm_num at hg

theorem ZoomLevel.bounds {s : State K} (hz : ZoomLevel s) :
    4 / 10 ≤ s.ZoomFactor ∧ s.ZoomFactor ≤ 1 ∧ 0 < s.ZoomFactor := by
  unfold ZoomLevel at hz
  rcases hz with e | e | e | e <;> rw [e] <;> norm_num

theorem view_inverse (aspect : K) (s : State K) (ha : aspect ≠ 0) (hz : s.ZoomFactor ≠ 0)
    (p : Vec2 K) :
    viewInverse aspect s (viewApply aspect s p) = p ∧
    viewApply aspect s (viewInverse aspect s p) = p := by
  cases p with
  | mk x y =>
    simp only [viewInverse, viewApply, Vec2.mk.injEq]
    refine ⟨⟨?_, ?_⟩, ?_, ?_⟩ <;> field_simp <;> ring

/-- The zoom clamp in exact arithmetic.  Without rounding, from a state with
`ZoomFactor = 1` every sequence of zoom-out (`MINUS`) and zoom-in (`EQUAL`) key releases
ends with `4/10 ≤ ZoomFactor ≤ 1`, and so does every sequence of events of any kind that
the editor handles; for a non-zero aspect ratio the exact view map then has `viewInverse`
as its two-sided inverse. -/
theorem zoom_exact_clamped (lib : MathLib K) (hex : lib.Exact) (s : State K)
    (hz : s.ZoomFactor = 1) :
    (∀ ks : List Key, (∀ k ∈ ks, k = Key.MINUS ∨ k = Key.EQUAL) →
      ∃ s1 : State K, run lib s (ks.map fun k => Event.key k Action.RELEASE) = some s1 ∧
        4 / 10 ≤ s1.ZoomFactor ∧ s1.ZoomFactor ≤ 1 ∧ 0 < s1.ZoomFactor ∧
        ∀ (aspect : K) (p : Vec2 K), aspect ≠ 0 →
          viewInverse aspect s1 (viewApply aspect s1 p) = p ∧
          viewApply aspect s1 (viewInverse aspect s1 p) = p) ∧
    (∀ (es : List (Event K)) (s1 : State K), run lib s es = some s1 →
      4 / 10 ≤ s1.ZoomFactor ∧ s1.ZoomFactor ≤ 1 ∧ 0 < s1.ZoomFactor) := by
  have hz0 : ZoomLevel s := Or.inr (Or.inr (Or.inr hz))
  have hrun : ∀ (es : List (Event K)) (s1 : State K), run lib s es = some s1 →
      ZoomLevel s1 := fun es s1 h1 =>
    zoomInv_run lib (fun z => z = 4 / 10 ∨ z = 6 / 10 ∨ z = 8 / 10 ∨ z = 1)
      (zoomLevel_exact_minus lib hex) (zoomLevel_exact_plus lib hex) es s s1 hz0 h1
  constructor
  · intro ks hks
    obtain ⟨s1, h1⟩ := zoomKeys_total lib ks s hks
    obtain ⟨b1, b2, b3⟩ := (hrun _ s1 h1).bounds
    exact ⟨s1, h1, b1, b2, b3, fun aspect p ha => view_inverse aspect s1 ha (ne_of_gt b3) p⟩
  · intro es s1 h1
    exact (hrun es s1 h1).bounds

/-! ### Machine arithmetic -/

theorem zoomLevelF_minus (z : ℚ) (hz : ZoomLevelF z) (hg : z > libF.f64 (4 / 10)) :
    ZoomLevelF (libF.f32 (libF.f64 (z - libF.f64 (2 / 10)))) := by
  rw [libF_f64, roundF64_four_tenths] at hg
  rw [libF_f32, libF_f64]
  unfold ZoomLevelF at *
  rcases hz with e | e | e | e | e
  · rw [e, zoomOut_one]; right; left; rfl
  · rw [e, zoomOut_p8]; right; right; left; rfl
  · rw [e, zoomOut_p6]; right; right; right; left; rfl
  · rw [e, zoomOut_p4]; right; right; right; right; rfl
  · rw [e] at hg
    norm_num at hg

theorem zoomLevelF_plus (z : ℚ) (hz : ZoomLevelF z) (hg : z ≤ libF.f64 (9 / 10)) :
    ZoomLevelF (libF.f32 (libF.f64 (z + libF.f64 (2 / 10)))) := by
  rw [libF_f64, roundF64_nine_tenths] at hg
  rw [libF_f32, libF_f64]
  unfold ZoomLevelF at *
  rcases hz with e | e | e | e | e
  · rw [e] at hg
    norm_num at hg
  · rw [e, zoomIn_p8]; left; rfl
  · rw [e, zoomIn_p6]; right; left; rfl
  · rw [e, zoomIn_p4]; right; right; left; rfl
  · rw [e, zoomIn_p2]; right; right; right; left; rfl

theorem ZoomLevelF.range {z : ℚ} (hz : ZoomLevelF z) : 2 / 10 < z ∧ z ≤ 1 := by
  unfold ZoomLevelF at hz
  rcases hz with e | e | e | e | e <;> rw [e] <;> norm_num

/-- With the machine's rounding the `float` `ZoomFactor` takes five values, from every
sequence of events handled from a state with `ZoomFactor = 1`: it stays above `2/10` and at
most `1`. -/
theorem zoom_float_levels (s : State ℚ) (hz : s.ZoomFactor = 1) (es : List (Event ℚ))
    (s1 : State ℚ) (h : run libF s es = some s1) :
    ZoomLevelF s1.ZoomFactor ∧ 2 / 10 < s1.ZoomFactor ∧ s1.ZoomFactor ≤ 1 := by
  have h1 := zoomInv_run libF ZoomLevelF zoomLevelF_minus zoomLevelF_plus es s s1
    (Or.inl hz) h
  exact ⟨h1, h1.range⟩

theorem ClosestSpec.mono {lib : MathLib K} {p : Vec2 K} {all : List (Triangle K)}
    {i j i2 j2 : Nat} {acc : Closest K} (h : ClosestSpec lib p all i j acc)
    (hiff : ∀ (a b : Nat) (t : Triangle K) (v : Vertex K), all[a]? = some t →
      t.vertices[b]? = some v →
      ((a < i ∨ (a = i ∧ b < j)) ↔ (a < i2 ∨ (a = i2 ∧ b < j2)))) :
    ClosestSpec lib p all i2 j2 acc := by
  rcases h with ⟨h1, h2, h3, hfar⟩ | ⟨a, b, t, v, h1, h2, ht, hv, hb, hmin, hR, hle, hlt⟩
  · exact Or.inl ⟨h1, h2, h3, fun i1 j1 t1 v1 e1 e2 hb1 =>
      hfar i1 j1 t1 v1 e1 e2 ((hiff i1 j1 t1 v1 e1 e2).mpr hb1)⟩
  · exact Or.inr ⟨a, b, t, v, h1, h2, ht, hv, (hiff a b t v ht hv).mp hb, hmin, hR,
      fun i1 j1 t1 v1 e1 e2 hb1 => hle i1 j1 t1 v1 e1 e2 ((hiff i1 j1 t1 v1 e1 e2).mpr hb1),
      hlt⟩

/-- One pass of the inner loop body extends the specification by the vertex it reads. -/
theorem closestStep_spec (lib : MathLib K) (p : Vec2 K) (all : List (Triangle K))
    (i j : Nat) (T : Triangle K) (v : Vertex K) (acc : Closest K)
    (hd : ∀ a b : Vec2 K, 0 ≤ lib.distance a b)
    (hT : all[i]? = some T) (hv : T.vertices[j]? = some v)
    (hacc : ClosestSpec lib p all i j acc) :
    ∃ a : Closest K, closestStep lib p i j T acc = some a ∧
      ClosestSpec lib p all i (j + 1) a := by
  have hsame : ∀ (i1 j1 : Nat) (t1 : Triangle K) (v1 : Vertex K), all[i1]? = some t1 →
      t1.vertices[j1]? = some v1 → i1 = i → j1 = j → v1 = v := by
    intro i1 j1 t1 v1 e1 e2 hi hj
    subst hi
    subst hj
    rw [hT] at e1
    cases e1
    rw [hv] at e2
    exact (Option.some.inj e2).symm
  unfold closestStep
  simp only [hv]
  by_cases hcond : lib.distance p v.vertex ≤ RADIUS ∧
      (acc.minLen = -1 ∨ lib.distance p v.vertex < acc.minLen)
  · rw [if_pos hcond]
    have hstrict : ∀ (i1 j1 : Nat) (t1 : Triangle K) (v1 : Vertex K), all[i1]? = some t1 →
        t1.vertices[j1]? = some v1 → (i1 < i ∨ (i1 = i ∧ j1 < j)) →
        lib.distance p v.vertex < lib.distance p v1.vertex := by
      intro i1 j1 t1 v1 e1 e2 hb
      rcases hacc with ⟨-, -, -, hfar⟩ | ⟨a, b, t, w, -, -, -, -, -, hmin, -, hle, -⟩
      · exact lt_of_le_of_lt hcond.1 (hfar i1 j1 t1 v1 e1 e2 hb)
      · rcases hcond.2 with hneg | hlt
        · exfalso
          have h0 := hd p w.vertex
          rw [← hmin, hneg] at h0
          linarith
        · rw [hmin] at hlt
          exact lt_of_lt_of_le hlt (hle i1 j1 t1 v1 e1 e2 hb)
    refine ⟨_, rfl, Or.inr ⟨i, j, T, v, rfl, rfl, hT, hv, Or.inr ⟨rfl, Nat.lt_succ_self j⟩,
      rfl, hcond.1, ?_, hstrict⟩⟩
    intro i1 j1 t1 v1 e1 e2 hb
    have hsplit : (i1 < i ∨ (i1 = i ∧ j1 < j)) ∨ (i1 = i ∧ j1 = j) := by omega
    rcases hsplit with hb1 | ⟨hi, hj⟩
    · exact le_of_lt (hstrict i1 j1 t1 v1 e1 e2 hb1)
    · rw [hsame i1 j1 t1 v1 e1 e2 hi hj]
  · rw [if_neg hcond]
    refine ⟨acc, rfl, ?_⟩
    rcases hacc with ⟨h1, h2, h3, hfar⟩ | ⟨a, b, t, w, h1, h2, ht, hw, hb, hmin, hR, hle, hlt⟩
    · refine Or.inl ⟨h1, h2, h3, ?_⟩
      intro i1 j1 t1 v1 e1 e2 hb
      have hsplit : (i1 < i ∨ (i1 = i ∧ j1 < j)) ∨ (i1 = i ∧ j1 = j) := by omega
      rcases hsplit with hb1 | ⟨hi, hj⟩
      · exact hfar i1 j1 t1 v1 e1 e2 hb1
      · rw [hsame i1 j1 t1 v1 e1 e2 hi hj]
        by_contra hle
        exact hcond ⟨not_lt.mp hle, Or.inl h1⟩
    · refine Or.inr ⟨a, b, t, w, h1, h2, ht, hw, by omega, hmin, hR, ?_, hlt⟩
      intro i1 j1 t1 v1 e1 e2 hb1
      have hsplit : (i1 < i ∨ (i1 = i ∧ j1 < j)) ∨ (i1 = i ∧ j1 = j) := by omega
      rcases hsplit with hb2 | ⟨hi, hj⟩
      · exact hle i1 j1 t1 v1 e1 e2 hb2
      · rw [hsame i1 j1 t1 v1 e1 e2 hi hj]
        by_contra hgt
        have hgt2 : lib.distance p v.vertex < lib.distance p w.vertex := not_le.mp hgt
        exact hcond ⟨le_trans (le_of_lt hgt2) hR, Or.inr (by rw [hmin]; exact hgt2)⟩

/-- The inner loop on a triangle with three vertices extends the specification by the
whole triangle. -/
theorem closestInner_spec (lib : MathLib K) (p : Vec2 K) (all : List (Triangle K))
    (i : Nat) (T : Triangle K) (acc : Closest K)
    (hd : ∀ a b : Vec2 K, 0 ≤ lib.distance a b)
    (hT : all[i]? = some T) (h3 : T.vertices.length = 3)
    (hacc : ClosestSpec lib p all i 0 acc) :
    ∃ a : Closest K, closestInner lib p i T acc = some a ∧
      ClosestSpec lib p all (i + 1) 0 a := by
  have e0 : T.vertices[0]? = some (T.vertices.get ⟨0, by omega⟩) :=
    List.getElem?_eq_getElem (by omega)
  have e1 : T.vertices[1]? = some (T.vertices.get ⟨1, by omega⟩) :=
    List.getElem?_eq_getElem (by omega)
  have e2 : T.vertices[2]? = some (T.vertices.get ⟨2, by omega⟩) :=
    List.getElem?_eq_getElem (by omega)
  obtain ⟨a0, h0, s0⟩ := closestStep_spec lib p all i 0 T _ acc hd hT e0 hacc
  obtain ⟨a1, h1, s1⟩ := closestStep_spec lib p all i 1 T _ a0 hd hT e1 s0
  obtain ⟨a2, h2, s2⟩ := closestStep_spec lib p all i 2 T _ a1 hd hT e2 s1
  refine ⟨a2, ?_, s2.mono ?_⟩
  · simp only [closestInner, h0, h1, h2, Option.some_bind]
  · intro a b t v ht hv
    have hb : a = i → b < 3 := by
      intro ha
      subst ha
      rw [hT] at ht
      cases ht
      have := (List.getElem?_eq_some.mp hv).1
      omega
    constructor
    · intro h
      omega
    · intro h
      by_cases ha : a = i
      · exact Or.inr ⟨ha, hb ha⟩
      · omega

/-- The outer loop on a scene of triangles with three vertices each: in the end the
specification covers every vertex of the scene. -/
theorem closestLoop_spec (lib : MathLib K) (p : Vec2 K) (all : List (Triangle K))
    (hd : ∀ a b : Vec2 K, 0 ≤ lib.distance a b)
    (h3 : ∀ t ∈ all, t.vertices.length = 3) (ts : List (Triangle K)) :
    ∀ (i : Nat) (acc : Closest K), all.drop i = ts → ClosestSpec lib p all i 0 acc →
      ∃ r : Closest K, closestLoop lib p ts i acc = some r ∧
        ClosestSpec lib p all all.length 0 r := by
  induction ts with
  | nil =>
    intro i acc hdrop hacc
    have hlen : all.length ≤ i := List.drop_eq_nil_iff.mp hdrop
    refine ⟨acc, rfl, hacc.mono ?_⟩
    intro a b t v ht hv
    have ha : a < all.length := (List.getElem?_eq_some.mp ht).1
    constructor
    · intro _
      exact Or.inl ha
    · intro _
      exact Or.inl (by omega)
  | cons T ts ih =>
    intro i acc hdrop hacc
    have hT : all[i]? = some T := by
      have h : (all.drop i)[0]? = all[i + 0]? := by rw [List.getElem?_drop]
      rw [hdrop] at h
      simpa using h.symm
    have hnext : all.drop (i + 1) = ts := by
      have h : (all.drop i).drop 1 = ts := by rw [hdrop]; rfl
      rw [List.drop_drop] at h
      rw [← h]
    obtain ⟨a, ha, sa⟩ := closestInner_spec lib p all i T acc hd hT
      (h3 T (List.mem_iff_getElem?.mpr ⟨i, hT⟩)) hacc
    obtain ⟨r, hr, sr⟩ := ih (i + 1) a hnext sa
    refine ⟨r, ?_, sr⟩
    simp only [closestLoop, ha, hr]

/-- Claim C17. On a scene whose triangles have three vertices each (the complete triangles),
with a distance that is never negative, `handleSelectClosestVertex(P)` returns, changes
nothing but `selectedVertex`, and leaves it none if and only if no vertex of the scene is
within `RADIUS = 1/10` of `P`; otherwise the selected vertex `v` is within `RADIUS`, no
vertex of the scene is strictly nearer than `v`, and every vertex before `v` in
shape-then-vertex order is strictly farther than `v`. -/
theorem C17_nearest_vertex (lib : MathLib K) (s : State K) (p : Vec2 K)
    (hd : ∀ a b : Vec2 K, 0 ≤ lib.distance a b)
    (h3 : ∀ t ∈ s.triangles, t.vertices.length = 3) :
    ∃ s1 : State K, handleSelectClosestVertex lib s p = some s1 ∧
      s1 = { s with selectedVertex := s1.selectedVertex } ∧
      (s1.selectedVertex = none ↔
        ∀ (i j : Nat) (t : Triangle K) (v : Vertex K), s.triangles[i]? = some t →
          t.vertices[j]? = some v → ¬ lib.distance p v.vertex ≤ RADIUS) ∧
      ∀ i j : Nat, s1.selectedVertex = some (i, j) →
        ∃ (t : Triangle K) (v : Vertex K), s.triangles[i]? = some t ∧
          t.vertices[j]? = some v ∧ lib.distance p v.vertex ≤ RADIUS ∧
          (∀ (i1 j1 : Nat) (t1 : Triangle K) (v1 : Vertex K), s.triangles[i1]? = some t1 →
            t1.vertices[j1]? = some v1 →
            ¬ lib.distance p v1.vertex < lib.distance p v.vertex) ∧
          (∀ (i1 j1 : Nat) (t1 : Triangle K) (v1 : Vertex K), s.triangles[i1]? = some t1 →
            t1.vertices[j1]? = some v1 → (i1 < i ∨ (i1 = i ∧ j1 < j)) →
            lib.distance p v.vertex < lib.distance p v1.vertex) := by
  have hinit : ClosestSpec lib p s.triangles 0 0
      { minLen := -1, triagPos := -1, vertexPos := -1 } :=
    Or.inl ⟨rfl, rfl, rfl, fun i1 j1 _ _ _ _ hb => by omega⟩
  obtain ⟨r, hr, hspec⟩ := closestLoop_spec lib p s.triangles hd h3 s.triangles 0 _ rfl hinit
  have hall : ∀ (i1 j1 : Nat) (t1 : Triangle K) (v1 : Vertex K), s.triangles[i1]? = some t1 →
      t1.vertices[j1]? = some v1 →
      (i1 < s.triangles.length ∨ (i1 = s.triangles.length ∧ j1 < 0)) :=
    fun i1 j1 t1 v1 e1 _ => Or.inl (List.getElem?_eq_some.mp e1).1
  unfold handleSelectClosestVertex
  rw [hr]
  rcases hspec with ⟨-, h2, h3a, hfar⟩ | ⟨a, b, t, v, h1, h2, ht, hv, -, -, hR, hle, hlt⟩
  · have hn : ¬ (r.triagPos ≠ -1 ∧ r.vertexPos ≠ -1) := fun h => h.1 h2
    dsimp only
    rw [if_neg hn]
    refine ⟨_, rfl, rfl, ?_, ?_⟩
    · constructor
      · intro _ i j t v e1 e2
        exact not_le.mpr (hfar i j t v e1 e2 (hall i j t v e1 e2))
      · intro _
        rfl
    · intro i j h
      cases h
  · have hy : r.triagPos ≠ -1 ∧ r.vertexPos ≠ -1 := by
      rw [h1, h2]
      constructor <;> omega
    dsimp only
    rw [if_pos hy]
    have hsel : (some (r.triagPos.toNat, r.vertexPos.toNat) : Option (Nat × Nat)) =
        some (a, b) := by
      rw [h1, h2, Int.toNat_ofNat, Int.toNat_ofNat]
    refine ⟨_, rfl, rfl, ?_, ?_⟩
    · constructor
      · intro h
        dsimp only at h
        cases h
      · intro h
        exact absurd hR (h a b t v ht hv)
    · intro i j h
      dsimp only at h
      rw [hsel] at h
      cases h
      exact ⟨t, v, ht, hv, hR,
        fun i1 j1 t1 v1 e1 e2 => not_lt.mpr (hle i1 j1 t1 v1 e1 e2 (hall i1 j1 t1 v1 e1 e2)),
        hlt⟩

/-- With the larger coordinate difference as distance, the scene of the two triangles
`(0,0)`, `(1,0)`, `(0,1)` and `(2,0)`, `(3,0)`, `(2,1)` and the point `(0,0)`: the pick
selects vertex `0` of triangle `0`, at distance `0`. -/
theorem C17_witness :
    (∀ a b : Vec2 ℚ, 0 ≤ libQ.distance a b) ∧
    (∀ t ∈ (sceneQ AppMode.COLOR_VERTEX
      [triQ ⟨0, 0⟩ ⟨1, 0⟩ ⟨0, 1⟩, triQ ⟨2, 0⟩ ⟨3, 0⟩ ⟨2, 1⟩]).triangles,
        t.vertices.length = 3) ∧
    ∃ s1 : State ℚ, handleSelectClosestVertex libQ (sceneQ AppMode.COLOR_VERTEX
        [triQ ⟨0, 0⟩ ⟨1, 0⟩ ⟨0, 1⟩, triQ ⟨2, 0⟩ ⟨3, 0⟩ ⟨2, 1⟩]) ⟨0, 0⟩ = some s1 ∧
      s1.selectedVertex = some (0, 0) := by
  have hd : ∀ a b : Vec2 ℚ, 0 ≤ libQ.distance a b := by
    intro a b
    exact le_max_of_le_left (abs_nonneg _)
  have h3 : ∀ t ∈ (sceneQ AppMode.COLOR_VERTEX
      [triQ ⟨0, 0⟩ ⟨1, 0⟩ ⟨0, 1⟩, triQ ⟨2, 0⟩ ⟨3, 0⟩ ⟨2, 1⟩]).triangles,
      t.vertices.length = 3 := by
    intro t ht
    have ht2 : t ∈ [triQ ⟨0, 0⟩ ⟨1, 0⟩ ⟨0, 1⟩, triQ ⟨2, 0⟩ ⟨3, 0⟩ ⟨2, 1⟩] := ht
    simp only [List.mem_cons, List.mem_singleton, List.not_mem_nil, or_false] at ht2
    rcases ht2 with e | e <;> rw [e] <;> rfl
  obtain ⟨s1, h1, -, hnone, hsome⟩ := C17_nearest_vertex libQ (sceneQ AppMode.COLOR_VERTEX
      [triQ ⟨0, 0⟩ ⟨1, 0⟩ ⟨0, 1⟩, triQ ⟨2, 0⟩ ⟨3, 0⟩ ⟨2, 1⟩]) ⟨0, 0⟩ hd h3
  have hd0 : libQ.distance ⟨0, 0⟩ (⟨0, 0⟩ : Vec2 ℚ) = 0 := by
    simp [libQ]
  refine ⟨hd, h3, s1, h1, ?_⟩
  cases hs : s1.selectedVertex with
  | none =>
    exfalso
    refine hnone.mp hs 0 0 (triQ ⟨0, 0⟩ ⟨1, 0⟩ ⟨0, 1⟩) ⟨⟨0, 0⟩, white⟩ rfl rfl ?_
    show libQ.distance ⟨0, 0⟩ (⟨0, 0⟩ : Vec2 ℚ) ≤ RADIUS
    rw [hd0]
    norm_num [RADIUS]
  | some ij =>
    obtain ⟨i, j⟩ := ij
    obtain ⟨t, v, -, -, -, -, hlt⟩ := hsome i j hs
    have h00 : ¬ (0 < i ∨ (0 = i ∧ 0 < j)) := by
      intro hb
      have h := hlt 0 0 (triQ ⟨0, 0⟩ ⟨1, 0⟩ ⟨0, 1⟩) ⟨⟨0, 0⟩, white⟩ rfl rfl hb
      have h2 : libQ.distance ⟨0, 0⟩ v.vertex < 0 := lt_of_lt_of_eq h hd0
      exact absurd (hd ⟨0, 0⟩ v.vertex) (not_le.mpr h2)
    have hi : i = 0 := by omega
    have hj : j = 0 := by omega
    rw [hi, hj]

/-! ## What the transforms leave alone -/

theorem Triangle.move_frame (T : Triangle K) (d : Vec2 K) :
    (T.move d).vertices.length = T.vertices.length ∧ (T.move d).colors = T.colors ∧
    (T.move d).fillColor = T.fillColor ∧ (T.move d).outlineColor = T.outlineColor ∧
    (T.move d).complete = T.complete := by
  unfold Triangle.move
  split
  · exact ⟨rfl, rfl, rfl, rfl, rfl⟩
  · refine ⟨List.length_map _ _, ?_, rfl, rfl, rfl⟩
    simp only [Triangle.colors, List.map_map]
    rfl

theorem Triangle.rotate_frame (lib : MathLib K) (T T1 : Triangle K) (a : K)
    (h : T.rotate lib a = some T1) :
    T1.vertices.length = T.vertices.length ∧ T1.colors = T.colors ∧
    T1.fillColor = T.fillColor ∧ T1.outlineColor = T.outlineColor ∧
    T1.complete = T.complete := by
  cases hb : T.barycenter with
  | none => simp [Triangle.rotate, hb] at h
  | some Pc =>
    rw [Triangle.rotate_eq lib T a Pc hb] at h
    cases h
    refine ⟨List.length_map _ _, ?_, rfl, rfl, rfl⟩
    simp only [Triangle.colors, List.map_map]
    rfl

theorem Triangle.scale_frame (T T1 : Triangle K) (f : K) (h : T.scale f = some T1) :
    T1.vertices.length = T.vertices.length ∧ T1.colors = T.colors ∧
    T1.fillColor = T.fillColor ∧ T1.outlineColor = T.outlineColor ∧
    T1.complete = T.complete := by
  by_cases hf : f ≤ 0
  · simp only [Triangle.scale, hf, if_true, Option.some.injEq] at h
    subst h
    exact ⟨rfl, rfl, rfl, rfl, rfl⟩
  · cases hb : T.barycenter with
    | none => simp [Triangle.scale, hf, hb] at h
    | some Pc =>
      rw [Triangle.scale_eq T f (not_le.mp hf) Pc hb] at h
      cases h
      refine ⟨List.length_map _ _, ?_, rfl, rfl, rfl⟩
      simp only [Triangle.colors, List.map_map]
      rfl

/-- Claim C22. For every triangle `T`, angle `a`, factor `f` and delta `d`, the triangles
that `rotate(a)`, `scale(f)` and `move(d)` make of `T` have the number of vertices, the
per-vertex colours, `fillColor`, `outlineColor` and the `complete` flag of `T`; `move`
always returns, and so do `rotate` and `scale` on a triangle with its three vertices. -/
theorem C22_transforms_touch_positions_only (lib : MathLib K) (T : Triangle K) (a f : K)
    (d : Vec2 K) :
    (∀ T1 : Triangle K, T.rotate lib a = some T1 →
      T1.vertices.length = T.vertices.length ∧ T1.colors = T.colors ∧
      T1.fillColor = T.fillColor ∧ T1.outlineColor = T.outlineColor ∧
      T1.complete = T.complete) ∧
    (∀ T2 : Triangle K, T.scale f = some T2 →
      T2.vertices.length = T.vertices.length ∧ T2.colors = T.colors ∧
      T2.fillColor = T.fillColor ∧ T2.outlineColor = T.outlineColor ∧
      T2.complete = T.complete) ∧
    ((T.move d).vertices.length = T.vertices.length ∧ (T.move d).colors = T.colors ∧
      (T.move d).fillColor = T.fillColor ∧ (T.move d).outlineColor = T.outlineColor ∧
      (T.move d).complete = T.complete) ∧
    (3 ≤ T.vertices.length →
      (∃ T1 : Triangle K, T.rotate lib a = some T1) ∧
      (∃ T2 : Triangle K, T.scale f = some T2)) :=
  ⟨fun T1 h => Triangle.rotate_frame lib T T1 a h, fun T2 h => Triangle.scale_frame T T2 f h,
    Triangle.move_frame T d, fun h3 => ⟨total_rotate lib a T h3, total_scale f T h3⟩⟩

/-! ## Containment under translation -/

theorem det_add (A B C d : Vec2 K) : det (A.add d) (B.add d) (C.add d) = det A B C := by
  simp only [det, Vec2.add]
  ring

theorem baryW1_add (A B C P d : Vec2 K) :
    baryW1 (A.add d) (B.add d) (C.add d) (P.add d) = baryW1 A B C P := by
  unfold baryW1
  rw [det_add]
  congr 1
  simp only [Vec2.add]
  ring

theorem baryW2_add (A B C P d : Vec2 K) :
    baryW2 (A.add d) (B.add d) (C.add d) (P.add d) = baryW2 A B C P := by
  unfold baryW2
  rw [baryW1_add]
  simp only [Vec2.add]
  congr 1 <;> ring

theorem isInsideZ_move (z1 z2 : Bool) (T : Triangle K) (d P : Vec2 K) :
    (T.move d).isInsideZ z1 z2 (P.add d) = T.isInsideZ z1 z2 P := by
  cases hc : T.complete with
  | false =>
    simp [Triangle.move, Triangle.isInsideZ, Triangle.isComplete, hc]
  | true =>
    rw [Triangle.move_of_complete T d hc]
    rcases hv : T.vertices with _ | ⟨a, _ | ⟨b, _ | ⟨c, rest⟩⟩⟩
    · simp [Triangle.isInsideZ, Triangle.translated, hv]
    · simp [Triangle.isInsideZ, Triangle.translated, hv]
    · simp [Triangle.isInsideZ, Triangle.translated, hv]
    · have hv1 : (T.translated d).vertices =
          Vertex.mk (a.vertex.add d) a.color :: Vertex.mk (b.vertex.add d) b.color ::
            Vertex.mk (c.vertex.add d) c.color ::
              rest.map (fun v => Vertex.mk (v.vertex.add d) v.color) := by
        simp only [Triangle.translated, hv, List.map_cons]
      rw [Bool.eq_iff_iff, isInsideZ_iff z1 z2 (T.translated d) _ _ _ _
          (show (T.translated d).complete = true from hc) hv1 (P.add d),
        isInsideZ_iff z1 z2 T a b c rest hc hv P]
      have hy : (c.vertex.add d).y - (a.vertex.add d).y = c.vertex.y - a.vertex.y := by
        simp only [Vec2.add]
        ring
      dsimp only
      rw [det_add, baryW1_add, baryW2_add, hy]

/-- Claim C24. For every triangle `T`, delta `d` and point `P`, `isInside` on `T` after
`move(d)` at the point `P + d` equals `isInside` on `T` at `P`, also when the triangle is
degenerate or `C.y = A.y` (then both are false), whatever sign a zero divisor has. -/
theorem C24_isInside_translation_invariant (T : Triangle K) (d P : Vec2 K) :
    (T.move d).isInside (P.add d) = T.isInside P ∧
    ∀ z1 z2 : Bool, (T.move d).isInsideZ z1 z2 (P.add d) = T.isInsideZ z1 z2 P :=
  ⟨isInsideZ_move false false T d P, fun z1 z2 => isInsideZ_move z1 z2 T d P⟩

/-! ## Distances under rotation and scaling -/

theorem dist2_rotAbout (Pc a b : Vec2 K) (c s : K) (h1 : c ^ 2 + s ^ 2 = 1) :
    dist2 (rotAbout Pc c s a) (rotAbout Pc c s b) = dist2 a b := by
  simp only [dist2, rotAbout]
  linear_combination ((a.x - b.x) ^ 2 + (a.y - b.y) ^ 2) * h1

theorem rotAbout_self (Pc : Vec2 K) (c s : K) : rotAbout Pc c s Pc = Pc := by
  cases Pc with
  | mk x y => simp only [rotAbout, sub_self, zero_mul, sub_zero, zero_add, add_zero]

theorem dist2_scaleAbout (Pc a b : Vec2 K) (f : K) :
    dist2 (scaleAbout Pc f a) (scaleAbout Pc f b) = f ^ 2 * dist2 a b := by
  simp only [dist2, scaleAbout]
  ring

theorem scaleAbout_self (Pc : Vec2 K) (f : K) : scaleAbout Pc f Pc = Pc := by
  cases Pc with
  | mk x y => simp only [scaleAbout, sub_self, mul_zero, add_zero]

/-- Claim C25. On a triangle with three vertices and centroid `Pc`, `rotate(a)` with
`cos² a + sin² a = 1` keeps the centroid and the squared distance between every pair of
vertices and between each vertex and the centroid; `scale(f)` with `f > 0` keeps the
centroid and multiplies each of those squared distances by `f²`. -/
theorem C25_rotation_rigid (lib : MathLib K) (T : Triangle K) (v0 v1 v2 : Vertex K)
    (hv : T.vertices = [v0, v1, v2]) (a f : K)
    (h1 : lib.cosDeg a ^ 2 + lib.sinDeg a ^ 2 = 1) (hf : 0 < f) :
    ∃ (Pc : Vec2 K) (T1 T2 : Triangle K), T.barycenter = some Pc ∧
      T.rotate lib a = some T1 ∧ T.scale f = some T2 ∧
      T1.barycenter = some Pc ∧ T2.barycenter = some Pc ∧
      (∀ (i j : Nat) (u w u1 w1 : Vertex K), T.vertices[i]? = some u →
        T.vertices[j]? = some w → T1.vertices[i]? = some u1 → T1.vertices[j]? = some w1 →
        dist2 u1.vertex w1.vertex = dist2 u.vertex w.vertex ∧
        dist2 u1.vertex Pc = dist2 u.vertex Pc) ∧
      (∀ (i j : Nat) (u w u2 w2 : Vertex K), T.vertices[i]? = some u →
        T.vertices[j]? = some w → T2.vertices[i]? = some u2 → T2.vertices[j]? = some w2 →
        dist2 u2.vertex w2.vertex = f ^ 2 * dist2 u.vertex w.vertex ∧
        dist2 u2.vertex Pc = f ^ 2 * dist2 u.vertex Pc) := by
  have hb := T.barycenter_three v0 v1 v2 hv
  refine ⟨_, _, _, hb, T.rotate_eq lib a _ hb, T.scale_eq f hf _ hb, ?_, ?_, ?_, ?_⟩
  · simp only [hv, List.map_cons, List.map_nil]
    rw [Triangle.barycenter_three _ _ _ _ rfl]
    simp only [centroid3_rotAbout]
  · simp only [hv, List.map_cons, List.map_nil]
    rw [Triangle.barycenter_three _ _ _ _ rfl]
    simp only [centroid3_scaleAbout]
  · intro i j u w u1 w1 hu hw hu1 hw1
    dsimp only at hu1 hw1
    rw [List.getElem?_map, hu] at hu1
    rw [List.getElem?_map, hw] at hw1
    cases hu1
    cases hw1
    dsimp only
    refine ⟨dist2_rotAbout _ _ _ _ _ h1, ?_⟩
    have h := dist2_rotAbout (centroid3 v0.vertex v1.vertex v2.vertex) u.vertex
      (centroid3 v0.vertex v1.vertex v2.vertex) _ _ h1
    rw [rotAbout_self] at h
    exact h
  · intro i j u w u2 w2 hu hw hu2 hw2
    dsimp only at hu2 hw2
    rw [List.getElem?_map, hu] at hu2
    rw [List.getElem?_map, hw] at hw2
    cases hu2
    cases hw2
    dsimp only
    refine ⟨dist2_scaleAbout _ _ _ _, ?_⟩
    have h := dist2_scaleAbout (centroid3 v0.vertex v1.vertex v2.vertex) u.vertex
      (centroid3 v0.vertex v1.vertex v2.vertex) f
    rw [scaleAbout_self] at h
    exact h

/-- The triangle `(0,0)`, `(3,0)`, `(0,3)` with centroid `(1,1)`: rotated with cosine `4/5`
and sine `3/5` its first two vertices are still at squared distance `9`, scaled by `2` they
are at squared distance `36`. -/
theorem C25_witness :
    ∃ (T1 T2 : Triangle ℚ) (u1 w1 u2 w2 : Vertex ℚ),
      (triQ ⟨0, 0⟩ ⟨3, 0⟩ ⟨0, 3⟩).rotate libQ 10 = some T1 ∧
      (triQ ⟨0, 0⟩ ⟨3, 0⟩ ⟨0, 3⟩).scale 2 = some T2 ∧
      T1.vertices[0]? = some u1 ∧ T1.vertices[1]? = some w1 ∧
      T2.vertices[0]? = some u2 ∧ T2.vertices[1]? = some w2 ∧
      dist2 u1.vertex w1.vertex = 9 ∧ dist2 u2.vertex w2.vertex = 36 ∧
      dist2 u1.vertex ⟨1, 1⟩ = 2 ∧ dist2 u2.vertex ⟨1, 1⟩ = 8 := by
  obtain ⟨Pc, T1, T2, hb, hr, hs, -, -, hrot, hsc⟩ := C25_rotation_rigid libQ
    (triQ ⟨0, 0⟩ ⟨3, 0⟩ ⟨0, 3⟩) ⟨⟨0, 0⟩, white⟩ ⟨⟨3, 0⟩, white⟩ ⟨⟨0, 3⟩, white⟩ rfl 10 2
    (by norm_num [libQ]) (by norm_num)
  have hPc : Pc = ⟨1, 1⟩ := by
    have h : (triQ ⟨0, 0⟩ ⟨3, 0⟩ ⟨0, 3⟩).barycenter = some ⟨1, 1⟩ := by
      simp [triQ, Triangle.barycenter]
    rw [h] at hb
    exact (Option.some.inj hb).symm
  subst hPc
  have l1 := (Triangle.rotate_frame libQ _ T1 10 hr).1
  have l2 := (Triangle.scale_frame _ T2 2 hs).1
  have l0 : (triQ ⟨0, 0⟩ ⟨3, 0⟩ ⟨0, 3⟩).vertices.length = 3 := rfl
  have e0 : T1.vertices[0]? = some (T1.vertices.get ⟨0, by omega⟩) :=
    List.getElem?_eq_getElem (by omega)
  have e1 : T1.vertices[1]? = some (T1.vertices.get ⟨1, by omega⟩) :=
    List.getElem?_eq_getElem (by omega)
  have g0 : T2.vertices[0]? = some (T2.vertices.get ⟨0, by omega⟩) :=
    List.getElem?_eq_getElem (by omega)
  have g1 : T2.vertices[1]? = some (T2.vertices.get ⟨1, by omega⟩) :=
    List.getElem?_eq_getElem (by omega)
  obtain ⟨r1, r2⟩ := hrot 0 1 ⟨⟨0, 0⟩, white⟩ ⟨⟨3, 0⟩, white⟩ _ _ rfl rfl e0 e1
  obtain ⟨q1, q2⟩ := hsc 0 1 ⟨⟨0, 0⟩, white⟩ ⟨⟨3, 0⟩, white⟩ _ _ rfl rfl g0 g1
  refine ⟨T1, T2, _, _, _, _, hr, hs, e0, e1, g0, g1, ?_, ?_, ?_, ?_⟩
  · rw [r1]; norm_num [dist2]
  · rw [q1]; norm_num [dist2]
  · rw [r2]; norm_num [dist2]
  · rw [q2]; norm_num [dist2]

/-! ## Drawing with the rubber-band vertex -/

theorem set_last_eq {α : Type} (l : List α) (a x : α) (h : l.getLast? = some a) :
    l.set (l.length - 1) x = l.dropLast ++ [x] := by
  have hl : l.dropLast ++ [a] = l := List.dropLast_append_getLast? a (by rw [h]; rfl)
  obtain ⟨d, rfl⟩ : ∃ d, l = d ++ [a] := ⟨l.dropLast, hl.symm⟩
  rw [List.dropLast_concat, List.length_append, List.length_singleton, Nat.add_sub_cancel,
    List.set_append_right _ _ (le_refl _), Nat.sub_self]
  rfl

/-- What `handleInsertionMove` does while a draw is in progress: the last vertex of the last
triangle gets the position `p` and keeps its colour. -/
theorem handleInsertionMove_drawing (s : State K) (p : Vec2 K) (t : Triangle K)
    (v : Vertex K) (hd : s.DrawingsInProgress = true) (ht : s.triangles.getLast? = some t)
    (hv : t.vertices.getLast? = some v) :
    handleInsertionMove s p = some { s with
      triangles := s.triangles.dropLast ++
        [{ t with vertices := t.vertices.dropLast ++ [Vertex.mk p v.color] }] } := by
  have hv1 : t.vertices[t.size - 1]? = some v := by
    rw [← hv, List.getLast?_eq_getElem?]
    rfl
  simp only [handleInsertionMove, hd, if_true, ht, hv1]
  rw [set_last_eq s.triangles t _ ht]
  show some _ = some _
  rw [show t.size = t.vertices.length from rfl, set_last_eq t.vertices v _ hv]

/-- Claim C21. From the initial state the events press `p1`, move `p2`, press `p2`, move
`p3`, press `p3` leave exactly one triangle, complete, with the vertices `p1`, `p2`, `p3`
in that order, and the draw-in-progress flag clear.  A pointer move with the flag clear
changes nothing; with the flag set it replaces the position of the last vertex of the last
triangle by the pointer position and changes nothing else, so no vertex count changes. -/
theorem C21_rubber_band (lib : MathLib K) (p1 p2 p3 : Vec2 K) :
    (∃ s : State K, run lib State.init
        [Event.button Button.LEFT Action.PRESS p1, Event.move p2,
         Event.button Button.LEFT Action.PRESS p2, Event.move p3,
         Event.button Button.LEFT Action.PRESS p3] = some s ∧
      s.triangles = [{ vertices := [⟨p1, white⟩, ⟨p2, white⟩, ⟨p3, white⟩], complete := true,
                       fillColor := white, outlineColor := black }] ∧
      s.DrawingsInProgress = false ∧ s.curMode = AppMode.INSERTION) ∧
    (∀ (s : State K) (p : Vec2 K),
      (s.DrawingsInProgress = false → handleInsertionMove s p = some s) ∧
      (s.DrawingsInProgress = true → ∀ (t : Triangle K) (v : Vertex K),
        s.triangles.getLast? = some t → t.vertices.getLast? = some v →
        handleInsertionMove s p = some { s with
          triangles := s.triangles.dropLast ++
            [{ t with vertices := t.vertices.dropLast ++ [Vertex.mk p v.color] }] } ∧
        (s.triangles.dropLast ++
          [{ t with vertices := t.vertices.dropLast ++ [Vertex.mk p v.color] }]).length
            = s.triangles.length ∧
        (t.vertices.dropLast ++ [Vertex.mk p v.color]).length = t.vertices.length)) := by
  constructor
  · exact ⟨_, rfl, rfl, rfl, rfl⟩
  · intro s p
    constructor
    · intro hd
      simp only [handleInsertionMove, hd, Bool.false_eq_true, if_false]
    · intro hd t v ht hv
      refine ⟨handleInsertionMove_drawing s p t v hd ht hv, ?_, ?_⟩
      · have h1 : s.triangles ≠ [] := by
          intro h
          rw [h] at ht
          cases ht
        have := List.length_pos.mpr h1
        simp only [List.length_append, List.length_dropLast, List.length_singleton]
        omega
      · have h1 : t.vertices ≠ [] := by
          intro h
          rw [h] at hv
          cases hv
        have := List.length_pos.mpr h1
        simp only [List.length_append, List.length_dropLast, List.length_singleton]
        omega

/-! ## Drafts stay last, and no index leaves its range -/

/-- Claim C23. In the state reached from the initial state by any sequence of events (every
sequence is handled without a read out of range): every triangle but the last is complete;
the last is incomplete only in insertion mode with the draw-in-progress flag set; with the
flag set the mode is insertion, the scene is not empty and its last triangle has at least
two vertices.  So `handleInsertionMove` reads in range, in colour mode
`handleSelectClosestVertex` does, the selected triangle has a centroid and `rotate` and
`scale` return on it, `runAnimation` returns, and every further event is handled. -/
theorem C23_draft_confinement (lib : MathLib K) (es : List (Event K)) :
    ∃ s : State K, run lib State.init es = some s ∧
      (∀ (i : Nat) (t : Triangle K), s.triangles[i]? = some t →
        i + 1 < s.triangles.length → t.complete = true ∧ t.vertices.length = 3) ∧
      (∀ t : Triangle K, s.triangles.getLast? = some t → t.complete = false →
        s.curMode = AppMode.INSERTION ∧ s.DrawingsInProgress = true) ∧
      (s.DrawingsInProgress = true → s.curMode = AppMode.INSERTION ∧ s.triangles ≠ [] ∧
        ∃ t : Triangle K, s.triangles.getLast? = some t ∧ 2 ≤ t.vertices.length) ∧
      (∀ p : Vec2 K, ∃ s1 : State K, handleInsertionMove s p = some s1) ∧
      (s.curMode = AppMode.COLOR_VERTEX →
        (∀ t ∈ s.triangles, t.vertices.length = 3) ∧
        ∀ p : Vec2 K, ∃ s1 : State K, handleSelectClosestVertex lib s p = some s1) ∧
      (∀ i : Nat, s.selectedTriangle = some i → ∃ t : Triangle K, s.triangles[i]? = some t ∧
        t.vertices.length = 3 ∧ (∃ c : Vec2 K, t.barycenter = some c) ∧
        ∀ a f : K, (∃ t1 : Triangle K, t.rotate lib a = some t1) ∧
          ∃ t2 : Triangle K, t.scale f = some t2) ∧
      (∃ s1 : State K, runAnimation s = some s1) ∧
      (∀ e : Event K, ∃ s1 : State K, step lib s e = some s1) := by
  obtain ⟨s, hrun, hr⟩ := reachable_run_total es (Reachable.init : Reachable lib State.init)
  have hs := reachable_inv hr
  have ha := reachable_animOK hr
  refine ⟨s, hrun, ?_, ?_, ?_, fun p => total_handleInsertionMove p hs, ?_, ?_,
    total_runAnimation hs ha, fun e => total_step lib e hs ha⟩
  · intro i t hi hlt
    have hc : t.complete = true := by
      cases hc : t.complete with
      | true => rfl
      | false =>
        have := (hs.draft i t hi hc).1
        omega
    exact ⟨hc, hs.three_of_complete i t hi hc⟩
  · intro t ht hc
    rw [List.getLast?_eq_getElem?] at ht
    exact (hs.draft _ t ht hc).2
  · intro hd
    obtain ⟨t, hl, hi⟩ := hs.last_of_draw hd
    exact ⟨(hs.draw hd).1, (hs.draw hd).2, t, hl, hs.two_le _ t hi⟩
  · intro hm
    have h3 : ∀ t ∈ s.triangles, t.vertices.length = 3 := by
      intro t ht
      obtain ⟨n, hn⟩ := List.mem_iff_getElem?.mp ht
      exact hs.three_of_complete n t hn
        (hs.all_complete (Or.inl (by rw [hm]; decide)) n t hn)
    exact ⟨h3, fun p => total_handleSelectClosestVertex lib p hs hm⟩
  · intro i hsel
    obtain ⟨hm, hi⟩ := hs.selT i hsel
    have hget : s.triangles[i]? = some (s.triangles.get ⟨i, hi⟩) :=
      List.getElem?_eq_getElem hi
    have h3 := hs.three_of_complete i _ hget
      (hs.all_complete (Or.inl (by rw [hm]; decide)) i _ hget)
    exact ⟨_, hget, h3, Triangle.barycenter_isSome _ (by omega),
      fun a f => ⟨total_rotate lib a _ (by omega), total_scale f _ (by omega)⟩⟩

/-! ## Degenerate triangles on the machine -/

theorem Dbl.round_not_finite (r : K → K) (big : K) (d : Dbl K) (h : d.isFinite = false) :
    (Dbl.round r big d).isFinite = false := by
  cases d <;> simp_all [Dbl.round, Dbl.isFinite]

theorem Dbl.mul_not_finite_left (w d : Dbl K) (h : w.isFinite = false) :
    (Dbl.mul w d).isFinite = false := by
  cases w <;> cases d <;> simp only [Dbl.mul, Dbl.isFinite] at h ⊢ <;>
    first | contradiction | rfl | (split_ifs <;> rfl)

theorem Dbl.sub_not_finite_right (a w : Dbl K) (h : w.isFinite = false) :
    (Dbl.sub a w).isFinite = false := by
  cases a <;> cases w <;> simp_all [Dbl.sub, Dbl.isFinite]

theorem Dbl.div_not_finite_left (z : Bool) (w d : Dbl K) (h : w.isFinite = false) :
    (Dbl.div z w d).isFinite = false := by
  cases w <;> cases d <;> simp only [Dbl.div, Dbl.isFinite] at h ⊢ <;>
    first | contradiction | rfl | (split_ifs <;> rfl)

/-- The final test of `isInsideF` fails as soon as `w2` is an infinity or `NaN`. -/
theorem Dbl.test_round_not_finite (r : K → K) (big : K) (w1 w2 : Dbl K)
    (h2 : w2.isFinite = false) :
    (Dbl.le (.fin 0) w1 && Dbl.le (.fin 0) w2 &&
      Dbl.le (Dbl.round r big (Dbl.add w1 w2)) (.fin 1)) = false := by
  cases w1 <;> cases w2 <;> simp_all [Dbl.le, Dbl.add, Dbl.isFinite, Dbl.round]

theorem Dbl.mul_swap (a b : Dbl K) : Dbl.mul a b = Dbl.mul b a := by
  cases a <;> cases b <;> simp only [Dbl.mul, mul_comm]

theorem maxF32_pos : (0 : K) < maxF32 := by
  unfold maxF32
  norm_num

theorem Dbl.round_zero (r : K → K) (big : K) (hr : r 0 = 0) (hb : 0 < big) :
    Dbl.round r big (.fin 0) = .fin 0 := by
  have h1 : ¬ big < 0 := not_lt.mpr (le_of_lt hb)
  have h2 : ¬ (0 : K) < -big := by
    intro h
    linarith
  simp only [Dbl.round, hr, h1, h2, if_false]

theorem Dbl.round_zn (r : K → K) (big : K) (hr : r 0 = 0) (hb : 0 < big) (d : Dbl K)
    (h : d = .fin 0 ∨ d = .nan) :
    Dbl.round r big d = .fin 0 ∨ Dbl.round r big d = .nan := by
  rcases h with h | h
  · rw [h, Dbl.round_zero r big hr hb]
    exact Or.inl rfl
  · rw [h]
    exact Or.inr rfl

theorem Dbl.mul_zero_zn (d : Dbl K) :
    Dbl.mul (.fin 0) d = .fin 0 ∨ Dbl.mul (.fin 0) d = .nan := by
  cases d <;> simp [Dbl.mul]

theorem Dbl.sub_zn (a b : Dbl K) (ha : a = .fin 0 ∨ a = .nan) (hb : b = .fin 0 ∨ b = .nan) :
    Dbl.sub a b = .fin 0 ∨ Dbl.sub a b = .nan := by
  rcases ha with ha | ha <;> rcases hb with hb | hb <;> rw [ha, hb] <;> simp [Dbl.sub]

theorem Dbl.sub_self_zn (v : Dbl K) : Dbl.sub v v = .fin 0 ∨ Dbl.sub v v = .nan := by
  cases v <;> simp [Dbl.sub]

theorem Dbl.div_zn_not_finite (z : Bool) (n d : Dbl K) (h : d = .fin 0 ∨ d = .nan) :
    (Dbl.div z n d).isFinite = false := by
  rcases h with h | h <;> rw [h] <;> cases n <;> simp only [Dbl.div, Dbl.isFinite] <;>
    first | rfl | (split_ifs <;> rfl)

/-- What `isInsideF` computes on a complete triangle with its three corners, by the value
`den` of the divisor of `w1`: when that value is zero or `NaN` the result is false. -/
theorem isInsideF_of_den (lib : MathLib K) (z1 z2 : Bool) (T : Triangle K) (a b c : Vertex K)
    (rest : List (Vertex K)) (hv : T.vertices = a :: b :: c :: rest) (P : Vec2 K)
    (hden : Dbl.round lib.f32 maxF32 (Dbl.sub
        (Dbl.round lib.f32 maxF32 (Dbl.mul
          (Dbl.round lib.f32 maxF32 (Dbl.sub (.fin b.vertex.y) (.fin a.vertex.y)))
          (Dbl.round lib.f32 maxF32 (Dbl.sub (.fin c.vertex.x) (.fin a.vertex.x)))))
        (Dbl.round lib.f32 maxF32 (Dbl.mul
          (Dbl.round lib.f32 maxF32 (Dbl.sub (.fin b.vertex.x) (.fin a.vertex.x)))
          (Dbl.round lib.f32 maxF32 (Dbl.sub (.fin c.vertex.y) (.fin a.vertex.y)))))) = .fin 0 ∨
      Dbl.round lib.f32 maxF32 (Dbl.sub
        (Dbl.round lib.f32 maxF32 (Dbl.mul
          (Dbl.round lib.f32 maxF32 (Dbl.sub (.fin b.vertex.y) (.fin a.vertex.y)))
          (Dbl.round lib.f32 maxF32 (Dbl.sub (.fin c.vertex.x) (.fin a.vertex.x)))))
        (Dbl.round lib.f32 maxF32 (Dbl.mul
          (Dbl.round lib.f32 maxF32 (Dbl.sub (.fin b.vertex.x) (.fin a.vertex.x)))
          (Dbl.round lib.f32 maxF32 (Dbl.sub (.fin c.vertex.y) (.fin a.vertex.y)))))) = .nan) :
    T.isInsideF lib z1 z2 P = false := by
  unfold Triangle.isInsideF
  split
  · rfl
  · simp only [hv]
    apply Dbl.test_round_not_finite
    apply Dbl.round_not_finite
    apply Dbl.div_not_finite_left
    apply Dbl.round_not_finite
    apply Dbl.sub_not_finite_right
    apply Dbl.round_not_finite
    apply Dbl.mul_not_finite_left
    apply Dbl.round_not_finite
    exact Dbl.div_zn_not_finite z1 _ _ hden

/-- On the machine a complete triangle with two equal corners contains no point: the
divisor of `w1` is computed as zero (or `NaN`), whatever the rounding does to non-zero
values. -/
theorem isInsideF_of_coincide (lib : MathLib K) (hr : lib.f32 0 = 0) (z1 z2 : Bool)
    (T : Triangle K) (a b c : Vertex K) (rest : List (Vertex K))
    (hv : T.vertices = a :: b :: c :: rest)
    (hdeg : a.vertex = b.vertex ∨ b.vertex = c.vertex ∨ a.vertex = c.vertex) (P : Vec2 K) :
    T.isInsideF lib z1 z2 P = false := by
  apply isInsideF_of_den lib z1 z2 T a b c rest hv P
  have hz := Dbl.round_zero lib.f32 maxF32 hr maxF32_pos
  rcases hdeg with h | h | h
  · rw [h]
    simp only [Dbl.sub, sub_self, hz]
    apply Dbl.round_zn _ _ hr maxF32_pos
    apply Dbl.sub_zn
    · exact Dbl.round_zn _ _ hr maxF32_pos _ (Dbl.mul_zero_zn _)
    · exact Dbl.round_zn _ _ hr maxF32_pos _ (Dbl.mul_zero_zn _)
  · rw [h]
    rw [Dbl.mul_swap (Dbl.round lib.f32 maxF32 (Dbl.sub (.fin c.vertex.x) (.fin a.vertex.x)))]
    exact Dbl.round_zn _ _ hr maxF32_pos _ (Dbl.sub_self_zn _)
  · rw [h]
    simp only [Dbl.sub, sub_self, hz]
    apply Dbl.round_zn _ _ hr maxF32_pos
    apply Dbl.sub_zn
    · rw [Dbl.mul_swap]
      exact Dbl.round_zn _ _ hr maxF32_pos _ (Dbl.mul_zero_zn _)
    · rw [Dbl.mul_swap]
      exact Dbl.round_zn _ _ hr maxF32_pos _ (Dbl.mul_zero_zn _)

theorem maxF64_pos : (0 : K) < maxF64 := by
  unfold maxF64
  norm_num

theorem Dbl.round_fin (r : K → K) (big : K) (x y : K) (h : r x = y) (h1 : y ≤ big)
    (h2 : -big ≤ y) : Dbl.round r big (.fin x) = .fin y := by
  simp only [Dbl.round, h, not_lt.mpr h1, not_lt.mpr h2, if_false]

/-- One `float` operation on the machine whose exact result is the finite value `x`: the
result is `roundF32 x` (values up to `2 ^ 100` are far from the overflow threshold). -/
theorem round32_step (d : Dbl ℚ) (x y : ℚ) (hd : d = .fin x) (hr : roundF32 x = y)
    (hy : |y| ≤ 2 ^ 100) : Dbl.round libF.f32 maxF32 d = .fin y := by
  have hm : (2 : ℚ) ^ 100 ≤ maxF32 := by
    unfold maxF32
    norm_num
  have h := abs_le.mp hy
  rw [hd]
  exact Dbl.round_fin _ _ x y hr (by linarith [h.2]) (by linarith [h.1])

/-- One `double` operation on the machine whose exact result is the finite value `x`. -/
theorem round64_step (d : Dbl ℚ) (x y : ℚ) (hd : d = .fin x) (hr : roundF64 x = y)
    (hy : |y| ≤ 2 ^ 100) : Dbl.round libF.f64 maxF64 d = .fin y := by
  have hm : (2 : ℚ) ^ 100 ≤ maxF64 := by
    unfold maxF64
    norm_num
  have h := abs_le.mp hy
  rw [hd]
  exact Dbl.round_fin _ _ x y hr (by linarith [h.2]) (by linarith [h.1])

/-- The evaluation of `isInsideF` on a complete triangle with its three corners, operation
by operation, in the order of the source: the five `float` differences, the numerator and
the divisor of `w1`, `w1`, then `w2` and the sum in `double`. -/
theorem isInsideF_eval (lib : MathLib K) (z1 z2 : Bool) (T : Triangle K) (a b c : Vertex K)
    (rest : List (Vertex K)) (hc : T.complete = true) (hv : T.vertices = a :: b :: c :: rest)
    (P : Vec2 K)
    (cyay cxax byay bxax pyay m1 m2 s1 m3 num m4 m5 den w1 t1 t2 w2 sm : Dbl K)
    (e1 : Dbl.round lib.f32 maxF32 (Dbl.sub (.fin c.vertex.y) (.fin a.vertex.y)) = cyay)
    (e2 : Dbl.round lib.f32 maxF32 (Dbl.sub (.fin c.vertex.x) (.fin a.vertex.x)) = cxax)
    (e3 : Dbl.round lib.f32 maxF32 (Dbl.sub (.fin b.vertex.y) (.fin a.vertex.y)) = byay)
    (e4 : Dbl.round lib.f32 maxF32 (Dbl.sub (.fin b.vertex.x) (.fin a.vertex.x)) = bxax)
    (e5 : Dbl.round lib.f32 maxF32 (Dbl.sub (.fin P.y) (.fin a.vertex.y)) = pyay)
    (e6 : Dbl.round lib.f32 maxF32 (Dbl.mul (.fin a.vertex.x) cyay) = m1)
    (e7 : Dbl.round lib.f32 maxF32 (Dbl.mul pyay cxax) = m2)
    (e8 : Dbl.round lib.f32 maxF32 (Dbl.add m1 m2) = s1)
    (e9 : Dbl.round lib.f32 maxF32 (Dbl.mul (.fin P.x) cyay) = m3)
    (e10 : Dbl.round lib.f32 maxF32 (Dbl.sub s1 m3) = num)
    (e11 : Dbl.round lib.f32 maxF32 (Dbl.mul byay cxax) = m4)
    (e12 : Dbl.round lib.f32 maxF32 (Dbl.mul bxax cyay) = m5)
    (e13 : Dbl.round lib.f32 maxF32 (Dbl.sub m4 m5) = den)
    (e14 : Dbl.round lib.f32 maxF32 (Dbl.div z1 num den) = w1)
    (e15 : Dbl.round lib.f64 maxF64 (Dbl.mul w1 byay) = t1)
    (e16 : Dbl.round lib.f64 maxF64 (Dbl.sub pyay t1) = t2)
    (e17 : Dbl.round lib.f64 maxF64 (Dbl.div z2 t2 cyay) = w2)
    (e18 : Dbl.round lib.f64 maxF64 (Dbl.add w1 w2) = sm) :
    T.isInsideF lib z1 z2 P =
      (Dbl.le (.fin 0) w1 && Dbl.le (.fin 0) w2 && Dbl.le sm (.fin 1)) := by
  subst e1 e2 e3 e4 e5 e6 e7 e8 e9 e10 e11 e12 e13 e14 e15 e16 e17 e18
  simp only [Triangle.isInsideF, Triangle.isComplete, hc, hv, Bool.not_true,
    Bool.false_eq_true, if_false]

/-! ### A triangle on one line that contains its corner -/

theorem line_f32_0 : roundF32 (-16777215) = (-16777215) := by
  rw [roundF32, roundBin_eval 24 (-149) _ 23 0 (-16777215)
    (by rw [abs_of_neg (by norm_num)]; norm_num) (by rw [abs_of_neg (by norm_num)]; norm_num)
    (by norm_num)
    (roundEven_of_lt _ (-16777215) (by norm_num) (by norm_num))]
  norm_num

theorem line_f32_1 : roundF32 0 = 0 := by
  rw [roundF32]
  exact roundBin_zero _ _

theorem line_f32_2 : roundF32 2 = 2 := by
  rw [roundF32, roundBin_eval 24 (-149) _ 1 (-22) 8388608
    (by rw [abs_of_pos (by norm_num)]; norm_num) (by rw [abs_of_pos (by norm_num)]; norm_num)
    (by norm_num)
    (roundEven_of_lt _ 8388608 (by norm_num) (by norm_num))]
  norm_num

theorem line_f32_3 : roundF32 1 = 1 := by
  rw [roundF32, roundBin_eval 24 (-149) _ 0 (-23) 8388608
    (by rw [abs_of_pos (by norm_num)]; norm_num) (by rw [abs_of_pos (by norm_num)]; norm_num)
    (by norm_num)
    (roundEven_of_lt _ 8388608 (by norm_num) (by norm_num))]
  norm_num

theorem line_f32_4 : roundF32 33554436 = 33554436 := by
  rw [roundF32, roundBin_eval 24 (-149) _ 25 2 8388609
    (by rw [abs_of_pos (by norm_num)]; norm_num) (by rw [abs_of_pos (by norm_num)]; norm_num)
    (by norm_num)
    (roundEven_of_lt _ 8388609 (by norm_num) (by norm_num))]
  norm_num

theorem line_f32_5 : roundF32 3 = 3 := by
  rw [roundF32, roundBin_eval 24 (-149) _ 1 (-22) 12582912
    (by rw [abs_of_pos (by norm_num)]; norm_num) (by rw [abs_of_pos (by norm_num)]; norm_num)
    (by norm_num)
    (roundEven_of_lt _ 12582912 (by norm_num) (by norm_num))]
  norm_num

theorem line_f32_6 : roundF32 50331651 = 50331652 := by
  rw [roundF32, roundBin_eval 24 (-149) _ 25 2 12582913
    (by rw [abs_of_pos (by norm_num)]; norm_num) (by rw [abs_of_pos (by norm_num)]; norm_num)
    (by norm_num)
    ((roundEven_of_gt _ 12582912 (by norm_num) (by norm_num)).trans (by norm_num))]
  norm_num

theorem line_f32_7 : roundF32 16777217 = 16777216 := by
  rw [roundF32, roundBin_eval 24 (-149) _ 24 1 8388608
    (by rw [abs_of_pos (by norm_num)]; norm_num) (by rw [abs_of_pos (by norm_num)]; norm_num)
    (by norm_num)
    (roundEven_half_even _ 8388608 (by norm_num) (by norm_num))]
  norm_num

theorem line_f32_8 : roundF32 (-50331645) = (-50331644) := by
  rw [roundF32, roundBin_eval 24 (-149) _ 25 2 (-12582911)
    (by rw [abs_of_neg (by norm_num)]; norm_num) (by rw [abs_of_neg (by norm_num)]; norm_num)
    (by norm_num)
    ((roundEven_of_gt _ (-12582912) (by norm_num) (by norm_num)).trans (by norm_num))]
  norm_num

theorem line_f32_9 : roundF32 (-50331644) = (-50331644) := by
  rw [roundF32, roundBin_eval 24 (-149) _ 25 2 (-12582911)
    (by rw [abs_of_neg (by norm_num)]; norm_num) (by rw [abs_of_neg (by norm_num)]; norm_num)
    (by norm_num)
    (roundEven_of_lt _ (-12582911) (by norm_num) (by norm_num))]
  norm_num

theorem line_f32_10 : roundF32 50331652 = 50331652 := by
  rw [roundF32, roundBin_eval 24 (-149) _ 25 2 12582913
    (by rw [abs_of_pos (by norm_num)]; norm_num) (by rw [abs_of_pos (by norm_num)]; norm_num)
    (by norm_num)
    (roundEven_of_lt _ 12582913 (by norm_num) (by norm_num))]
  norm_num

theorem line_f32_11 : roundF32 50331648 = 50331648 := by
  rw [roundF32, roundBin_eval 24 (-149) _ 25 2 12582912
    (by rw [abs_of_pos (by norm_num)]; norm_num) (by rw [abs_of_pos (by norm_num)]; norm_num)
    (by norm_num)
    (roundEven_of_lt _ 12582912 (by norm_num) (by norm_num))]
  norm_num

theorem line_f32_12 : roundF32 4 = 4 := by
  rw [roundF32, roundBin_eval 24 (-149) _ 2 (-21) 8388608
    (by rw [abs_of_pos (by norm_num)]; norm_num) (by rw [abs_of_pos (by norm_num)]; norm_num)
    (by norm_num)
    (roundEven_of_lt _ 8388608 (by norm_num) (by norm_num))]
  norm_num

theorem line_f64_13 : roundF64 0 = 0 := by
  rw [roundF64]
  exact roundBin_zero _ _

/-- Claim C3, as stated, fails on the machine. The corners `(-16777215, 0)`, `(2, 1)`,
`(33554436, 3)` of the complete triangle `flatQ` are `float`s on one line, but the `float`
divisor of `w1` is `50331652 - 50331648 = 4`, since `C.x - A.x = 50331651` and
`B.x - A.x = 16777217` are rounded: `isInside` is true at the first corner
(`w1 = w2 = 0`). -/
theorem C3_counterexample :
    flatQ.positions =
      [⟨-16777215, 0⟩, ⟨2, 1⟩,
        ⟨33554436, 3⟩] ∧
    flatQ.complete = true ∧
    collinear (⟨-16777215, 0⟩ : Vec2 ℚ) ⟨2, 1⟩
      ⟨33554436, 3⟩ ∧
    (roundF32 (-16777215) = (-16777215) ∧
      roundF32 0 = 0 ∧
      roundF32 2 = 2 ∧
      roundF32 1 = 1 ∧
      roundF32 33554436 = 33554436 ∧
      roundF32 3 = 3) ∧
    ∀ z1 z2 : Bool, flatQ.isInsideF libF z1 z2 ⟨-16777215, 0⟩ = true := by
  refine ⟨rfl, rfl, by unfold collinear; norm_num,
    ⟨line_f32_0,
     line_f32_1,
     line_f32_2,
     line_f32_3,
     line_f32_4,
     line_f32_5⟩, ?_⟩
  intro z1 z2
  rw [isInsideF_eval libF z1 z2 flatQ
    _ _ _ [] rfl rfl ⟨-16777215, 0⟩
    (.fin 3)
    (.fin 50331652)
    (.fin 1)
    (.fin 16777216)
    (.fin 0)
    (.fin (-50331644))
    (.fin 0)
    (.fin (-50331644))
    (.fin (-50331644))
    (.fin 0)
    (.fin 50331652)
    (.fin 50331648)
    (.fin 4)
    (.fin 0)
    (.fin 0)
    (.fin 0)
    (.fin 0)
    (.fin 0)
    (round32_step _ 3
      3
      (by norm_num [Dbl.sub]) line_f32_5 (by rw [abs_le]; norm_num))
    (round32_step _ 50331651
      50331652
      (by norm_num [Dbl.sub]) line_f32_6 (by rw [abs_le]; norm_num))
    (round32_step _ 1
      1
      (by norm_num [Dbl.sub]) line_f32_3 (by rw [abs_le]; norm_num))
    (round32_step _ 16777217
      16777216
      (by norm_num [Dbl.sub]) line_f32_7 (by rw [abs_le]; norm_num))
    (round32_step _ 0
      0
      (by norm_num [Dbl.sub]) line_f32_1 (by rw [abs_le]; norm_num))
    (round32_step _ (-50331645)
      (-50331644)
      (by norm_num [Dbl.mul]) line_f32_8 (by rw [abs_le]; norm_num))
    (round32_step _ 0
      0
      (by norm_num [Dbl.mul]) line_f32_1 (by rw [abs_le]; norm_num))
    (round32_step _ (-50331644)
      (-50331644)
      (by norm_num [Dbl.add]) line_f32_9 (by rw [abs_le]; norm_num))
    (round32_step _ (-50331645)
      (-50331644)
      (by norm_num [Dbl.mul]) line_f32_8 (by rw [abs_le]; norm_num))
    (round32_step _ 0
      0
      (by norm_num [Dbl.sub]) line_f32_1 (by rw [abs_le]; norm_num))
    (round32_step _ 50331652
      50331652
      (by norm_num [Dbl.mul]) line_f32_10 (by rw [abs_le]; norm_num))
    (round32_step _ 50331648
      50331648
      (by norm_num [Dbl.mul]) line_f32_11 (by rw [abs_le]; norm_num))
    (round32_step _ 4
      4
      (by norm_num [Dbl.sub]) line_f32_12 (by rw [abs_le]; norm_num))
    (round32_step _ 0
      0
      (by norm_num [Dbl.div]) line_f32_1 (by rw [abs_le]; norm_num))
    (round64_step _ 0
      0
      (by norm_num [Dbl.mul]) line_f64_13 (by rw [abs_le]; norm_num))
    (round64_step _ 0
      0
      (by norm_num [Dbl.sub]) line_f64_13 (by rw [abs_le]; norm_num))
    (round64_step _ 0
      0
      (by norm_num [Dbl.div]) line_f64_13 (by rw [abs_le]; norm_num))
    (round64_step _ 0
      0
      (by norm_num [Dbl.add]) line_f64_13 (by rw [abs_le]; norm_num))]
  norm_num [Dbl.le]

theorem lineS_f32_0 : roundF32 (-(16777215 / 33554432)) = (-(16777215 / 33554432)) := by
  rw [roundF32, roundBin_eval 24 (-149) _ (-2) (-25) (-16777215)
    (by rw [abs_of_neg (by norm_num)]; norm_num) (by rw [abs_of_neg (by norm_num)]; norm_num)
    (by norm_num)
    (roundEven_of_lt _ (-16777215) (by norm_num) (by norm_num))]
  norm_num

theorem lineS_f32_1 : roundF32 0 = 0 := by
  rw [roundF32]
  exact roundBin_zero _ _

theorem lineS_f32_2 : roundF32 (1 / 16777216) = (1 / 16777216) := by
  rw [roundF32, roundBin_eval 24 (-149) _ (-24) (-47) 8388608
    (by rw [abs_of_pos (by norm_num)]; norm_num) (by rw [abs_of_pos (by norm_num)]; norm_num)
    (by norm_num)
    (roundEven_of_lt _ 8388608 (by norm_num) (by norm_num))]
  norm_num

theorem lineS_f32_3 : roundF32 (1 / 33554432) = (1 / 33554432) := by
  rw [roundF32, roundBin_eval 24 (-149) _ (-25) (-48) 8388608
    (by rw [abs_of_pos (by norm_num)]; norm_num) (by rw [abs_of_pos (by norm_num)]; norm_num)
    (by norm_num)
    (roundEven_of_lt _ 8388608 (by norm_num) (by norm_num))]
  norm_num

theorem lineS_f32_4 : roundF32 (8388609 / 8388608) = (8388609 / 8388608) := by
  rw [roundF32, roundBin_eval 24 (-149) _ 0 (-23) 8388609
    (by rw [abs_of_pos (by norm_num)]; norm_num) (by rw [abs_of_pos (by norm_num)]; norm_num)
    (by norm_num)
    (roundEven_of_lt _ 8388609 (by norm_num) (by norm_num))]
  norm_num

theorem lineS_f32_5 : roundF32 (3 / 33554432) = (3 / 33554432) := by
  rw [roundF32, roundBin_eval 24 (-149) _ (-24) (-47) 12582912
    (by rw [abs_of_pos (by norm_num)]; norm_num) (by rw [abs_of_pos (by norm_num)]; norm_num)
    (by norm_num)
    (roundEven_of_lt _ 12582912 (by norm_num) (by norm_num))]
  norm_num

theorem lineS_f32_6 : roundF32 (50331651 / 33554432) = (12582913 / 8388608) := by
  rw [roundF32, roundBin_eval 24 (-149) _ 0 (-23) 12582913
    (by rw [abs_of_pos (by norm_num)]; norm_num) (by rw [abs_of_pos (by norm_num)]; norm_num)
    (by norm_num)
    ((roundEven_of_gt _ 12582912 (by norm_num) (by norm_num)).trans (by norm_num))]
  norm_num

theorem lineS_f32_7 : roundF32 (16777217 / 33554432) = (1 / 2) := by
  rw [roundF32, roundBin_eval 24 (-149) _ (-1) (-24) 8388608
    (by rw [abs_of_pos (by norm_num)]; norm_num) (by rw [abs_of_pos (by norm_num)]; norm_num)
    (by norm_num)
    (roundEven_half_even _ 8388608 (by norm_num) (by norm_num))]
  norm_num

theorem lineS_f32_8 :
    roundF32 (-(50331645 / 1125899906842624)) =
      (-(12582911 / 281474976710656)) := by
  rw [roundF32, roundBin_eval 24 (-149) _ (-25) (-48) (-12582911)
    (by rw [abs_of_neg (by norm_num)]; norm_num) (by rw [abs_of_neg (by norm_num)]; norm_num)
    (by norm_num)
    ((roundEven_of_gt _ (-12582912) (by norm_num) (by norm_num)).trans (by norm_num))]
  norm_num

theorem lineS_f32_9 :
    roundF32 (-(12582911 / 281474976710656)) =
      (-(12582911 / 281474976710656)) := by
  rw [roundF32, roundBin_eval 24 (-149) _ (-25) (-48) (-12582911)
    (by rw [abs_of_neg (by norm_num)]; norm_num) (by rw [abs_of_neg (by norm_num)]; norm_num)
    (by norm_num)
    (roundEven_of_lt _ (-12582911) (by norm_num) (by norm_num))]
  norm_num

theorem lineS_f32_10 : roundF32 (12582913 / 281474976710656) = (12582913 / 281474976710656) := by
  rw [roundF32, roundBin_eval 24 (-149) _ (-25) (-48) 12582913
    (by rw [abs_of_pos (by norm_num)]; norm_num) (by rw [abs_of_pos (by norm_num)]; norm_num)
    (by norm_num)
    (roundEven_of_lt _ 12582913 (by norm_num) (by norm_num))]
  norm_num

theorem lineS_f32_11 : roundF32 (3 / 67108864) = (3 / 67108864) := by
  rw [roundF32, roundBin_eval 24 (-149) _ (-25) (-48) 12582912
    (by rw [abs_of_pos (by norm_num)]; norm_num) (by rw [abs_of_pos (by norm_num)]; norm_num)
    (by norm_num)
    (roundEven_of_lt _ 12582912 (by norm_num) (by norm_num))]
  norm_num

theorem lineS_f32_12 : roundF32 (1 / 281474976710656) = (1 / 281474976710656) := by
  rw [roundF32, roundBin_eval 24 (-149) _ (-48) (-71) 8388608
    (by rw [abs_of_pos (by norm_num)]; norm_num) (by rw [abs_of_pos (by norm_num)]; norm_num)
    (by norm_num)
    (roundEven_of_lt _ 8388608 (by norm_num) (by norm_num))]
  norm_num

theorem lineS_f64_13 : roundF64 0 = 0 := by
  rw [roundF64]
  exact roundBin_zero _ _

/-- The triangle `flatCanvasQ`, which is `flatQ` scaled by `2 ^ (-25)` and so inside the
canvas: the corners are `float`s on one line and `isInside` on the machine is true at the
first corner. -/
theorem isInsideF_collinear_canvas :
    flatCanvasQ.positions =
      [⟨-(16777215 / 33554432), 0⟩, ⟨1 / 16777216, 1 / 33554432⟩,
        ⟨8388609 / 8388608, 3 / 33554432⟩] ∧
    flatCanvasQ.complete = true ∧
    collinear (⟨-(16777215 / 33554432), 0⟩ : Vec2 ℚ) ⟨1 / 16777216, 1 / 33554432⟩
      ⟨8388609 / 8388608, 3 / 33554432⟩ ∧
    (roundF32 (-(16777215 / 33554432)) = (-(16777215 / 33554432)) ∧
      roundF32 0 = 0 ∧
      roundF32 (1 / 16777216) = (1 / 16777216) ∧
      roundF32 (1 / 33554432) = (1 / 33554432) ∧
      roundF32 (8388609 / 8388608) = (8388609 / 8388608) ∧
      roundF32 (3 / 33554432) = (3 / 33554432)) ∧
    ∀ z1 z2 : Bool, flatCanvasQ.isInsideF libF z1 z2 ⟨-(16777215 / 33554432), 0⟩ = true := by
  refine ⟨rfl, rfl, by unfold collinear; norm_num,
    ⟨lineS_f32_0,
     lineS_f32_1,
     lineS_f32_2,
     lineS_f32_3,
     lineS_f32_4,
     lineS_f32_5⟩, ?_⟩
  intro z1 z2
  rw [isInsideF_eval libF z1 z2 flatCanvasQ
    _ _ _ [] rfl rfl ⟨-(16777215 / 33554432), 0⟩
    (.fin (3 / 33554432))
    (.fin (12582913 / 8388608))
    (.fin (1 / 33554432))
    (.fin (1 / 2))
    (.fin 0)
    (.fin (-(12582911 / 281474976710656)))
    (.fin 0)
    (.fin (-(12582911 / 281474976710656)))
    (.fin (-(12582911 / 281474976710656)))
    (.fin 0)
    (.fin (12582913 / 281474976710656))
    (.fin (3 / 67108864))
    (.fin (1 / 281474976710656))
    (.fin 0)
    (.fin 0)
    (.fin 0)
    (.fin 0)
    (.fin 0)
    (round32_step _ (3 / 33554432)
      (3 / 33554432)
      (by norm_num [Dbl.sub]) lineS_f32_5 (by rw [abs_le]; norm_num))
    (round32_step _ (50331651 / 33554432)
      (12582913 / 8388608)
      (by norm_num [Dbl.sub]) lineS_f32_6 (by rw [abs_le]; norm_num))
    (round32_step _ (1 / 33554432)
      (1 / 33554432)
      (by norm_num [Dbl.sub]) lineS_f32_3 (by rw [abs_le]; norm_num))
    (round32_step _ (16777217 / 33554432)
      (1 / 2)
      (by norm_num [Dbl.sub]) lineS_f32_7 (by rw [abs_le]; norm_num))
    (round32_step _ 0
      0
      (by norm_num [Dbl.sub]) lineS_f32_1 (by rw [abs_le]; norm_num))
    (round32_step _ (-(50331645 / 1125899906842624))
      (-(12582911 / 281474976710656))
      (by norm_num [Dbl.mul]) lineS_f32_8 (by rw [abs_le]; norm_num))
    (round32_step _ 0
      0
      (by norm_num [Dbl.mul]) lineS_f32_1 (by rw [abs_le]; norm_num))
    (round32_step _ (-(12582911 / 281474976710656))
      (-(12582911 / 281474976710656))
      (by norm_num [Dbl.add]) lineS_f32_9 (by rw [abs_le]; norm_num))
    (round32_step _ (-(50331645 / 1125899906842624))
      (-(12582911 / 281474976710656))
      (by norm_num [Dbl.mul]) lineS_f32_8 (by rw [abs_le]; norm_num))
    (round32_step _ 0
      0
      (by norm_num [Dbl.sub]) lineS_f32_1 (by rw [abs_le]; norm_num))
    (round32_step _ (12582913 / 281474976710656)
      (12582913 / 281474976710656)
      (by norm_num [Dbl.mul]) lineS_f32_10 (by rw [abs_le]; norm_num))
    (round32_step _ (3 / 67108864)
      (3 / 67108864)
      (by norm_num [Dbl.mul]) lineS_f32_11 (by rw [abs_le]; norm_num))
    (round32_step _ (1 / 281474976710656)
      (1 / 281474976710656)
      (by norm_num [Dbl.sub]) lineS_f32_12 (by rw [abs_le]; norm_num))
    (round32_step _ 0
      0
      (by norm_num [Dbl.div]) lineS_f32_1 (by rw [abs_le]; norm_num))
    (round64_step _ 0
      0
      (by norm_num [Dbl.mul]) lineS_f64_13 (by rw [abs_le]; norm_num))
    (round64_step _ 0
      0
      (by norm_num [Dbl.sub]) lineS_f64_13 (by rw [abs_le]; norm_num))
    (round64_step _ 0
      0
      (by norm_num [Dbl.div]) lineS_f64_13 (by rw [abs_le]; norm_num))
    (round64_step _ 0
      0
      (by norm_num [Dbl.add]) lineS_f64_13 (by rw [abs_le]; norm_num))]
  norm_num [Dbl.le]

/-- Claim C3, as the code has it. On a complete triangle with two or three equal corners
`isInside` returns false at every point, also on the machine, with every operation rounded
(for every rounding that keeps zero); on a complete triangle with collinear corners it
returns false in exact arithmetic.  In both cases the divisor of `w1` is zero, `w1` is an
infinity or `NaN`, and a comparison fails, whatever the sign of the zero. -/
theorem C3_degenerate_never_inside (lib : MathLib K) (T : Triangle K) (a b c : Vertex K)
    (hc : T.complete = true) (hv : T.vertices = [a, b, c]) (P : Vec2 K) :
    ((a.vertex = b.vertex ∨ b.vertex = c.vertex ∨ a.vertex = c.vertex) → lib.f32 0 = 0 →
      ∀ z1 z2 : Bool, T.isInsideF lib z1 z2 P = false) ∧
    ((collinear a.vertex b.vertex c.vertex ∨ a.vertex = b.vertex ∨
        b.vertex = c.vertex ∨ a.vertex = c.vertex) →
      T.isInside P = false ∧ ∀ z1 z2 : Bool, T.isInsideZ z1 z2 P = false) :=
  ⟨fun hdeg hr z1 z2 => isInsideF_of_coincide lib hr z1 z2 T a b c [] hv hdeg P,
    fun hdeg => isInside_false_of_degenerate T a b c hc hv hdeg P⟩

/-- The corners `(0,0)`, `(1,1)`, `(2,2)` are collinear: in exact arithmetic the triangle
does not contain its middle corner.  The triangle `(0,0)`, `(0,0)`, `(1,1)` has two equal
corners: on the machine it does not contain `(0,0)`. -/
theorem C3_witness :
    collinear (⟨0, 0⟩ : Vec2 ℚ) ⟨1, 1⟩ ⟨2, 2⟩ ∧
    (triQ ⟨0, 0⟩ ⟨1, 1⟩ ⟨2, 2⟩).isInside ⟨1, 1⟩ = false ∧
    libF.f32 0 = 0 ∧
    (triQ ⟨0, 0⟩ ⟨0, 0⟩ ⟨1, 1⟩).isInsideF libF false false ⟨0, 0⟩ = false := by
  have hcol : collinear (⟨0, 0⟩ : Vec2 ℚ) ⟨1, 1⟩ ⟨2, 2⟩ := by
    unfold collinear
    norm_num
  have h0 : libF.f32 0 = 0 := roundBin_zero _ _
  exact ⟨hcol, ((C3_degenerate_never_inside libF (triQ ⟨0, 0⟩ ⟨1, 1⟩ ⟨2, 2⟩)
      ⟨⟨0, 0⟩, white⟩ ⟨⟨1, 1⟩, white⟩ ⟨⟨2, 2⟩, white⟩ rfl rfl ⟨1, 1⟩).2 (Or.inl hcol)).1,
    h0, (C3_degenerate_never_inside libF (triQ ⟨0, 0⟩ ⟨0, 0⟩ ⟨1, 1⟩)
      ⟨⟨0, 0⟩, white⟩ ⟨⟨0, 0⟩, white⟩ ⟨⟨1, 1⟩, white⟩ rfl rfl ⟨0, 0⟩).1 (Or.inl rfl) h0
        false false⟩

end Soup
